import Mathlib

/-!
# glTFRuntime: static mesh assembly

A shallow embedding of `FglTFRuntimeParser::LoadStaticMesh_Internal`
(`Source/glTFRuntime/Private/glTFRuntimeParserStaticMeshes.cpp`) from the decoded
primitive list onwards and of `FglTFRuntimeParser::LoadStaticMeshes`, followed by theorems
about the emitted render data.

Conventions.
* Element IDs of the editable mesh (vertices, vertex instances, triangles, polygon groups)
  are the positions of the elements in their arrays: the function under study only ever
  creates elements, so the engine's sparse arrays stay dense and hand out `0, 1, 2, ...`.
* `CreateTriangle` makes one polygon holding one triangle, so the polygons of a group are
  its triangles in creation order.
* Scalars are rationals (exact arithmetic); `uint32`/`int32` values are naturals. All
  counts are bounded by the `int32` capacity of the engine's arrays, so the cast
  `static_cast<uint32>(ID.GetValue())` keeps the value.
* Engine services whose code is outside the parser (attribute defaults, triangle validation,
  normal/tangent derivation, bounds, safe normalisation, colour packing) are fields of
  `FEngine`, and a theorem holds for every engine unless it states what it assumes of it
  (the UV default for the zero-filled channels, bounding-box bounds for the pivot).
* Left out: the JSON lookup and `LoadPrimitives` (lines 12-20), the list
  `CPUVertexInstancesIDs` and the flag `bHasVertexColors`, which nothing reads, and what
  follows the bounds (resource initialisation, collision setup, broadcast; lines 347-411),
  none of which returns null or touches the buffers, sections or material slots.
-/

namespace glTFRuntime

/-! ## Vectors -/

structure FVector2D where
  X : ℚ
  Y : ℚ
deriving DecidableEq

structure FVector where
  X : ℚ
  Y : ℚ
  Z : ℚ
deriving DecidableEq

structure FVector4 where
  X : ℚ
  Y : ℚ
  Z : ℚ
  W : ℚ
deriving DecidableEq

/-- The value `FVector2D::ZeroVector`. -/
def FVector2D.ZeroVector : FVector2D := ⟨0, 0⟩

/-- The value `FVector::ZeroVector`. -/
def FVector.ZeroVector : FVector := ⟨0, 0, 0⟩

/-- Componentwise `operator-` of `FVector`. -/
def FVector.sub (a b : FVector) : FVector := ⟨a.X - b.X, a.Y - b.Y, a.Z - b.Z⟩

/-- Componentwise `operator+` of `FVector`. -/
def FVector.add (a b : FVector) : FVector := ⟨a.X + b.X, a.Y + b.Y, a.Z + b.Z⟩

/-- Scaling `operator*(float)` of `FVector`. -/
def FVector.scale (a : FVector) (s : ℚ) : FVector := ⟨a.X * s, a.Y * s, a.Z * s⟩

/-- The product `FVector::CrossProduct`. -/
def FVector.CrossProduct (a b : FVector) : FVector :=
  ⟨a.Y * b.Z - a.Z * b.Y, a.Z * b.X - a.X * b.Z, a.X * b.Y - a.Y * b.X⟩

/-- The conversion `FVector4 -> FVector`, which keeps X, Y, Z. -/
def FVector4.toFVector (v : FVector4) : FVector := ⟨v.X, v.Y, v.Z⟩

/-! ## Input data -/

/-- A material object: its identity and the name `GetFName()` returns (an `FName` is
compared by its name-table index, a number). -/
structure UMaterialInterface where
  Handle : Nat
  FName : Nat
deriving DecidableEq

/-- The decoded primitive `FglTFRuntimePrimitive`. Tangents are `FVector4` and are assigned
to the `FVector` tangent attribute, which keeps X, Y, Z; indices are `uint32` values. -/
structure FglTFRuntimePrimitive where
  Positions : List FVector
  Normals : List FVector
  Tangents : List FVector4
  UVs : List (List FVector2D)
  Indices : List Nat
  Material : UMaterialInterface
  Colors : List FVector4
deriving DecidableEq

inductive EglTFRuntimePivotPosition where
  | Asset
  | Center
  | Top
  | Bottom
deriving DecidableEq

/-- The fields of `FglTFRuntimeStaticMeshConfig` read by the assembly. -/
structure FglTFRuntimeStaticMeshConfig where
  bReverseWinding : Bool
  PivotPosition : EglTFRuntimePivotPosition
deriving DecidableEq

/-! ## Editable mesh -/

structure FMeshVertexInstance where
  VertexID : Nat
  Normal : FVector
  Tangent : FVector
  BinormalSign : ℚ
  Color : FVector4
  UVs : List FVector2D
deriving DecidableEq

structure FMeshTriangle where
  PolygonGroupID : Nat
  V0 : Nat
  V1 : Nat
  V2 : Nat
deriving DecidableEq

/-- The editable mesh `FMeshDescription` with the static-mesh attributes. -/
structure FMeshDescription where
  VertexPositions : List FVector
  VertexInstances : List FMeshVertexInstance
  Triangles : List FMeshTriangle
  PolygonGroupMaterialSlotNames : List Nat
  NumUVIndices : Nat
deriving DecidableEq

structure FBox where
  Min : FVector
  Max : FVector
deriving DecidableEq

structure FBoxSphereBounds where
  Origin : FVector
  BoxExtent : FVector
  SphereRadius : ℚ
deriving DecidableEq

/-- Packed 8-bit colour. -/
structure FColor where
  R : Nat
  G : Nat
  B : Nat
  A : Nat
deriving DecidableEq

/-- The engine services used by the assembly whose code lives outside the parser. -/
structure FEngine where
  /-- Default value of the vertex-instance normal attribute. -/
  DefaultNormal : FVector
  /-- Default value of the vertex-instance tangent attribute. -/
  DefaultTangent : FVector
  /-- Default value of the vertex-instance binormal sign attribute. -/
  DefaultBinormalSign : ℚ
  /-- Default value of the vertex-instance colour attribute. -/
  DefaultColor : FVector4
  /-- Default value of a vertex-instance UV channel. -/
  DefaultUV : FVector2D
  /-- Number of UV channels of a fresh mesh description. -/
  DefaultNumUVIndices : Nat
  /-- Whether `CreateTriangle` accepts the triangle (otherwise it returns
  `FTriangleID::Invalid`). -/
  TriangleAccepted : FMeshDescription → Nat → List Nat → Bool
  /-- Normal, tangent and binormal sign that `ComputeTangentsAndNormals` leaves on a vertex
  instance, given the flags (normals, tangents), the mesh and the instance's ID. -/
  ComputeTangentsAndNormals :
    Bool → Bool → FMeshDescription → Nat → FMeshVertexInstance → FVector × FVector × ℚ
  /-- The bounds `FMeshDescription::GetBounds`. -/
  GetBounds : FMeshDescription → FBoxSphereBounds
  /-- The operation `FVector::GetSafeNormal`. -/
  GetSafeNormal : FVector → FVector
  /-- The conversion `FLinearColor(v).ToFColor(true)`. -/
  ToFColor : FVector4 → FColor

/-- The mesh description right after `UStaticMesh::CreateStaticMeshDescription()`. -/
def CreateStaticMeshDescription (L : FEngine) : FMeshDescription :=
  { VertexPositions := [], VertexInstances := [], Triangles := [],
    PolygonGroupMaterialSlotNames := [], NumUVIndices := L.DefaultNumUVIndices }

/-- Apply `f` to the element at position `i` (nothing happens past the end). -/
def modifyAt {α : Type} (f : α → α) : List α → Nat → List α
  | [], _ => []
  | x :: xs, 0 => f x :: xs
  | x :: xs, i + 1 => x :: modifyAt f xs i

/-- Resize a channel list to `n` entries, padding with `d`. -/
def resizeTo {α : Type} (d : α) (n : Nat) (l : List α) : List α :=
  l.take n ++ List.replicate (n - l.length) d

/-- The call `UVsInstanceAttributesRef.SetNumIndices(NumUVs)`. -/
def SetNumIndices (L : FEngine) (md : FMeshDescription) (NumUVs : Nat) : FMeshDescription :=
  { md with
    NumUVIndices := NumUVs
    VertexInstances :=
      md.VertexInstances.map (fun vi => { vi with UVs := resizeTo L.DefaultUV NumUVs vi.UVs }) }

/-- The loop over `Primitive.Positions` (lines 73-78): create a vertex, store its position,
remember its ID. -/
def createVertices : List FVector → FMeshDescription → List Nat → FMeshDescription × List Nat
  | [], md, VerticesIDs => (md, VerticesIDs)
  | Position :: rest, md, VerticesIDs =>
    let VertexID := md.VertexPositions.length
    createVertices rest { md with VertexPositions := md.VertexPositions ++ [Position] }
      (VerticesIDs ++ [VertexID])

/-- The call `CreateVertexInstance(VertexID)`: a new instance with default attributes. -/
def CreateVertexInstance (L : FEngine) (md : FMeshDescription) (VertexID : Nat) :
    Nat × FMeshDescription :=
  (md.VertexInstances.length,
   { md with
     VertexInstances := md.VertexInstances ++
       [{ VertexID := VertexID, Normal := L.DefaultNormal, Tangent := L.DefaultTangent,
          BinormalSign := L.DefaultBinormalSign, Color := L.DefaultColor,
          UVs := List.replicate md.NumUVIndices L.DefaultUV }] })

/-- Write through an attribute reference: update the vertex instance `ID`. -/
def setInstance (md : FMeshDescription) (ID : Nat) (f : FMeshVertexInstance → FMeshVertexInstance) :
    FMeshDescription :=
  { md with VertexInstances := modifyAt f md.VertexInstances ID }

/-- Lines 92-102. -/
def writeNormal (P : FglTFRuntimePrimitive) (VertexIndex ID : Nat) (md : FMeshDescription) :
    FMeshDescription :=
  if P.Normals.length > 0 then
    if VertexIndex ≥ P.Normals.length then
      setInstance md ID (fun vi => { vi with Normal := FVector.ZeroVector })
    else
      setInstance md ID
        (fun vi => { vi with Normal := P.Normals.getD VertexIndex FVector.ZeroVector })
  else md

/-- Lines 104-114. -/
def writeTangent (P : FglTFRuntimePrimitive) (VertexIndex ID : Nat) (md : FMeshDescription) :
    FMeshDescription :=
  if P.Tangents.length > 0 then
    if VertexIndex ≥ P.Tangents.length then
      setInstance md ID (fun vi => { vi with Tangent := FVector.ZeroVector })
    else
      setInstance md ID
        (fun vi => { vi with Tangent := (P.Tangents.getD VertexIndex ⟨0, 0, 0, 0⟩).toFVector })
  else md

/-- Lines 116-126. -/
def writeColor (P : FglTFRuntimePrimitive) (VertexIndex ID : Nat) (md : FMeshDescription) :
    FMeshDescription :=
  if P.Colors.length > 0 then
    if VertexIndex ≥ P.Colors.length then
      setInstance md ID (fun vi => { vi with Color := ⟨0, 0, 0, 0⟩ })
    else
      setInstance md ID (fun vi => { vi with Color := P.Colors.getD VertexIndex ⟨0, 0, 0, 0⟩ })
  else md

/-- Lines 128-138: the loop over the UV sets of the primitive, from channel `UVIndex` on. -/
def writeUVs (VertexIndex ID : Nat) : List (List FVector2D) → Nat → FMeshDescription →
    FMeshDescription
  | [], _, md => md
  | S :: rest, UVIndex, md =>
    writeUVs VertexIndex ID rest (UVIndex + 1)
      (if VertexIndex ≥ S.length then
        setInstance md ID (fun vi => { vi with UVs := vi.UVs.set UVIndex FVector2D.ZeroVector })
      else
        setInstance md ID
          (fun vi => { vi with UVs := vi.UVs.set UVIndex (S.getD VertexIndex FVector2D.ZeroVector) }))

/-- The call `TArray::Swap(i, j)`. -/
def Swap (l : List Nat) (i j : Nat) : List Nat :=
  (l.set i (l.getD j 0)).set j (l.getD i 0)

/-- The call `CreateTriangle(PolygonGroupID, VertexInstanceIDs, Edges)`; `none` stands for
`FTriangleID::Invalid`. -/
def CreateTriangle (L : FEngine) (md : FMeshDescription) (PolygonGroupID : Nat)
    (VertexInstanceIDs : List Nat) : Option FMeshDescription :=
  match VertexInstanceIDs with
  | [a, b, c] =>
    if L.TriangleAccepted md PolygonGroupID VertexInstanceIDs then
      some { md with Triangles := md.Triangles ++ [⟨PolygonGroupID, a, b, c⟩] }
    else none
  | _ => none

/-- Lines 85-138: create the vertex instance for `VertexIndex` and write its attributes;
returns the new ID and the mesh. -/
def createFilledInstance (L : FEngine) (P : FglTFRuntimePrimitive) (VerticesIDs : List Nat)
    (md : FMeshDescription) (VertexIndex : Nat) : Nat × FMeshDescription :=
  let created := CreateVertexInstance L md (VerticesIDs.getD VertexIndex 0)
  let NewVertexInstanceID := created.1
  let md := writeNormal P VertexIndex NewVertexInstanceID created.2
  let md := writeTangent P VertexIndex NewVertexInstanceID md
  let md := writeColor P VertexIndex NewVertexInstanceID md
  let md := writeUVs VertexIndex NewVertexInstanceID P.UVs 0 md
  (NewVertexInstanceID, md)

/-- The variables that live across iterations of the index loop. -/
structure FIndexLoopState where
  MeshDescription : FMeshDescription
  VertexInstancesIDs : List Nat
  TriangleVerticesIDs : List Nat
deriving DecidableEq

/-- One iteration of the loop over `Primitive.Indices` (lines 80-169); `none` is
`return nullptr`. -/
def indexStep (L : FEngine) (cfg : FglTFRuntimeStaticMeshConfig) (P : FglTFRuntimePrimitive)
    (PolygonGroupID : Nat) (VerticesIDs : List Nat) (st : FIndexLoopState) (VertexIndex : Nat) :
    Option FIndexLoopState :=
  if VertexIndex ≥ VerticesIDs.length then none
  else
    let filled := createFilledInstance L P VerticesIDs st.MeshDescription VertexIndex
    let NewVertexInstanceID := filled.1
    let md := filled.2
    let VertexInstancesIDs := st.VertexInstancesIDs ++ [NewVertexInstanceID]
    let TriangleVerticesIDs := st.TriangleVerticesIDs ++ [VerticesIDs.getD VertexIndex 0]
    if VertexInstancesIDs.length = 3 then
      if TriangleVerticesIDs.getD 0 0 = TriangleVerticesIDs.getD 1 0 ∨
         TriangleVerticesIDs.getD 1 0 = TriangleVerticesIDs.getD 2 0 ∨
         TriangleVerticesIDs.getD 0 0 = TriangleVerticesIDs.getD 2 0 then
        some ⟨md, [], []⟩
      else
        let VertexInstancesIDs :=
          if cfg.bReverseWinding then Swap VertexInstancesIDs 1 2 else VertexInstancesIDs
        match CreateTriangle L md PolygonGroupID VertexInstancesIDs with
        | none => none
        | some md => some ⟨md, [], []⟩
    else some ⟨md, VertexInstancesIDs, TriangleVerticesIDs⟩

/-- The loop over `Primitive.Indices`. -/
def indexLoop (L : FEngine) (cfg : FglTFRuntimeStaticMeshConfig) (P : FglTFRuntimePrimitive)
    (PolygonGroupID : Nat) (VerticesIDs : List Nat) :
    List Nat → FIndexLoopState → Option FIndexLoopState
  | [], st => some st
  | VertexIndex :: rest, st =>
    match indexStep L cfg P PolygonGroupID VerticesIDs st VertexIndex with
    | none => none
    | some st => indexLoop L cfg P PolygonGroupID VerticesIDs rest st

/-- A material slot `FStaticMaterial`. -/
structure FStaticMaterial where
  MaterialInterface : UMaterialInterface
  MaterialSlotName : Nat
  bUVChannelDataInitialized : Bool
deriving DecidableEq

/-- The variables that live across iterations of the primitive loop. -/
structure FBuilderState where
  MeshDescription : FMeshDescription
  StaticMaterials : List FStaticMaterial
deriving DecidableEq

/-- One iteration of the loop over the primitives (lines 50-171). -/
def primitiveStep (L : FEngine) (cfg : FglTFRuntimeStaticMeshConfig) (NumUVs : Nat)
    (st : FBuilderState) (P : FglTFRuntimePrimitive) : Option FBuilderState :=
  let PolygonGroupID := st.MeshDescription.PolygonGroupMaterialSlotNames.length
  let md := { st.MeshDescription with
    PolygonGroupMaterialSlotNames :=
      st.MeshDescription.PolygonGroupMaterialSlotNames ++ [P.Material.FName] }
  let StaticMaterials := st.StaticMaterials ++ [⟨P.Material, P.Material.FName, true⟩]
  let md := SetNumIndices L md NumUVs
  let vs := createVertices P.Positions md []
  match indexLoop L cfg P PolygonGroupID vs.2 P.Indices ⟨vs.1, [], []⟩ with
  | none => none
  | some s => some ⟨s.MeshDescription, StaticMaterials⟩

/-- The loop over the primitives. -/
def primitiveLoop (L : FEngine) (cfg : FglTFRuntimeStaticMeshConfig) (NumUVs : Nat) :
    List FglTFRuntimePrimitive → FBuilderState → Option FBuilderState
  | [], st => some st
  | P :: rest, st =>
    match primitiveStep L cfg NumUVs st P with
    | none => none
    | some st => primitiveLoop L cfg NumUVs rest st

/-- The globals computed by the first loop over the primitives (lines 31-48). -/
structure FMeshParameters where
  NumUVs : Nat
  bCalculateNormals : Bool
  bCalculateTangents : Bool
deriving DecidableEq

/-- One iteration of lines 34-48. -/
def parametersStep (a : FMeshParameters) (P : FglTFRuntimePrimitive) : FMeshParameters :=
  { NumUVs := if P.UVs.length > a.NumUVs then P.UVs.length else a.NumUVs
    bCalculateNormals := if P.Normals.length = 0 then true else a.bCalculateNormals
    bCalculateTangents := if P.Tangents.length = 0 then true else a.bCalculateTangents }

/-- Lines 31-48. -/
def computeParameters (Primitives : List FglTFRuntimePrimitive) : FMeshParameters :=
  Primitives.foldl parametersStep ⟨1, false, false⟩

/-- The editable mesh and the material slots after the builder pass (lines 25-171). -/
def buildMeshDescription (L : FEngine) (cfg : FglTFRuntimeStaticMeshConfig)
    (Primitives : List FglTFRuntimePrimitive) : Option FBuilderState :=
  primitiveLoop L cfg (computeParameters Primitives).NumUVs Primitives
    ⟨CreateStaticMeshDescription L, []⟩

/-! ## Normal/tangent derivation and pivot -/

/-- Map over a list together with the element IDs, starting at ID `i`. -/
def mapWithID {α β : Type} (f : Nat → α → β) : Nat → List α → List β
  | _, [] => []
  | i, x :: xs => f i x :: mapWithID f (i + 1) xs

/-- The call `FStaticMeshOperations::ComputeTangentsAndNormals(MeshDescription, flags)`: it
rewrites the normal, tangent and binormal sign of the vertex instances and nothing else. -/
def ComputeTangentsAndNormals (L : FEngine) (bNormals bTangents : Bool) (md : FMeshDescription) :
    FMeshDescription :=
  { md with
    VertexInstances := mapWithID
      (fun ID vi =>
        let r := L.ComputeTangentsAndNormals bNormals bTangents md ID vi
        { vi with Normal := r.1, Tangent := r.2.1, BinormalSign := r.2.2 })
      0 md.VertexInstances }

/-- Lines 173-180. `ComputePolygonTangentsAndNormals` only writes polygon attributes, which
nothing below reads, so it leaves the modelled fields as they are. -/
def deriveNormalsAndTangents (L : FEngine) (params : FMeshParameters) (md : FMeshDescription) :
    FMeshDescription :=
  if params.bCalculateNormals || params.bCalculateTangents then
    ComputeTangentsAndNormals L params.bCalculateNormals params.bCalculateTangents md
  else md

/-- The box `FBoxSphereBounds::GetBox()`. -/
def FBoxSphereBounds.GetBox (b : FBoxSphereBounds) : FBox :=
  ⟨b.Origin.sub b.BoxExtent, b.Origin.add b.BoxExtent⟩

/-- The point `FBox::GetCenter()`. -/
def FBox.GetCenter (b : FBox) : FVector := (b.Min.add b.Max).scale (1 / 2)

/-- The vector `FBox::GetExtent()`. -/
def FBox.GetExtent (b : FBox) : FVector := (b.Max.sub b.Min).scale (1 / 2)

/-- Lines 185-199: the pivot delta for a mode other than `Asset`. -/
def PivotDelta (cfg : FglTFRuntimeStaticMeshConfig) (MeshBounds : FBoxSphereBounds) : FVector :=
  match cfg.PivotPosition with
  | EglTFRuntimePivotPosition.Center => MeshBounds.Origin
  | EglTFRuntimePivotPosition.Top =>
    MeshBounds.GetBox.GetCenter.add ⟨0, 0, MeshBounds.GetBox.GetExtent.Z⟩
  | EglTFRuntimePivotPosition.Bottom =>
    MeshBounds.GetBox.GetCenter.sub ⟨0, 0, MeshBounds.GetBox.GetExtent.Z⟩
  | EglTFRuntimePivotPosition.Asset => FVector.ZeroVector

/-- Lines 182-205. -/
def applyPivot (L : FEngine) (cfg : FglTFRuntimeStaticMeshConfig) (md : FMeshDescription) :
    FMeshDescription :=
  if cfg.PivotPosition ≠ EglTFRuntimePivotPosition.Asset then
    let PivotDelta := PivotDelta cfg (L.GetBounds md)
    { md with VertexPositions := md.VertexPositions.map (fun p => p.sub PivotDelta) }
  else md

/-! ## Render data -/

structure FStaticMeshBuildVertex where
  Position : FVector
  TangentX : FVector
  TangentY : FVector
  TangentZ : FVector
  UVs : List FVector2D
  Color : FColor
deriving DecidableEq

/-- Lines 233-263 for one vertex instance. -/
def buildVertex (L : FEngine) (md : FMeshDescription) (vi : FMeshVertexInstance) :
    FStaticMeshBuildVertex :=
  { Position := md.VertexPositions.getD vi.VertexID FVector.ZeroVector
    TangentX := vi.Tangent
    TangentY := (L.GetSafeNormal (FVector.CrossProduct vi.Normal vi.Tangent)).scale vi.BinormalSign
    TangentZ := vi.Normal
    UVs := (List.range md.NumUVIndices).map (fun UVIndex => vi.UVs.getD UVIndex FVector2D.ZeroVector)
    Color := L.ToFColor vi.Color }

/-- Lines 220-263: one build vertex per vertex instance, at the instance's ID. -/
def buildVertices (L : FEngine) (md : FMeshDescription) : List FStaticMeshBuildVertex :=
  md.VertexInstances.map (buildVertex L md)

inductive EIndexBufferStride where
  | Force16Bit
  | Force32Bit
deriving DecidableEq

structure FStaticMeshSection where
  FirstIndex : Nat
  NumTriangles : Nat
  MinVertexIndex : Nat
  MaxVertexIndex : Nat
  MaterialIndex : Int
  bEnableCollision : Bool
  bCastShadow : Bool
deriving DecidableEq

/-- Position of the first element satisfying `p`. -/
def firstIndexWhere {α : Type} (p : α → Bool) : List α → Option Nat
  | [] => none
  | x :: xs => if p x then some 0 else (firstIndexWhere p xs).map (fun i => i + 1)

/-- The call `TArray::IndexOfByPredicate`; `-1` is `INDEX_NONE`. -/
def IndexOfByPredicate {α : Type} (p : α → Bool) (l : List α) : Int :=
  match firstIndexWhere p l with
  | some i => (i : Int)
  | none => -1

/-- The polygons of a group, `GetPolygonGroupPolygons`, each holding its one triangle. -/
def GetPolygonGroupPolygons (md : FMeshDescription) (PolygonGroupID : Nat) : List FMeshTriangle :=
  md.Triangles.filter (fun t => t.PolygonGroupID = PolygonGroupID)

/-- The locals of one section while its triangles are written (lines 295-314). -/
structure FSectionFill where
  TriangleCount : Nat
  MinVertexIndex : Nat
  MaxVertexIndex : Nat
  IndexBuffer : List Nat
  IndexBufferIndex : Nat
deriving DecidableEq

/-- Lines 305-309. -/
def writeIndex (a : FSectionFill) (VertexIndex : Nat) : FSectionFill :=
  { a with
    MinVertexIndex := min a.MinVertexIndex VertexIndex
    MaxVertexIndex := max a.MaxVertexIndex VertexIndex
    IndexBuffer := a.IndexBuffer.set a.IndexBufferIndex VertexIndex
    IndexBufferIndex := a.IndexBufferIndex + 1 }

/-- Lines 301-313 for one triangle. -/
def writeTriangle (a : FSectionFill) (t : FMeshTriangle) : FSectionFill :=
  let a := [t.V0, t.V1, t.V2].foldl writeIndex a
  { a with TriangleCount := a.TriangleCount + 1 }

/-- The variables that live across iterations of the polygon group loop. -/
structure FLowerState where
  Sections : List FStaticMeshSection
  IndexBuffer : List Nat
  IndexBufferIndex : Nat
  IndexBufferStride : EIndexBufferStride
deriving DecidableEq

/-- One iteration of the loop over the polygon groups (lines 284-334); `SectionIndex` is only
counted, never read. -/
def sectionStep (md : FMeshDescription) (StaticMaterials : List FStaticMaterial)
    (st : FLowerState) (PolygonGroupID : Nat) : FLowerState :=
  if (GetPolygonGroupPolygons md PolygonGroupID).length = 0 then st
  else
    let a := (GetPolygonGroupPolygons md PolygonGroupID).foldl writeTriangle
      ⟨0, 4294967295, 0, st.IndexBuffer, st.IndexBufferIndex⟩
    let MaterialSlotName := md.PolygonGroupMaterialSlotNames.getD PolygonGroupID 0
    let MaterialIndex :=
      IndexOfByPredicate (fun m : FStaticMaterial => m.MaterialSlotName = MaterialSlotName)
        StaticMaterials
    { Sections := st.Sections ++
        [{ FirstIndex := st.IndexBufferIndex, NumTriangles := a.TriangleCount,
           MinVertexIndex := a.MinVertexIndex, MaxVertexIndex := a.MaxVertexIndex,
           MaterialIndex := MaterialIndex, bEnableCollision := true, bCastShadow := true }]
      IndexBuffer := a.IndexBuffer
      IndexBufferIndex := a.IndexBufferIndex
      IndexBufferStride :=
        if a.MaxVertexIndex > 65535 then EIndexBufferStride.Force32Bit else st.IndexBufferStride }

/-- Lines 275-334: the index buffer, zeroed at `NumTriangles * 3` entries, and the sections. -/
def buildSections (md : FMeshDescription) (StaticMaterials : List FStaticMaterial) : FLowerState :=
  (List.range md.PolygonGroupMaterialSlotNames.length).foldl (sectionStep md StaticMaterials)
    ⟨[], List.replicate (md.Triangles.length * 3) 0, 0, EIndexBufferStride.Force16Bit⟩

/-- The parts of the returned `UStaticMesh` that the assembly fills in. -/
structure UStaticMesh where
  StaticMaterials : List FStaticMaterial
  BuildVertices : List FStaticMeshBuildVertex
  NumTexCoords : Nat
  IndexBuffer : List Nat
  IndexBufferStride : EIndexBufferStride
  Sections : List FStaticMeshSection
  Bounds : FBoxSphereBounds
  ExtendedBounds : FBoxSphereBounds
deriving DecidableEq

/-- The editable mesh that is lowered: builder pass, derivation, pivot (lines 25-205). -/
def finalMeshDescription (L : FEngine) (cfg : FglTFRuntimeStaticMeshConfig)
    (Primitives : List FglTFRuntimePrimitive) (built : FBuilderState) : FMeshDescription :=
  applyPivot L cfg (deriveNormalsAndTangents L (computeParameters Primitives) built.MeshDescription)

/-- Lines 207-345: lowering of the editable mesh into the render data. -/
def lowerMesh (L : FEngine) (md : FMeshDescription) (StaticMaterials : List FStaticMaterial) :
    UStaticMesh :=
  let lowered := buildSections md StaticMaterials
  { StaticMaterials := StaticMaterials
    BuildVertices := buildVertices L md
    NumTexCoords := md.NumUVIndices
    IndexBuffer := lowered.IndexBuffer
    IndexBufferStride := lowered.IndexBufferStride
    Sections := lowered.Sections
    Bounds := L.GetBounds md
    ExtendedBounds := L.GetBounds md }

/-- The function `FglTFRuntimeParser::LoadStaticMesh_Internal` from the decoded primitives on;
`none` is `nullptr`. -/
def LoadStaticMesh_Internal (L : FEngine) (Primitives : List FglTFRuntimePrimitive)
    (cfg : FglTFRuntimeStaticMeshConfig) : Option UStaticMesh :=
  match buildMeshDescription L cfg Primitives with
  | none => none
  | some built =>
    some (lowerMesh L (finalMeshDescription L cfg Primitives built) built.StaticMaterials)

/-- An engine layer for examples: engine attribute defaults, every triangle accepted, derived
attributes left as authored, bounds and normalisation not evaluated. -/
def sampleEngine : FEngine :=
  { DefaultNormal := ⟨0, 0, 0⟩, DefaultTangent := ⟨0, 0, 0⟩, DefaultBinormalSign := 0,
    DefaultColor := ⟨1, 1, 1, 1⟩, DefaultUV := ⟨0, 0⟩, DefaultNumUVIndices := 1,
    TriangleAccepted := fun _ _ _ => true,
    ComputeTangentsAndNormals := fun _ _ _ _ vi => (vi.Normal, vi.Tangent, vi.BinormalSign),
    GetBounds := fun _ => ⟨⟨0, 0, 0⟩, ⟨0, 0, 0⟩, 0⟩,
    GetSafeNormal := fun v => v,
    ToFColor := fun _ => ⟨255, 255, 255, 255⟩ }

/-- The primitive of the stride upgrade scenario: 70000 positions and the single triangle
`[0, 1, 69999]`. -/
def strideUpgradePrimitive : FglTFRuntimePrimitive :=
  { Positions := (List.range 70000).map (fun k : Nat => FVector.mk (k : ℚ) 0 0), Normals := [],
    Tangents := [],
    UVs := [], Indices := [0, 1, 69999], Material := ⟨1, 1⟩, Colors := [] }

/-- A primitive with three positions, two normals, no tangents, one color and two UV sets of
lengths 3 and 1, used to exercise the attribute fill rule. -/
def fillRulePrimitive : FglTFRuntimePrimitive :=
  { Positions := [⟨0, 0, 0⟩, ⟨1, 0, 0⟩, ⟨0, 1, 0⟩], Normals := [⟨0, 0, 1⟩, ⟨0, 0, 1⟩],
    Tangents := [], UVs := [[⟨1, 2⟩, ⟨3, 4⟩, ⟨5, 6⟩], [⟨7, 8⟩]], Indices := [0, 1, 2],
    Material := ⟨1, 1⟩, Colors := [⟨1, 0, 0, 1⟩] }

/-- A material named `n`. -/
def sampleMaterial (n : Nat) : UMaterialInterface := ⟨n, n⟩

/-- A primitive with three positions, the given indices and material, no other stream. -/
def samplePrimitive (Indices : List Nat) (m : Nat) : FglTFRuntimePrimitive :=
  { Positions := [⟨0, 0, 0⟩, ⟨1, 0, 0⟩, ⟨0, 1, 0⟩], Normals := [], Tangents := [], UVs := [],
    Indices := Indices, Material := sampleMaterial m, Colors := [] }

/-! ## Closed forms used by the proofs -/

/-- Effect of lines 92-102 on the new vertex instance. -/
def fillNormal (P : FglTFRuntimePrimitive) (i : Nat) (vi : FMeshVertexInstance) :
    FMeshVertexInstance :=
  if P.Normals.length > 0 then
    if i ≥ P.Normals.length then { vi with Normal := FVector.ZeroVector }
    else { vi with Normal := P.Normals.getD i FVector.ZeroVector }
  else vi

/-- Effect of lines 104-114 on the new vertex instance. -/
def fillTangent (P : FglTFRuntimePrimitive) (i : Nat) (vi : FMeshVertexInstance) :
    FMeshVertexInstance :=
  if P.Tangents.length > 0 then
    if i ≥ P.Tangents.length then { vi with Tangent := FVector.ZeroVector }
    else { vi with Tangent := (P.Tangents.getD i ⟨0, 0, 0, 0⟩).toFVector }
  else vi

/-- Effect of lines 116-126 on the new vertex instance. -/
def fillColor (P : FglTFRuntimePrimitive) (i : Nat) (vi : FMeshVertexInstance) :
    FMeshVertexInstance :=
  if P.Colors.length > 0 then
    if i ≥ P.Colors.length then { vi with Color := ⟨0, 0, 0, 0⟩ }
    else { vi with Color := P.Colors.getD i ⟨0, 0, 0, 0⟩ }
  else vi

/-- Effect of lines 128-138 on the UV channels of the new vertex instance. -/
def fillUVs (i : Nat) : List (List FVector2D) → Nat → List FVector2D → List FVector2D
  | [], _, uv => uv
  | S :: rest, k, uv =>
    fillUVs i rest (k + 1)
      (uv.set k (if i ≥ S.length then FVector2D.ZeroVector else S.getD i FVector2D.ZeroVector))

/-- The vertex instance the builder leaves for an occurrence of index `i` of primitive `P`
that refers to vertex `VertexID`, in a mesh with `N` UV channels. -/
def specInstance (L : FEngine) (P : FglTFRuntimePrimitive) (N VertexID i : Nat) :
    FMeshVertexInstance :=
  let vi := fillColor P i (fillTangent P i (fillNormal P i
    { VertexID := VertexID, Normal := L.DefaultNormal, Tangent := L.DefaultTangent,
      BinormalSign := L.DefaultBinormalSign, Color := L.DefaultColor,
      UVs := List.replicate N L.DefaultUV }))
  { vi with UVs := fillUVs i P.UVs 0 vi.UVs }

/-- The triangles of one primitive: one per aligned index triple with pairwise distinct
indices, over the vertex instances `o, o+1, ...` created for the index stream. -/
def specTriangles (rev : Bool) (G : Nat) : Nat → List Nat → List FMeshTriangle
  | o, a :: b :: c :: rest =>
    (if a = b ∨ b = c ∨ a = c then []
     else [if rev then ⟨G, o, o + 2, o + 1⟩ else ⟨G, o, o + 1, o + 2⟩]) ++
      specTriangles rev G (o + 3) rest
  | _, _ => []

/-- The polygon groups of the primitives as (slot name, triangles); `G` and `o` are the
group ID and the vertex instance ID the first primitive starts at. -/
def specGroups (rev : Bool) :
    Nat → Nat → List FglTFRuntimePrimitive → List (Nat × List FMeshTriangle)
  | _, _, [] => []
  | G, o, P :: rest =>
    (P.Material.FName, specTriangles rev G o P.Indices) ::
      specGroups rev (G + 1) (o + P.Indices.length) rest

/-- The vertex instances of every primitive; `vb` is the vertex ID the first primitive
starts at. -/
def specInstances (L : FEngine) (N : Nat) : Nat → List FglTFRuntimePrimitive →
    List FMeshVertexInstance
  | _, [] => []
  | vb, P :: rest =>
    P.Indices.map (fun i => specInstance L P N (vb + i) i) ++
      specInstances L N (vb + P.Positions.length) rest

/-- The three vertex instance IDs of a triangle, in triangle order. -/
def corners (t : FMeshTriangle) : List Nat := [t.V0, t.V1, t.V2]

/-- Sequential writes `buf[i] = v; i++` for the values of `vals`. -/
def writeAt : List Nat → Nat → List Nat → List Nat
  | buf, _, [] => buf
  | buf, i, v :: vals => writeAt (buf.set i v) (i + 1) vals

/-- The section emitted for a non-empty polygon group whose triangles are `T`. -/
def specSection (StaticMaterials : List FStaticMaterial) (name : Nat) (start : Nat)
    (T : List FMeshTriangle) : FStaticMeshSection :=
  { FirstIndex := start, NumTriangles := T.length,
    MinVertexIndex := (T.flatMap corners).foldl min 4294967295,
    MaxVertexIndex := (T.flatMap corners).foldl max 0,
    MaterialIndex :=
      IndexOfByPredicate (fun m : FStaticMaterial => m.MaterialSlotName = name) StaticMaterials,
    bEnableCollision := true, bCastShadow := true }

/-- The sections emitted for polygon groups given as (slot name, triangles), the first one
starting at index `start`. -/
def specSections (StaticMaterials : List FStaticMaterial) :
    Nat → List (Nat × List FMeshTriangle) → List FStaticMeshSection
  | _, [] => []
  | start, (name, T) :: rest =>
    if T.length = 0 then specSections StaticMaterials start rest
    else specSection StaticMaterials name start T ::
      specSections StaticMaterials (start + 3 * T.length) rest

/-- Number of aligned index triples with pairwise distinct indices. -/
def countTriangles : List Nat → Nat
  | a :: b :: c :: rest => (if a = b ∨ b = c ∨ a = c then 0 else 1) + countTriangles rest
  | _ => 0

/-- The mesh after the vertex instance for index `i` has been created and filled. -/
def pushInstance (L : FEngine) (P : FglTFRuntimePrimitive) (VerticesIDs : List Nat)
    (md : FMeshDescription) (i : Nat) : FMeshDescription :=
  { md with
    VertexInstances := md.VertexInstances ++
      [specInstance L P md.NumUVIndices (VerticesIDs.getD i 0) i] }

/-- The builder state after one more primitive, given that its pass succeeds. -/
def specStep (L : FEngine) (rev : Bool) (N : Nat) (st : FBuilderState)
    (P : FglTFRuntimePrimitive) : FBuilderState :=
  { MeshDescription :=
      { VertexPositions := st.MeshDescription.VertexPositions ++ P.Positions
        VertexInstances :=
          st.MeshDescription.VertexInstances.map
              (fun vi => { vi with UVs := resizeTo L.DefaultUV N vi.UVs }) ++
            P.Indices.map
              (fun i => specInstance L P N (st.MeshDescription.VertexPositions.length + i) i)
        Triangles := st.MeshDescription.Triangles ++
          specTriangles rev st.MeshDescription.PolygonGroupMaterialSlotNames.length
            st.MeshDescription.VertexInstances.length P.Indices
        PolygonGroupMaterialSlotNames :=
          st.MeshDescription.PolygonGroupMaterialSlotNames ++ [P.Material.FName]
        NumUVIndices := N }
    StaticMaterials := st.StaticMaterials ++ [⟨P.Material, P.Material.FName, true⟩] }

/-- The polygon groups `gs` of a mesh as (slot name, triangles). -/
def groupsOf (md : FMeshDescription) (gs : List Nat) : List (Nat × List FMeshTriangle) :=
  gs.map (fun g => (md.PolygonGroupMaterialSlotNames.getD g 0, GetPolygonGroupPolygons md g))

/-- All corner IDs of the given groups, group after group. -/
def groupCorners (groups : List (Nat × List FMeshTriangle)) : List Nat :=
  groups.flatMap (fun p => p.2.flatMap corners)

/-- Total number of triangles of the given groups. -/
def groupTriangles (groups : List (Nat × List FMeshTriangle)) : Nat :=
  (groups.map (fun p => p.2.length)).sum

/-- The stride after the given sections were emitted, starting from stride `s0`. -/
def strideOf (secs : List FStaticMeshSection) (s0 : EIndexBufferStride) : EIndexBufferStride :=
  if secs.any (fun s => decide (s.MaxVertexIndex > 65535)) then EIndexBufferStride.Force32Bit
  else s0

/-- The three corners of `t` are vertex instances of `VIs` that refer to pairwise distinct
vertices. -/
def DistinctCorners (VIs : List FMeshVertexInstance) (t : FMeshTriangle) : Prop :=
  ∃ x y z, VIs[t.V0]? = some x ∧ VIs[t.V1]? = some y ∧ VIs[t.V2]? = some z ∧
    x.VertexID ≠ y.VertexID ∧ y.VertexID ≠ z.VertexID ∧ x.VertexID ≠ z.VertexID

/-- The triangle with its second and third corner exchanged. -/
def swapCorners (t : FMeshTriangle) : FMeshTriangle := ⟨t.PolygonGroupID, t.V0, t.V2, t.V1⟩

/-- The attribute fill rule for the vertex instance `vi` created for index `i` of primitive
`P`: for normals, tangents (stored as their vec3 part) and colors, the stream's entry `i` when
the stream is non-empty and `i` is inside it, the zero value when the stream is non-empty and
`i` is past its end, and the engine default (the attribute is not written) when the stream is
empty; for each UV set `S` of `P` at channel `u`, `S[i]` when `i` is inside `S`, else zero. -/
def FillRule (L : FEngine) (P : FglTFRuntimePrimitive) (i : Nat) (vi : FMeshVertexInstance) :
    Prop :=
  (P.Normals ≠ [] → i < P.Normals.length → P.Normals[i]? = some vi.Normal) ∧
  (P.Normals ≠ [] → P.Normals.length ≤ i → vi.Normal = FVector.ZeroVector) ∧
  (P.Normals = [] → vi.Normal = L.DefaultNormal) ∧
  (P.Tangents ≠ [] → i < P.Tangents.length →
    (P.Tangents[i]?).map FVector4.toFVector = some vi.Tangent) ∧
  (P.Tangents ≠ [] → P.Tangents.length ≤ i → vi.Tangent = FVector.ZeroVector) ∧
  (P.Tangents = [] → vi.Tangent = L.DefaultTangent) ∧
  (P.Colors ≠ [] → i < P.Colors.length → P.Colors[i]? = some vi.Color) ∧
  (P.Colors ≠ [] → P.Colors.length ≤ i → vi.Color = ⟨0, 0, 0, 0⟩) ∧
  (P.Colors = [] → vi.Color = L.DefaultColor) ∧
  ∀ (u : Nat) (S : List FVector2D), P.UVs[u]? = some S →
    (i < S.length → ∃ uv, S[i]? = some uv ∧ vi.UVs[u]? = some uv) ∧
    (S.length ≤ i → vi.UVs[u]? = some FVector2D.ZeroVector)

/-- Lines 31-48 with the primitive array as part of the state: every iteration reads the
primitive it visits by reference and leaves it in the array as it is. Returns the globals and
the array after the loop. -/
def canonicalize (Primitives : List FglTFRuntimePrimitive) :
    FMeshParameters × List FglTFRuntimePrimitive :=
  Primitives.foldl (fun st P => (parametersStep st.1 P, st.2 ++ [P])) (⟨1, false, false⟩, [])

/-- Componentwise minimum of two points. -/
def FVector.ComponentMin (a b : FVector) : FVector := ⟨min a.X b.X, min a.Y b.Y, min a.Z b.Z⟩

/-- Componentwise maximum of two points. -/
def FVector.ComponentMax (a b : FVector) : FVector := ⟨max a.X b.X, max a.Y b.Y, max a.Z b.Z⟩

/-- The box grown to contain the point `q` (`FBox::operator+=` on a valid box). -/
def FBox.extend (b : FBox) (q : FVector) : FBox := ⟨b.Min.ComponentMin q, b.Max.ComponentMax q⟩

/-- Modelled from the spec: the axis-aligned bounding box of the vertex positions ("Compute
mesh bounds (box + sphere) from current Vertex positions"); the engine function
`FMeshDescription::GetBounds` is not part of the parser. Without positions the box is the
zero box. -/
def boundingBox : List FVector → FBox
  | [] => ⟨FVector.ZeroVector, FVector.ZeroVector⟩
  | p :: ps => ps.foldl FBox.extend ⟨p, p⟩

/-- Modelled from the spec: the engine's bounds are those of the bounding box of the vertex
positions, with the origin (centre of box and sphere) at the box centre and the extent half
the box size. The sphere radius, a square root, is left to the engine. -/
def BoundsFromPositions (L : FEngine) : Prop :=
  ∀ md, (L.GetBounds md).Origin = (boundingBox md.VertexPositions).GetCenter ∧
    (L.GetBounds md).BoxExtent = (boundingBox md.VertexPositions).GetExtent

/-- The sample engine with bounds taken from the bounding box of the vertex positions; the
sphere radius is not evaluated. -/
def boxEngine : FEngine :=
  { sampleEngine with
    GetBounds := fun md =>
      ⟨(boundingBox md.VertexPositions).GetCenter, (boundingBox md.VertexPositions).GetExtent, 0⟩ }

/-- The corners of the unit cube centred at (0, 0, 5). -/
def cubePositions : List FVector :=
  [⟨-1/2, -1/2, 9/2⟩, ⟨1/2, -1/2, 9/2⟩, ⟨1/2, 1/2, 9/2⟩, ⟨-1/2, 1/2, 9/2⟩,
   ⟨-1/2, -1/2, 11/2⟩, ⟨1/2, -1/2, 11/2⟩, ⟨1/2, 1/2, 11/2⟩, ⟨-1/2, 1/2, 11/2⟩]

/-- The unit cube centred at (0, 0, 5) as one primitive of twelve triangles. -/
def cubePrimitive : FglTFRuntimePrimitive :=
  { Positions := cubePositions, Normals := [], Tangents := [], UVs := [],
    Indices := [0, 2, 1, 0, 3, 2, 4, 5, 6, 4, 6, 7, 0, 1, 5, 0, 5, 4,
                1, 2, 6, 1, 6, 5, 2, 3, 7, 2, 7, 6, 3, 0, 4, 3, 4, 7],
    Material := ⟨1, 1⟩, Colors := [] }

/-! ## Loading every mesh of the document -/

/-- The loop of `LoadStaticMeshes` (lines 425-433) from `Index` on, with `remaining` meshes
left. `LoadStaticMesh` is the per-index loader, which may read and write the parser state `σ`
(the mesh cache); `none` is a null asset. Returns the result of the function, the output list
and the parser state. -/
def loadMeshesLoop {σ α : Type} (LoadStaticMesh : Nat → σ → Option α × σ) :
    Nat → Nat → σ → List α → Bool × List α × σ
  | 0, _, s, StaticMeshes => (true, StaticMeshes, s)
  | remaining + 1, Index, s, StaticMeshes =>
    match LoadStaticMesh Index s with
    | (none, s') => (false, StaticMeshes, s')
    | (some StaticMesh, s') =>
      loadMeshesLoop LoadStaticMesh remaining (Index + 1) s' (StaticMeshes ++ [StaticMesh])

/-- The function `FglTFRuntimeParser::LoadStaticMeshes` (lines 416-436). `JsonMeshes` is the
length of the document's `meshes` array, `none` when the document has none. -/
def LoadStaticMeshes {σ α : Type} (JsonMeshes : Option Nat)
    (LoadStaticMesh : Nat → σ → Option α × σ) (s : σ) (StaticMeshes : List α) :
    Bool × List α × σ :=
  match JsonMeshes with
  | none => (false, StaticMeshes, s)
  | some n => loadMeshesLoop LoadStaticMesh n 0 s StaticMeshes

/-- The loader run on the indices `Index, Index + 1, ...` from state `s` returns the non-null
assets `assets`, one after the other, and ends in state `s'`. -/
def LoadsInOrder {σ α : Type} (LoadStaticMesh : Nat → σ → Option α × σ) :
    Nat → σ → List α → σ → Prop
  | _, s, [], s' => s = s'
  | Index, s, m :: rest, s' =>
    ∃ s1, LoadStaticMesh Index s = (some m, s1) ∧ LoadsInOrder LoadStaticMesh (Index + 1) s1 rest s'

/-- A loader for examples: index `i` gives asset `10 * i`, except index 2, which gives null;
the state is the list of the indices asked for so far. -/
def loggingLoader (i : Nat) (log : List Nat) : Option Nat × List Nat :=
  (if i = 2 then none else some (10 * i), log ++ [i])

/-- The primitives that contribute at least one triangle, in primitive order, each with the
ID of the first vertex instance created for it; `o` is that ID for the first primitive of
the list. -/
def producers : Nat → List FglTFRuntimePrimitive → List (Nat × FglTFRuntimePrimitive)
  | _, [] => []
  | o, P :: rest =>
    (if countTriangles P.Indices = 0 then [] else [(o, P)]) ++
      producers (o + P.Indices.length) rest

/-- After the spec's words for the triangle grouping: the aligned triples `k < n / 3` of an
index stream whose entries `3k`, `3k+1`, `3k+2` are pairwise distinct, in order. -/
def alignedTriples (idx : List Nat) : List Nat :=
  (List.range (idx.length / 3)).filter (fun k =>
    decide (¬ (idx.getD (3 * k) 0 = idx.getD (3 * k + 1) 0 ∨
      idx.getD (3 * k + 1) 0 = idx.getD (3 * k + 2) 0 ∨
      idx.getD (3 * k) 0 = idx.getD (3 * k + 2) 0)))

/-- After the spec's words for the triangle grouping: one triangle of group `G` per aligned
triple `k`, over the vertex instances `o + 3k`, `o + 3k + 1`, `o + 3k + 2` created for the
triple (corners 1 and 2 exchanged under reverse winding). -/
def alignedTriangles (rev : Bool) (G o : Nat) (idx : List Nat) : List FMeshTriangle :=
  (alignedTriples idx).map (fun k =>
    if rev then ⟨G, o + 3 * k, o + 3 * k + 2, o + 3 * k + 1⟩
    else ⟨G, o + 3 * k, o + 3 * k + 1, o + 3 * k + 2⟩)

/-- A primitive that supplies normals and tangents (with W = -1) for all three positions. -/
def authoredPrimitive : FglTFRuntimePrimitive :=
  { Positions := [⟨0, 0, 0⟩, ⟨1, 0, 0⟩, ⟨0, 1, 0⟩],
    Normals := [⟨0, 0, 1⟩, ⟨0, 0, 1⟩, ⟨0, 0, 1⟩],
    Tangents := [⟨1, 0, 0, -1⟩, ⟨1, 0, 0, -1⟩, ⟨1, 0, 0, -1⟩], UVs := [],
    Indices := [0, 1, 2], Material := ⟨1, 1⟩, Colors := [] }

/-! ## The builder pass -/

theorem modifyAt_append_last {α : Type} (f : α → α) (xs : List α) (v : α) :
    modifyAt f (xs ++ [v]) xs.length = xs ++ [f v] := by
  induction xs with
  | nil => rfl
  | cons x xs ih => simp [modifyAt, ih]

theorem setInstance_last (vp : List FVector) (xs : List FMeshVertexInstance)
    (v : FMeshVertexInstance) (t : List FMeshTriangle) (n : List Nat) (u : Nat)
    (f : FMeshVertexInstance → FMeshVertexInstance) :
    setInstance ⟨vp, xs ++ [v], t, n, u⟩ xs.length f = ⟨vp, xs ++ [f v], t, n, u⟩ := by
  simp [setInstance, modifyAt_append_last]

theorem writeNormal_last (P : FglTFRuntimePrimitive) (i : Nat) (vp : List FVector)
    (xs : List FMeshVertexInstance) (v : FMeshVertexInstance) (t : List FMeshTriangle)
    (n : List Nat) (u : Nat) :
    writeNormal P i xs.length ⟨vp, xs ++ [v], t, n, u⟩ = ⟨vp, xs ++ [fillNormal P i v], t, n, u⟩ := by
  unfold writeNormal fillNormal
  split <;> [split; skip] <;> simp [setInstance_last]

theorem writeTangent_last (P : FglTFRuntimePrimitive) (i : Nat) (vp : List FVector)
    (xs : List FMeshVertexInstance) (v : FMeshVertexInstance) (t : List FMeshTriangle)
    (n : List Nat) (u : Nat) :
    writeTangent P i xs.length ⟨vp, xs ++ [v], t, n, u⟩ =
      ⟨vp, xs ++ [fillTangent P i v], t, n, u⟩ := by
  unfold writeTangent fillTangent
  split <;> [split; skip] <;> simp [setInstance_last]

theorem writeColor_last (P : FglTFRuntimePrimitive) (i : Nat) (vp : List FVector)
    (xs : List FMeshVertexInstance) (v : FMeshVertexInstance) (t : List FMeshTriangle)
    (n : List Nat) (u : Nat) :
    writeColor P i xs.length ⟨vp, xs ++ [v], t, n, u⟩ = ⟨vp, xs ++ [fillColor P i v], t, n, u⟩ := by
  unfold writeColor fillColor
  split <;> [split; skip] <;> simp [setInstance_last]

theorem writeUVs_last (i : Nat) (S : List (List FVector2D)) : ∀ (k : Nat) (vp : List FVector)
    (xs : List FMeshVertexInstance) (v : FMeshVertexInstance) (t : List FMeshTriangle)
    (n : List Nat) (u : Nat),
    writeUVs i xs.length S k ⟨vp, xs ++ [v], t, n, u⟩ =
      ⟨vp, xs ++ [{ v with UVs := fillUVs i S k v.UVs }], t, n, u⟩ := by
  induction S with
  | nil => intro k vp xs v t n u; simp [writeUVs, fillUVs]
  | cons S rest ih =>
    intro k vp xs v t n u
    unfold writeUVs fillUVs
    split <;> simp [setInstance_last, ih, *]

theorem createFilledInstance_eq (L : FEngine) (P : FglTFRuntimePrimitive)
    (VerticesIDs : List Nat) (md : FMeshDescription) (i : Nat) :
    createFilledInstance L P VerticesIDs md i =
      (md.VertexInstances.length, pushInstance L P VerticesIDs md i) := by
  simp only [createFilledInstance, CreateVertexInstance, writeNormal_last, writeTangent_last,
    writeColor_last, writeUVs_last, pushInstance, specInstance]

theorem indexStep_eq (L : FEngine) (cfg : FglTFRuntimeStaticMeshConfig)
    (P : FglTFRuntimePrimitive) (G : Nat) (VIDs : List Nat) (st : FIndexLoopState) (i : Nat) :
    indexStep L cfg P G VIDs st i =
      if i ≥ VIDs.length then none
      else
        if (st.VertexInstancesIDs ++ [st.MeshDescription.VertexInstances.length]).length = 3 then
          if (st.TriangleVerticesIDs ++ [VIDs.getD i 0]).getD 0 0 =
               (st.TriangleVerticesIDs ++ [VIDs.getD i 0]).getD 1 0 ∨
             (st.TriangleVerticesIDs ++ [VIDs.getD i 0]).getD 1 0 =
               (st.TriangleVerticesIDs ++ [VIDs.getD i 0]).getD 2 0 ∨
             (st.TriangleVerticesIDs ++ [VIDs.getD i 0]).getD 0 0 =
               (st.TriangleVerticesIDs ++ [VIDs.getD i 0]).getD 2 0 then
            some ⟨pushInstance L P VIDs st.MeshDescription i, [], []⟩
          else
            match CreateTriangle L (pushInstance L P VIDs st.MeshDescription i) G
                (if cfg.bReverseWinding then
                  Swap (st.VertexInstancesIDs ++ [st.MeshDescription.VertexInstances.length]) 1 2
                else st.VertexInstancesIDs ++ [st.MeshDescription.VertexInstances.length]) with
            | none => none
            | some md => some ⟨md, [], []⟩
        else
          some ⟨pushInstance L P VIDs st.MeshDescription i,
            st.VertexInstancesIDs ++ [st.MeshDescription.VertexInstances.length],
            st.TriangleVerticesIDs ++ [VIDs.getD i 0]⟩ := by
  unfold indexStep
  simp only [createFilledInstance_eq]

theorem indexStep_zero (L : FEngine) (cfg : FglTFRuntimeStaticMeshConfig)
    (P : FglTFRuntimePrimitive) (G : Nat) (VIDs : List Nat) (md : FMeshDescription) (i : Nat)
    (hi : i < VIDs.length) :
    indexStep L cfg P G VIDs ⟨md, [], []⟩ i =
      some ⟨pushInstance L P VIDs md i, [md.VertexInstances.length], [VIDs.getD i 0]⟩ := by
  rw [indexStep_eq]
  simp [Nat.not_le.mpr hi]

theorem indexStep_one (L : FEngine) (cfg : FglTFRuntimeStaticMeshConfig)
    (P : FglTFRuntimePrimitive) (G : Nat) (VIDs : List Nat) (md : FMeshDescription)
    (x u i : Nat) (hi : i < VIDs.length) :
    indexStep L cfg P G VIDs ⟨md, [x], [u]⟩ i =
      some ⟨pushInstance L P VIDs md i, [x, md.VertexInstances.length], [u, VIDs.getD i 0]⟩ := by
  rw [indexStep_eq]
  simp [Nat.not_le.mpr hi]

theorem indexStep_two (L : FEngine) (cfg : FglTFRuntimeStaticMeshConfig)
    (P : FglTFRuntimePrimitive) (G : Nat) (VIDs : List Nat) (md : FMeshDescription)
    (x y u w i : Nat) (hi : i < VIDs.length) :
    indexStep L cfg P G VIDs ⟨md, [x, y], [u, w]⟩ i =
      if u = w ∨ w = VIDs.getD i 0 ∨ u = VIDs.getD i 0 then
        some ⟨pushInstance L P VIDs md i, [], []⟩
      else
        match CreateTriangle L (pushInstance L P VIDs md i) G
            (if cfg.bReverseWinding then [x, md.VertexInstances.length, y]
             else [x, y, md.VertexInstances.length]) with
        | none => none
        | some md => some ⟨md, [], []⟩ := by
  rw [indexStep_eq]
  simp [Nat.not_le.mpr hi, Swap]

theorem CreateTriangle_some {L : FEngine} {md md' : FMeshDescription} {G a b c : Nat}
    (h : CreateTriangle L md G [a, b, c] = some md') :
    md' = { md with Triangles := md.Triangles ++ [⟨G, a, b, c⟩] } := by
  simp only [CreateTriangle] at h
  by_cases hacc : L.TriangleAccepted md G [a, b, c] = true
  · rw [if_pos hacc] at h
    exact (Option.some.inj h).symm
  · rw [if_neg hacc] at h
    exact Option.noConfusion h

theorem indexStep_some_lt {L : FEngine} {cfg : FglTFRuntimeStaticMeshConfig}
    {P : FglTFRuntimePrimitive} {G : Nat} {VIDs : List Nat} {st st' : FIndexLoopState} {i : Nat}
    (h : indexStep L cfg P G VIDs st i = some st') : i < VIDs.length := by
  by_contra hi
  rw [indexStep_eq, if_pos (Nat.le_of_not_lt hi)] at h
  exact Option.noConfusion h

theorem indexLoop_cons_some {L : FEngine} {cfg : FglTFRuntimeStaticMeshConfig}
    {P : FglTFRuntimePrimitive} {G : Nat} {VIDs : List Nat} {st st' : FIndexLoopState} {i : Nat}
    {rest : List Nat} (h : indexLoop L cfg P G VIDs (i :: rest) st = some st') :
    ∃ s, indexStep L cfg P G VIDs st i = some s ∧ indexLoop L cfg P G VIDs rest s = some st' := by
  unfold indexLoop at h
  cases hs : indexStep L cfg P G VIDs st i with
  | none => rw [hs] at h; exact Option.noConfusion h
  | some s => rw [hs] at h; exact ⟨s, rfl, h⟩

theorem list_induction3 {α : Type} {motive : List α → Prop} (h0 : motive [])
    (h1 : ∀ a, motive [a]) (h2 : ∀ a b, motive [a, b])
    (h3 : ∀ a b c rest, motive rest → motive (a :: b :: c :: rest)) : ∀ l, motive l
  | [] => h0
  | [a] => h1 a
  | [a, b] => h2 a b
  | a :: b :: c :: rest => h3 a b c rest (list_induction3 h0 h1 h2 h3 rest)

theorem indexLoop_spec (L : FEngine) (cfg : FglTFRuntimeStaticMeshConfig)
    (P : FglTFRuntimePrimitive) (G : Nat) (VIDs : List Nat)
    (hinj : ∀ a b, a < VIDs.length → b < VIDs.length →
      (VIDs.getD a 0 = VIDs.getD b 0 ↔ a = b)) :
    ∀ (idx : List Nat) (md : FMeshDescription) (st' : FIndexLoopState),
      indexLoop L cfg P G VIDs idx ⟨md, [], []⟩ = some st' →
      (∀ i ∈ idx, i < VIDs.length) ∧
      st'.MeshDescription =
        { md with
          VertexInstances := md.VertexInstances ++
            idx.map (fun i => specInstance L P md.NumUVIndices (VIDs.getD i 0) i)
          Triangles := md.Triangles ++
            specTriangles cfg.bReverseWinding G md.VertexInstances.length idx } := by
  intro idx
  induction idx using list_induction3 with
  | h0 =>
    intro md st' h
    simp only [indexLoop, Option.some.injEq] at h
    subst h
    simp [specTriangles]
  | h1 a =>
    intro md st' h
    obtain ⟨s, hs, h⟩ := indexLoop_cons_some h
    have ha := indexStep_some_lt hs
    rw [indexStep_zero _ _ _ _ _ _ _ ha] at hs
    simp only [indexLoop, Option.some.injEq] at h hs
    subst hs; subst h
    simp [specTriangles, pushInstance, ha]
  | h2 a b =>
    intro md st' h
    obtain ⟨s, hs, h⟩ := indexLoop_cons_some h
    have ha := indexStep_some_lt hs
    rw [indexStep_zero _ _ _ _ _ _ _ ha] at hs
    simp only [Option.some.injEq] at hs
    subst hs
    obtain ⟨s, hs, h⟩ := indexLoop_cons_some h
    have hb := indexStep_some_lt hs
    rw [indexStep_one _ _ _ _ _ _ _ _ _ hb] at hs
    simp only [indexLoop, Option.some.injEq] at h hs
    subst hs; subst h
    simp [specTriangles, pushInstance, ha, hb]
  | h3 a b c rest ih =>
    intro md st' h
    obtain ⟨s, hs, h⟩ := indexLoop_cons_some h
    have ha := indexStep_some_lt hs
    rw [indexStep_zero _ _ _ _ _ _ _ ha] at hs
    simp only [Option.some.injEq] at hs
    subst hs
    obtain ⟨s, hs, h⟩ := indexLoop_cons_some h
    have hb := indexStep_some_lt hs
    rw [indexStep_one _ _ _ _ _ _ _ _ _ hb] at hs
    simp only [Option.some.injEq] at hs
    subst hs
    obtain ⟨s, hs, h⟩ := indexLoop_cons_some h
    have hc := indexStep_some_lt hs
    rw [indexStep_two _ _ _ _ _ _ _ _ _ _ _ hc] at hs
    simp only [hinj a b ha hb, hinj b c hb hc, hinj a c ha hc] at hs
    by_cases hd : a = b ∨ b = c ∨ a = c
    · rw [if_pos hd] at hs
      simp only [Option.some.injEq] at hs
      subst hs
      obtain ⟨hr, he⟩ := ih _ _ h
      refine ⟨?_, ?_⟩
      · intro i hi
        simp only [List.mem_cons] at hi
        rcases hi with rfl | rfl | rfl | hi
        · exact ha
        · exact hb
        · exact hc
        · exact hr i hi
      · rw [he]
        simp [specTriangles, pushInstance, hd, Nat.add_assoc]
    · rw [if_neg hd] at hs
      have hmem : ∀ i ∈ a :: b :: c :: rest, (∀ j ∈ rest, j < VIDs.length) → i < VIDs.length := by
        intro i hi hr
        simp only [List.mem_cons] at hi
        rcases hi with rfl | rfl | rfl | hi
        · exact ha
        · exact hb
        · exact hc
        · exact hr i hi
      cases hm : CreateTriangle L
          (pushInstance L P VIDs (pushInstance L P VIDs (pushInstance L P VIDs md a) b) c) G
          (if cfg.bReverseWinding = true then
            [md.VertexInstances.length,
              (pushInstance L P VIDs (pushInstance L P VIDs md a) b).VertexInstances.length,
              (pushInstance L P VIDs md a).VertexInstances.length]
          else
            [md.VertexInstances.length, (pushInstance L P VIDs md a).VertexInstances.length,
              (pushInstance L P VIDs (pushInstance L P VIDs md a) b).VertexInstances.length]) with
      | none => rw [hm] at hs; exact Option.noConfusion hs
      | some m =>
        rw [hm] at hs
        simp only [Option.some.injEq] at hs
        subst hs
        obtain ⟨hr, he⟩ := ih _ _ h
        refine ⟨fun i hi => hmem i hi hr, ?_⟩
        rw [he]
        cases hrev : cfg.bReverseWinding
        all_goals
          rw [hrev] at hm
          have hm' := CreateTriangle_some hm
          subst hm'
          simp [specTriangles, pushInstance, hd, Nat.add_assoc]

theorem createVertices_eq : ∀ (ps : List FVector) (md : FMeshDescription) (ids : List Nat),
    createVertices ps md ids =
      ({ md with VertexPositions := md.VertexPositions ++ ps },
        ids ++ List.range' md.VertexPositions.length ps.length) := by
  intro ps
  induction ps with
  | nil => intro md ids; simp [createVertices]
  | cons p ps ih =>
    intro md ids
    simp [createVertices, ih, List.range'_succ, Nat.add_comm]

theorem getD_range' (vb n i : Nat) (h : i < n) : (List.range' vb n).getD i 0 = vb + i := by
  simp [List.getD, List.getElem?_range' _ _ h]

theorem primitiveStep_spec {L : FEngine} {cfg : FglTFRuntimeStaticMeshConfig} {N : Nat}
    {st st' : FBuilderState} {P : FglTFRuntimePrimitive}
    (h : primitiveStep L cfg N st P = some st') :
    (∀ i ∈ P.Indices, i < P.Positions.length) ∧ st' = specStep L cfg.bReverseWinding N st P := by
  unfold primitiveStep at h
  simp only [createVertices_eq, List.nil_append, SetNumIndices] at h
  split at h
  · exact Option.noConfusion h
  · rename_i s hs
    have hinj : ∀ a b, a < (List.range' st.MeshDescription.VertexPositions.length
          P.Positions.length).length →
        b < (List.range' st.MeshDescription.VertexPositions.length P.Positions.length).length →
        ((List.range' st.MeshDescription.VertexPositions.length P.Positions.length).getD a 0 =
          (List.range' st.MeshDescription.VertexPositions.length P.Positions.length).getD b 0 ↔
            a = b) := by
      intro a b ha hb
      rw [List.length_range'] at ha hb
      rw [getD_range' _ _ _ ha, getD_range' _ _ _ hb]
      omega
    obtain ⟨hr, he⟩ := indexLoop_spec L cfg P _ _ hinj _ _ _ hs
    rw [List.length_range'] at hr
    refine ⟨hr, ?_⟩
    simp only [Option.some.injEq] at h
    subst h
    rw [he]
    simp only [specStep, List.length_map]
    congr 2
    congr 1
    apply List.map_congr_left
    intro i hi
    rw [getD_range' _ _ _ (hr i hi)]

theorem primitiveLoop_spec {L : FEngine} {cfg : FglTFRuntimeStaticMeshConfig} {N : Nat} :
    ∀ {prims : List FglTFRuntimePrimitive} {st st' : FBuilderState},
      primitiveLoop L cfg N prims st = some st' →
      (∀ P ∈ prims, ∀ i ∈ P.Indices, i < P.Positions.length) ∧
        st' = prims.foldl (specStep L cfg.bReverseWinding N) st := by
  intro prims
  induction prims with
  | nil =>
    intro st st' h
    simp only [primitiveLoop, Option.some.injEq] at h
    simp [h]
  | cons P rest ih =>
    intro st st' h
    unfold primitiveLoop at h
    cases hs : primitiveStep L cfg N st P with
    | none => rw [hs] at h; exact Option.noConfusion h
    | some s =>
      rw [hs] at h
      obtain ⟨h1, h2⟩ := primitiveStep_spec hs
      obtain ⟨h3, h4⟩ := ih h
      subst h2
      refine ⟨?_, by simpa using h4⟩
      intro Q hQ
      rcases List.mem_cons.mp hQ with rfl | hQ
      · exact h1
      · exact h3 Q hQ

/-! ## Closed form of the builder result -/

theorem resizeTo_length {α : Type} (d : α) (n : Nat) (l : List α) :
    (resizeTo d n l).length = n := by
  simp only [resizeTo, List.length_append, List.length_take, List.length_replicate]
  omega

theorem resizeTo_of_length {α : Type} (d : α) (n : Nat) (l : List α) (h : l.length = n) :
    resizeTo d n l = l := by
  simp [resizeTo, ← h]

theorem fillUVs_length (i : Nat) (S : List (List FVector2D)) :
    ∀ (k : Nat) (uv : List FVector2D), (fillUVs i S k uv).length = uv.length := by
  induction S with
  | nil => intro k uv; rfl
  | cons S rest ih => intro k uv; simp [fillUVs, ih]

theorem specInstance_VertexID (L : FEngine) (P : FglTFRuntimePrimitive) (N v i : Nat) :
    (specInstance L P N v i).VertexID = v := by
  simp only [specInstance, fillColor, fillTangent, fillNormal]
  repeat' split
  all_goals rfl

theorem specInstance_Normal (L : FEngine) (P : FglTFRuntimePrimitive) (N v i : Nat) :
    (specInstance L P N v i).Normal =
      if P.Normals.length > 0 then
        if i ≥ P.Normals.length then FVector.ZeroVector
        else P.Normals.getD i FVector.ZeroVector
      else L.DefaultNormal := by
  simp only [specInstance, fillColor, fillTangent, fillNormal]
  repeat' split
  all_goals rfl

theorem specInstance_Tangent (L : FEngine) (P : FglTFRuntimePrimitive) (N v i : Nat) :
    (specInstance L P N v i).Tangent =
      if P.Tangents.length > 0 then
        if i ≥ P.Tangents.length then FVector.ZeroVector
        else (P.Tangents.getD i ⟨0, 0, 0, 0⟩).toFVector
      else L.DefaultTangent := by
  simp only [specInstance, fillColor, fillTangent, fillNormal]
  repeat' split
  all_goals rfl

theorem specInstance_Color (L : FEngine) (P : FglTFRuntimePrimitive) (N v i : Nat) :
    (specInstance L P N v i).Color =
      if P.Colors.length > 0 then
        if i ≥ P.Colors.length then ⟨0, 0, 0, 0⟩
        else P.Colors.getD i ⟨0, 0, 0, 0⟩
      else L.DefaultColor := by
  simp only [specInstance, fillColor, fillTangent, fillNormal]
  repeat' split
  all_goals rfl

theorem specInstance_BinormalSign (L : FEngine) (P : FglTFRuntimePrimitive) (N v i : Nat) :
    (specInstance L P N v i).BinormalSign = L.DefaultBinormalSign := by
  simp only [specInstance, fillColor, fillTangent, fillNormal]
  repeat' split
  all_goals rfl

theorem specInstance_UVs (L : FEngine) (P : FglTFRuntimePrimitive) (N v i : Nat) :
    (specInstance L P N v i).UVs = fillUVs i P.UVs 0 (List.replicate N L.DefaultUV) := by
  simp only [specInstance, fillColor, fillTangent, fillNormal]
  repeat' split
  all_goals rfl

theorem specInstance_UVs_length (L : FEngine) (P : FglTFRuntimePrimitive) (N v i : Nat) :
    (specInstance L P N v i).UVs.length = N := by
  rw [specInstance_UVs, fillUVs_length, List.length_replicate]

theorem specInstances_UVs_length (L : FEngine) (N : Nat) :
    ∀ (prims : List FglTFRuntimePrimitive) (vb : Nat),
      ∀ vi ∈ specInstances L N vb prims, vi.UVs.length = N := by
  intro prims
  induction prims with
  | nil => intro vb vi h; simp [specInstances] at h
  | cons P rest ih =>
    intro vb vi h
    simp only [specInstances, List.mem_append, List.mem_map] at h
    rcases h with ⟨i, _, rfl⟩ | h
    · exact specInstance_UVs_length L P N _ i
    · exact ih _ vi h

theorem specInstances_length (L : FEngine) (N : Nat) :
    ∀ (prims : List FglTFRuntimePrimitive) (vb : Nat),
      (specInstances L N vb prims).length = (prims.map (fun P => P.Indices.length)).sum := by
  intro prims
  induction prims with
  | nil => intro vb; rfl
  | cons P rest ih => intro vb; simp [specInstances, ih]

theorem map_resizeTo_of_length (L : FEngine) (N : Nat) (l : List FMeshVertexInstance)
    (h : ∀ vi ∈ l, vi.UVs.length = N) :
    l.map (fun vi => { vi with UVs := resizeTo L.DefaultUV N vi.UVs }) = l := by
  conv => rhs; rw [← List.map_id l]
  apply List.map_congr_left
  intro vi hvi
  simp [resizeTo_of_length _ _ _ (h vi hvi)]

theorem foldl_specStep (L : FEngine) (rev : Bool) (N : Nat) :
    ∀ (prims : List FglTFRuntimePrimitive) (st : FBuilderState),
      (∀ vi ∈ st.MeshDescription.VertexInstances, vi.UVs.length = N) →
      (prims.foldl (specStep L rev N) st).MeshDescription.VertexPositions =
          st.MeshDescription.VertexPositions ++ prims.flatMap (fun P => P.Positions) ∧
        (prims.foldl (specStep L rev N) st).MeshDescription.VertexInstances =
          st.MeshDescription.VertexInstances ++
            specInstances L N st.MeshDescription.VertexPositions.length prims ∧
        (prims.foldl (specStep L rev N) st).MeshDescription.Triangles =
          st.MeshDescription.Triangles ++
            (specGroups rev st.MeshDescription.PolygonGroupMaterialSlotNames.length
              st.MeshDescription.VertexInstances.length prims).flatMap Prod.snd ∧
        (prims.foldl (specStep L rev N) st).MeshDescription.PolygonGroupMaterialSlotNames =
          st.MeshDescription.PolygonGroupMaterialSlotNames ++
            prims.map (fun P => P.Material.FName) ∧
        (prims.foldl (specStep L rev N) st).StaticMaterials =
          st.StaticMaterials ++
            prims.map (fun P => (⟨P.Material, P.Material.FName, true⟩ : FStaticMaterial)) := by
  intro prims
  induction prims with
  | nil => intro st _; simp [specInstances, specGroups]
  | cons P rest ih =>
    intro st hst
    have hnext : ∀ vi ∈ (specStep L rev N st P).MeshDescription.VertexInstances,
        vi.UVs.length = N := by
      intro vi hvi
      simp only [specStep, List.mem_append, List.mem_map] at hvi
      rcases hvi with ⟨w, _, rfl⟩ | ⟨i, _, rfl⟩
      · exact resizeTo_length _ _ _
      · exact specInstance_UVs_length L P N _ i
    obtain ⟨h1, h2, h3, h4, h5⟩ := ih (specStep L rev N st P) hnext
    simp only [List.foldl_cons]
    rw [h1, h2, h3, h4, h5]
    simp [specStep, specInstances, specGroups, map_resizeTo_of_length L N _ hst]

theorem buildMeshDescription_spec {L : FEngine} {cfg : FglTFRuntimeStaticMeshConfig}
    {prims : List FglTFRuntimePrimitive} {built : FBuilderState}
    (h : buildMeshDescription L cfg prims = some built) :
    (∀ P ∈ prims, ∀ i ∈ P.Indices, i < P.Positions.length) ∧
      built.MeshDescription.VertexPositions = prims.flatMap (fun P => P.Positions) ∧
      built.MeshDescription.VertexInstances =
        specInstances L (computeParameters prims).NumUVs 0 prims ∧
      built.MeshDescription.Triangles =
        (specGroups cfg.bReverseWinding 0 0 prims).flatMap Prod.snd ∧
      built.MeshDescription.PolygonGroupMaterialSlotNames =
        prims.map (fun P => P.Material.FName) ∧
      built.StaticMaterials =
        prims.map (fun P => (⟨P.Material, P.Material.FName, true⟩ : FStaticMaterial)) := by
  obtain ⟨h1, h2⟩ := primitiveLoop_spec h
  have h3 := foldl_specStep L cfg.bReverseWinding (computeParameters prims).NumUVs prims
    ⟨CreateStaticMeshDescription L, []⟩ (by simp [CreateStaticMeshDescription])
  rw [← h2] at h3
  simpa [CreateStaticMeshDescription] using And.intro h1 h3

/-! ## Lowering -/

theorem writeAt_append : ∀ (xs ys buf : List Nat) (i : Nat),
    writeAt buf i (xs ++ ys) = writeAt (writeAt buf i xs) (i + xs.length) ys := by
  intro xs
  induction xs with
  | nil => intro ys buf i; simp [writeAt]
  | cons x xs ih =>
    intro ys buf i
    have hi : i + (xs.length + 1) = i + 1 + xs.length := by omega
    show writeAt (buf.set i x) (i + 1) (xs ++ ys) =
      writeAt (writeAt (buf.set i x) (i + 1) xs) (i + (xs.length + 1)) ys
    rw [ih, hi]

theorem writeAt_eq : ∀ (vals pre post : List Nat),
    writeAt (pre ++ List.replicate vals.length 0 ++ post) pre.length vals = pre ++ vals ++ post := by
  intro vals
  induction vals with
  | nil => intro pre post; simp [writeAt]
  | cons v vals ih =>
    intro pre post
    have hset : (pre ++ List.replicate (v :: vals).length 0 ++ post).set pre.length v =
        (pre ++ [v]) ++ List.replicate vals.length 0 ++ post := by
      simp [List.replicate_succ, List.set_append]
    have := ih (pre ++ [v]) post
    simp only [List.length_append, List.length_singleton] at this
    simp only [writeAt, hset, this]
    simp

theorem foldl_writeIndex : ∀ (vals : List Nat) (a : FSectionFill),
    vals.foldl writeIndex a =
      { a with
        MinVertexIndex := vals.foldl min a.MinVertexIndex
        MaxVertexIndex := vals.foldl max a.MaxVertexIndex
        IndexBuffer := writeAt a.IndexBuffer a.IndexBufferIndex vals
        IndexBufferIndex := a.IndexBufferIndex + vals.length } := by
  intro vals
  induction vals with
  | nil => intro a; simp [writeAt]
  | cons v vals ih =>
    intro a
    simp only [List.foldl_cons, ih, writeIndex, writeAt, List.length_cons]
    congr 1
    omega

theorem length_flatMap_corners (T : List FMeshTriangle) :
    (T.flatMap corners).length = 3 * T.length := by
  induction T with
  | nil => rfl
  | cons t T ih => simp [List.flatMap_cons, corners, ih]; omega

theorem writeTriangle_eq (a : FSectionFill) (t : FMeshTriangle) :
    writeTriangle a t =
      { TriangleCount := a.TriangleCount + 1
        MinVertexIndex := (corners t).foldl min a.MinVertexIndex
        MaxVertexIndex := (corners t).foldl max a.MaxVertexIndex
        IndexBuffer := writeAt a.IndexBuffer a.IndexBufferIndex (corners t)
        IndexBufferIndex := a.IndexBufferIndex + 3 } := by
  simp [writeTriangle, writeIndex, corners, writeAt, Nat.add_assoc]

theorem foldl_writeTriangle : ∀ (T : List FMeshTriangle) (a : FSectionFill),
    T.foldl writeTriangle a =
      { TriangleCount := a.TriangleCount + T.length
        MinVertexIndex := (T.flatMap corners).foldl min a.MinVertexIndex
        MaxVertexIndex := (T.flatMap corners).foldl max a.MaxVertexIndex
        IndexBuffer := writeAt a.IndexBuffer a.IndexBufferIndex (T.flatMap corners)
        IndexBufferIndex := a.IndexBufferIndex + 3 * T.length } := by
  intro T
  induction T with
  | nil => intro a; simp [writeAt]
  | cons t T ih =>
    intro a
    have hlen : (corners t).length = 3 := rfl
    simp only [List.foldl_cons, ih, writeTriangle_eq, List.flatMap_cons,
      List.foldl_append, writeAt_append, List.length_cons, hlen]
    congr 1 <;> omega

theorem strideOf_cons (s : FStaticMeshSection) (secs : List FStaticMeshSection)
    (s0 : EIndexBufferStride) :
    strideOf (s :: secs) s0 =
      strideOf secs (if s.MaxVertexIndex > 65535 then EIndexBufferStride.Force32Bit else s0) := by
  unfold strideOf
  by_cases h : s.MaxVertexIndex > 65535 <;> by_cases h' : secs.any (fun s => decide (s.MaxVertexIndex > 65535)) = true <;>
    simp [h, h']

theorem sectionStep_empty (md : FMeshDescription) (mats : List FStaticMaterial)
    (st : FLowerState) (g : Nat) (h : (GetPolygonGroupPolygons md g).length = 0) :
    sectionStep md mats st g = st := by
  simp [sectionStep, h]

theorem sectionStep_nonempty (md : FMeshDescription) (mats : List FStaticMaterial)
    (st : FLowerState) (g : Nat) (h : ¬ (GetPolygonGroupPolygons md g).length = 0) :
    sectionStep md mats st g =
      { Sections := st.Sections ++
          [specSection mats (md.PolygonGroupMaterialSlotNames.getD g 0) st.IndexBufferIndex
            (GetPolygonGroupPolygons md g)]
        IndexBuffer := writeAt st.IndexBuffer st.IndexBufferIndex
          ((GetPolygonGroupPolygons md g).flatMap corners)
        IndexBufferIndex := st.IndexBufferIndex + 3 * (GetPolygonGroupPolygons md g).length
        IndexBufferStride :=
          if (specSection mats (md.PolygonGroupMaterialSlotNames.getD g 0) st.IndexBufferIndex
              (GetPolygonGroupPolygons md g)).MaxVertexIndex > 65535
          then EIndexBufferStride.Force32Bit else st.IndexBufferStride } := by
  simp only [sectionStep, if_neg h, foldl_writeTriangle, specSection, Nat.zero_add]

theorem foldl_sectionStep (md : FMeshDescription) (mats : List FStaticMaterial) :
    ∀ (gs : List Nat) (st : FLowerState),
      gs.foldl (sectionStep md mats) st =
        { Sections := st.Sections ++ specSections mats st.IndexBufferIndex (groupsOf md gs)
          IndexBuffer := writeAt st.IndexBuffer st.IndexBufferIndex (groupCorners (groupsOf md gs))
          IndexBufferIndex := st.IndexBufferIndex + 3 * groupTriangles (groupsOf md gs)
          IndexBufferStride :=
            strideOf (specSections mats st.IndexBufferIndex (groupsOf md gs))
              st.IndexBufferStride } := by
  intro gs
  induction gs with
  | nil => intro st; simp [groupsOf, specSections, groupCorners, groupTriangles, writeAt, strideOf]
  | cons g gs ih =>
    intro st
    rw [List.foldl_cons, ih]
    by_cases h : (GetPolygonGroupPolygons md g).length = 0
    · have hnil : GetPolygonGroupPolygons md g = [] := List.length_eq_zero.mp h
      rw [sectionStep_empty _ _ _ _ h]
      simp [groupsOf, specSections, groupCorners, groupTriangles, hnil, writeAt]
    · rw [sectionStep_nonempty _ _ _ _ h]
      simp only [groupsOf, List.map_cons, specSections, if_neg h, groupCorners, groupTriangles,
        List.flatMap_cons, writeAt_append, length_flatMap_corners, List.sum_cons, strideOf_cons,
        List.append_assoc, List.singleton_append, Nat.mul_add, Nat.add_assoc]

/-! ## Polygon groups of the built mesh -/

theorem specTriangles_group (rev : Bool) (G : Nat) :
    ∀ (idx : List Nat) (o : Nat), ∀ t ∈ specTriangles rev G o idx, t.PolygonGroupID = G := by
  intro idx
  induction idx using list_induction3 with
  | h0 => intro o t h; simp [specTriangles] at h
  | h1 a => intro o t h; simp [specTriangles] at h
  | h2 a b => intro o t h; simp [specTriangles] at h
  | h3 a b c rest ih =>
    intro o t h
    simp only [specTriangles, List.mem_append] at h
    rcases h with h | h
    · split at h
      · simp at h
      · cases rev <;> simp at h <;> rw [h]
    · exact ih _ t h

theorem specGroups_tagged (rev : Bool) :
    ∀ (prims : List FglTFRuntimePrimitive) (G o k : Nat) (p : Nat × List FMeshTriangle),
      (specGroups rev G o prims)[k]? = some p → ∀ t ∈ p.2, t.PolygonGroupID = G + k := by
  intro prims
  induction prims with
  | nil => intro G o k p h; simp [specGroups] at h
  | cons P rest ih =>
    intro G o k p h t ht
    cases k with
    | zero =>
      simp only [specGroups, List.getElem?_cons_zero, Option.some.injEq] at h
      subst h
      exact specTriangles_group rev G _ _ t ht
    | succ k =>
      simp only [specGroups, List.getElem?_cons_succ] at h
      have := ih (G + 1) _ k p h t ht
      omega

theorem specGroups_length (rev : Bool) :
    ∀ (prims : List FglTFRuntimePrimitive) (G o : Nat),
      (specGroups rev G o prims).length = prims.length := by
  intro prims
  induction prims with
  | nil => intro G o; rfl
  | cons P rest ih => intro G o; simp [specGroups, ih]

theorem specGroups_names (rev : Bool) :
    ∀ (prims : List FglTFRuntimePrimitive) (G o : Nat),
      (specGroups rev G o prims).map Prod.fst = prims.map (fun P => P.Material.FName) := by
  intro prims
  induction prims with
  | nil => intro G o; rfl
  | cons P rest ih => intro G o; simp [specGroups, ih]

theorem filter_tagged_groups :
    ∀ (groups : List (Nat × List FMeshTriangle)) (base : Nat),
      (∀ k p, groups[k]? = some p → ∀ t ∈ p.2, t.PolygonGroupID = base + k) →
      ∀ g, (groups.flatMap Prod.snd).filter (fun t => t.PolygonGroupID = g) =
        if g < base then [] else (groups.map Prod.snd).getD (g - base) [] := by
  intro groups
  induction groups with
  | nil => intro base _ g; simp
  | cons p rest ih =>
    intro base h g
    have hp : ∀ t ∈ p.2, t.PolygonGroupID = base := by
      intro t ht
      simpa using h 0 p (by simp) t ht
    have hrest : ∀ k q, rest[k]? = some q → ∀ t ∈ q.2, t.PolygonGroupID = base + 1 + k := by
      intro k q hq t ht
      have := h (k + 1) q (by simpa using hq) t ht
      omega
    rw [List.flatMap_cons, List.filter_append, ih (base + 1) hrest g]
    by_cases hg : g = base
    · subst hg
      have : p.2.filter (fun t => decide (t.PolygonGroupID = g)) = p.2 := by
        rw [List.filter_eq_self]
        intro t ht
        simpa using hp t ht
      simp [this]
    · have : p.2.filter (fun t => decide (t.PolygonGroupID = g)) = [] := by
        rw [List.filter_eq_nil_iff]
        intro t ht
        have := hp t ht
        simp only [decide_eq_true_eq]
        omega
      rw [this]
      by_cases hlt : g < base
      · simp [hlt, Nat.lt_succ_of_lt hlt]
      · have h1 : ¬ g < base + 1 := by omega
        have h2 : g - base = (g - (base + 1)) + 1 := by omega
        simp [hlt, h1, h2]

theorem map_range_getD_pair {α β : Type} (l : List (α × β)) (a0 : α) (b0 : β) :
    (List.range l.length).map
      (fun g => ((l.map Prod.fst).getD g a0, (l.map Prod.snd).getD g b0)) = l := by
  apply List.ext_getElem
  · simp
  · intro i h1 h2
    simp only [List.length_map, List.length_range] at h1
    simp [List.getD, List.getElem?_eq_getElem h1]

theorem groupsOf_built (md : FMeshDescription) (rev : Bool)
    (prims : List FglTFRuntimePrimitive)
    (hT : md.Triangles = (specGroups rev 0 0 prims).flatMap Prod.snd)
    (hN : md.PolygonGroupMaterialSlotNames = prims.map (fun P => P.Material.FName)) :
    groupsOf md (List.range md.PolygonGroupMaterialSlotNames.length) =
      specGroups rev 0 0 prims := by
  have hfilter := filter_tagged_groups (specGroups rev 0 0 prims) 0
    (fun k p hk t ht => specGroups_tagged rev prims 0 0 k p hk t ht)
  have hlen : md.PolygonGroupMaterialSlotNames.length = (specGroups rev 0 0 prims).length := by
    rw [hN, specGroups_length, List.length_map]
  conv => rhs; rw [← map_range_getD_pair (specGroups rev 0 0 prims) 0 []]
  rw [hlen]
  unfold groupsOf GetPolygonGroupPolygons
  apply List.map_congr_left
  intro g _
  rw [hT, hN, hfilter g, specGroups_names]
  simp

/-! ## Derivation and pivot leave the topology alone -/

theorem length_mapWithID {α β : Type} (f : Nat → α → β) :
    ∀ (l : List α) (i : Nat), (mapWithID f i l).length = l.length := by
  intro l
  induction l with
  | nil => intro i; rfl
  | cons x xs ih => intro i; simp [mapWithID, ih]

theorem getElem?_mapWithID {α β : Type} (f : Nat → α → β) :
    ∀ (l : List α) (i j : Nat), (mapWithID f i l)[j]? = (l[j]?).map (f (i + j)) := by
  intro l
  induction l with
  | nil => intro i j; simp [mapWithID]
  | cons x xs ih =>
    intro i j
    cases j with
    | zero => simp [mapWithID]
    | succ j =>
      have hij : i + 1 + j = i + (j + 1) := by omega
      simp only [mapWithID, List.getElem?_cons_succ, ih, hij]

theorem finalMeshDescription_Triangles (L : FEngine) (cfg : FglTFRuntimeStaticMeshConfig)
    (prims : List FglTFRuntimePrimitive) (built : FBuilderState) :
    (finalMeshDescription L cfg prims built).Triangles = built.MeshDescription.Triangles := by
  unfold finalMeshDescription applyPivot deriveNormalsAndTangents ComputeTangentsAndNormals
  split <;> split <;> rfl

theorem finalMeshDescription_names (L : FEngine) (cfg : FglTFRuntimeStaticMeshConfig)
    (prims : List FglTFRuntimePrimitive) (built : FBuilderState) :
    (finalMeshDescription L cfg prims built).PolygonGroupMaterialSlotNames =
      built.MeshDescription.PolygonGroupMaterialSlotNames := by
  unfold finalMeshDescription applyPivot deriveNormalsAndTangents ComputeTangentsAndNormals
  split <;> split <;> rfl

theorem finalMeshDescription_NumUVIndices (L : FEngine) (cfg : FglTFRuntimeStaticMeshConfig)
    (prims : List FglTFRuntimePrimitive) (built : FBuilderState) :
    (finalMeshDescription L cfg prims built).NumUVIndices =
      built.MeshDescription.NumUVIndices := by
  unfold finalMeshDescription applyPivot deriveNormalsAndTangents ComputeTangentsAndNormals
  split <;> split <;> rfl

theorem finalMeshDescription_instances_length (L : FEngine)
    (cfg : FglTFRuntimeStaticMeshConfig) (prims : List FglTFRuntimePrimitive)
    (built : FBuilderState) :
    (finalMeshDescription L cfg prims built).VertexInstances.length =
      built.MeshDescription.VertexInstances.length := by
  unfold finalMeshDescription applyPivot deriveNormalsAndTangents ComputeTangentsAndNormals
  split <;> split <;> simp [length_mapWithID]

theorem finalMeshDescription_instance_vertex (L : FEngine)
    (cfg : FglTFRuntimeStaticMeshConfig) (prims : List FglTFRuntimePrimitive)
    (built : FBuilderState) (j : Nat) :
    ((finalMeshDescription L cfg prims built).VertexInstances[j]?).map (fun vi => vi.VertexID) =
      (built.MeshDescription.VertexInstances[j]?).map (fun vi => vi.VertexID) := by
  unfold finalMeshDescription applyPivot deriveNormalsAndTangents ComputeTangentsAndNormals
  split <;> split <;> simp [getElem?_mapWithID] <;>
    cases built.MeshDescription.VertexInstances[j]? <;> rfl

/-- The vertex positions that are lowered: the built ones, moved by the pivot delta unless the
pivot mode is `Asset`. The bounds are taken after the derivation of normals and tangents. -/
theorem finalMeshDescription_positions (L : FEngine) (cfg : FglTFRuntimeStaticMeshConfig)
    (prims : List FglTFRuntimePrimitive) (built : FBuilderState) :
    (finalMeshDescription L cfg prims built).VertexPositions =
      if cfg.PivotPosition ≠ EglTFRuntimePivotPosition.Asset then
        built.MeshDescription.VertexPositions.map (fun p => p.sub
          (PivotDelta cfg (L.GetBounds
            (deriveNormalsAndTangents L (computeParameters prims) built.MeshDescription))))
      else built.MeshDescription.VertexPositions := by
  unfold finalMeshDescription applyPivot
  split
  · simp only [deriveNormalsAndTangents, ComputeTangentsAndNormals]
    split <;> rfl
  · simp only [deriveNormalsAndTangents, ComputeTangentsAndNormals]
    split <;> rfl

/-! ## Closed form of the render data -/

theorem length_groupCorners (groups : List (Nat × List FMeshTriangle)) :
    (groupCorners groups).length = (groups.flatMap Prod.snd).length * 3 := by
  induction groups with
  | nil => rfl
  | cons p rest ih =>
    simp only [groupCorners, List.flatMap_cons, List.length_append, length_flatMap_corners]
      at ih ⊢
    omega

theorem groupCorners_eq (groups : List (Nat × List FMeshTriangle)) :
    groupCorners groups = (groups.flatMap Prod.snd).flatMap corners := by
  induction groups with
  | nil => rfl
  | cons p rest ih =>
    simp only [groupCorners, List.flatMap_cons, List.flatMap_append] at ih ⊢
    rw [ih]

theorem LoadStaticMesh_Internal_spec {L : FEngine} {prims : List FglTFRuntimePrimitive}
    {cfg : FglTFRuntimeStaticMeshConfig} {mesh : UStaticMesh}
    (h : LoadStaticMesh_Internal L prims cfg = some mesh) :
    ∃ built, buildMeshDescription L cfg prims = some built ∧
      mesh.StaticMaterials = built.StaticMaterials ∧
      mesh.Sections =
        specSections built.StaticMaterials 0 (specGroups cfg.bReverseWinding 0 0 prims) ∧
      mesh.IndexBuffer = groupCorners (specGroups cfg.bReverseWinding 0 0 prims) ∧
      mesh.IndexBufferStride =
        strideOf (specSections built.StaticMaterials 0 (specGroups cfg.bReverseWinding 0 0 prims))
          EIndexBufferStride.Force16Bit ∧
      mesh.BuildVertices = buildVertices L (finalMeshDescription L cfg prims built) := by
  unfold LoadStaticMesh_Internal at h
  cases hb : buildMeshDescription L cfg prims with
  | none => rw [hb] at h; exact Option.noConfusion h
  | some built =>
    rw [hb] at h
    simp only [Option.some.injEq] at h
    subst h
    obtain ⟨_, _, _, hT, hN, _⟩ := buildMeshDescription_spec hb
    have hg := groupsOf_built (finalMeshDescription L cfg prims built) cfg.bReverseWinding prims
      (by rw [finalMeshDescription_Triangles, hT]) (by rw [finalMeshDescription_names, hN])
    have hlen : (finalMeshDescription L cfg prims built).Triangles.length * 3 =
        (groupCorners (specGroups cfg.bReverseWinding 0 0 prims)).length := by
      rw [length_groupCorners, finalMeshDescription_Triangles, hT]
    have hw := writeAt_eq (groupCorners (specGroups cfg.bReverseWinding 0 0 prims)) [] []
    simp only [List.nil_append, List.append_nil, List.length_nil] at hw
    refine ⟨built, rfl, rfl, ?_, ?_, ?_, rfl⟩
    · simp [lowerMesh, buildSections, foldl_sectionStep, hg]
    · simp only [lowerMesh, buildSections, foldl_sectionStep, hg, hlen]
      exact hw
    · simp [lowerMesh, buildSections, foldl_sectionStep, hg]

/-! ## Sections -/

theorem specSections_tile (mats : List FStaticMaterial) :
    ∀ (groups : List (Nat × List FMeshTriangle)) (start : Nat),
      (∀ s, (specSections mats start groups).head? = some s → s.FirstIndex = start) ∧
      (∀ i s t, (specSections mats start groups)[i]? = some s →
        (specSections mats start groups)[i + 1]? = some t →
        t.FirstIndex = s.FirstIndex + 3 * s.NumTriangles) ∧
      ((specSections mats start groups).map (fun s => 3 * s.NumTriangles)).sum =
        3 * groupTriangles groups := by
  intro groups
  induction groups with
  | nil => intro start; simp [specSections, groupTriangles]
  | cons p rest ih =>
    intro start
    obtain ⟨name, T⟩ := p
    by_cases hT : T.length = 0
    · obtain ⟨h1, h2, h3⟩ := ih start
      simp only [specSections, if_pos hT]
      refine ⟨h1, h2, ?_⟩
      rw [h3]
      simp [groupTriangles, hT]
    · obtain ⟨h1, h2, h3⟩ := ih (start + 3 * T.length)
      simp only [specSections, if_neg hT]
      refine ⟨?_, ?_, ?_⟩
      · intro s hs
        simp only [List.head?_cons, Option.some.injEq] at hs
        subst hs
        rfl
      · intro i s t hs ht
        cases i with
        | zero =>
          simp only [List.getElem?_cons_zero, Option.some.injEq] at hs
          simp only [List.getElem?_cons_succ] at ht
          subst hs
          have := h1 t (by rw [List.head?_eq_getElem?]; exact ht)
          simpa [specSection] using this
        | succ i =>
          simp only [List.getElem?_cons_succ] at hs ht
          exact h2 i s t hs ht
      · simp only [List.map_cons, List.sum_cons, h3, groupTriangles, specSection]
        omega

theorem length_flatMap_snd (groups : List (Nat × List FMeshTriangle)) :
    (groups.flatMap Prod.snd).length = groupTriangles groups := by
  induction groups with
  | nil => rfl
  | cons p rest ih =>
    simp only [groupTriangles, List.flatMap_cons, List.length_append, List.map_cons,
      List.sum_cons] at ih ⊢
    omega

theorem strideOf_eq_32_iff (secs : List FStaticMeshSection) :
    strideOf secs EIndexBufferStride.Force16Bit = EIndexBufferStride.Force32Bit ↔
      ∃ s ∈ secs, s.MaxVertexIndex > 65535 := by
  unfold strideOf
  by_cases h : secs.any (fun s => decide (s.MaxVertexIndex > 65535)) = true
  · simp only [h, if_true, true_iff]
    simpa using h
  · simp only [h, if_false]
    constructor
    · intro h'; exact EIndexBufferStride.noConfusion h'
    · intro h'; exact absurd (by simpa using h') h

theorem foldl_min_le : ∀ (l : List Nat) (m : Nat),
    l.foldl min m ≤ m ∧ ∀ v ∈ l, l.foldl min m ≤ v := by
  intro l
  induction l with
  | nil => intro m; simp
  | cons x xs ih =>
    intro m
    obtain ⟨h1, h2⟩ := ih (min m x)
    simp only [List.foldl_cons, List.mem_cons]
    refine ⟨Nat.le_trans h1 (Nat.min_le_left _ _), ?_⟩
    intro v hv
    rcases hv with rfl | hv
    · exact Nat.le_trans h1 (Nat.min_le_right _ _)
    · exact h2 v hv

theorem le_foldl_max : ∀ (l : List Nat) (m : Nat),
    m ≤ l.foldl max m ∧ ∀ v ∈ l, v ≤ l.foldl max m := by
  intro l
  induction l with
  | nil => intro m; simp
  | cons x xs ih =>
    intro m
    obtain ⟨h1, h2⟩ := ih (max m x)
    simp only [List.foldl_cons, List.mem_cons]
    refine ⟨Nat.le_trans (Nat.le_max_left _ _) h1, ?_⟩
    intro v hv
    rcases hv with rfl | hv
    · exact Nat.le_trans (Nat.le_max_right _ _) h1
    · exact h2 v hv

theorem foldl_max_lt : ∀ (l : List Nat) (m b : Nat), m < b → (∀ v ∈ l, v < b) →
    l.foldl max m < b := by
  intro l
  induction l with
  | nil => intro m b hm _; simpa using hm
  | cons x xs ih =>
    intro m b hm h
    simp only [List.foldl_cons]
    apply ih
    · exact Nat.max_lt.mpr ⟨hm, h x (by simp)⟩
    · intro v hv; exact h v (by simp [hv])

theorem specSections_slices (mats : List FStaticMaterial) :
    ∀ (groups : List (Nat × List FMeshTriangle)) (pre : List Nat),
      ∀ s ∈ specSections mats pre.length groups, ∀ j, s.FirstIndex ≤ j →
        j < s.FirstIndex + 3 * s.NumTriangles →
        ∃ v, (pre ++ groupCorners groups)[j]? = some v ∧
          s.MinVertexIndex ≤ v ∧ v ≤ s.MaxVertexIndex := by
  intro groups
  induction groups with
  | nil => intro pre s hs; simp [specSections] at hs
  | cons p rest ih =>
    intro pre s hs j hj1 hj2
    obtain ⟨name, T⟩ := p
    have hcorners : groupCorners ((name, T) :: rest) = T.flatMap corners ++ groupCorners rest := by
      simp [groupCorners]
    by_cases hT : T.length = 0
    · have hnil : T = [] := List.length_eq_zero.mp hT
      simp only [specSections, if_pos hT] at hs
      rw [hcorners, hnil]
      simpa using ih pre s hs j hj1 hj2
    · simp only [specSections, if_neg hT, List.mem_cons] at hs
      rcases hs with rfl | hs
      · simp only [specSection] at hj1 hj2 ⊢
        have hlt : j - pre.length < (T.flatMap corners).length := by
          rw [length_flatMap_corners]; omega
        refine ⟨(T.flatMap corners)[j - pre.length], ?_, ?_, ?_⟩
        · rw [hcorners, List.getElem?_append_right hj1, List.getElem?_append_left hlt,
            List.getElem?_eq_getElem hlt]
        · exact (foldl_min_le _ _).2 _ (List.getElem_mem _)
        · exact (le_foldl_max _ _).2 _ (List.getElem_mem _)
      · have hlen : (pre ++ T.flatMap corners).length = pre.length + 3 * T.length := by
          rw [List.length_append, length_flatMap_corners]
        rw [← hlen] at hs
        have := ih (pre ++ T.flatMap corners) s hs j hj1 hj2
        rw [hcorners, ← List.append_assoc]
        exact this

theorem specTriangles_bounds (rev : Bool) (G : Nat) :
    ∀ (idx : List Nat) (o : Nat), ∀ t ∈ specTriangles rev G o idx, ∀ v ∈ corners t,
      o ≤ v ∧ v < o + idx.length := by
  intro idx
  induction idx using list_induction3 with
  | h0 => intro o t h; simp [specTriangles] at h
  | h1 a => intro o t h; simp [specTriangles] at h
  | h2 a b => intro o t h; simp [specTriangles] at h
  | h3 a b c rest ih =>
    intro o t h v hv
    simp only [specTriangles, List.mem_append] at h
    rcases h with h | h
    · split at h
      · simp at h
      · cases rev <;> simp at h <;> subst h <;> simp [corners] at hv <;>
          simp only [List.length_cons] <;> omega
    · have := ih _ t h v hv
      simp only [List.length_cons]
      omega

theorem specGroups_bounds (rev : Bool) :
    ∀ (prims : List FglTFRuntimePrimitive) (G o : Nat),
      ∀ v ∈ groupCorners (specGroups rev G o prims),
        o ≤ v ∧ v < o + (prims.map (fun P => P.Indices.length)).sum := by
  intro prims
  induction prims with
  | nil => intro G o v hv; simp [specGroups, groupCorners] at hv
  | cons P rest ih =>
    intro G o v hv
    simp only [specGroups, groupCorners, List.flatMap_cons, List.mem_append,
      List.mem_flatMap] at hv
    simp only [List.map_cons, List.sum_cons]
    rcases hv with ⟨t, ht, hv⟩ | hv
    · have := specTriangles_bounds rev G _ _ t ht v hv
      omega
    · have := ih (G + 1) (o + P.Indices.length) v
        (by simpa only [groupCorners, List.mem_flatMap] using hv)
      omega

theorem buildVertices_length {L : FEngine} {prims : List FglTFRuntimePrimitive}
    {cfg : FglTFRuntimeStaticMeshConfig} {mesh : UStaticMesh}
    (h : LoadStaticMesh_Internal L prims cfg = some mesh) :
    mesh.BuildVertices.length = (prims.map (fun P => P.Indices.length)).sum := by
  obtain ⟨built, hb, _, _, _, _, hV⟩ := LoadStaticMesh_Internal_spec h
  obtain ⟨_, _, hI, _, _, _⟩ := buildMeshDescription_spec hb
  rw [hV, buildVertices, List.length_map, finalMeshDescription_instances_length, hI,
    specInstances_length]

/-! ## When the build returns null -/

theorem Swap_length (l : List Nat) (i j : Nat) : (Swap l i j).length = l.length := by
  simp [Swap]

theorem CreateTriangle_ne_none (L : FEngine)
    (hacc : ∀ md g ids, L.TriangleAccepted md g ids = true) (md : FMeshDescription) (G : Nat)
    (l : List Nat) (hl : l.length = 3) : CreateTriangle L md G l ≠ none := by
  match l, hl with
  | [a, b, c], _ => simp [CreateTriangle, hacc]

theorem indexStep_none_iff (L : FEngine) (hacc : ∀ md g ids, L.TriangleAccepted md g ids = true)
    (cfg : FglTFRuntimeStaticMeshConfig) (P : FglTFRuntimePrimitive) (G : Nat)
    (VIDs : List Nat) (st : FIndexLoopState) (i : Nat) :
    indexStep L cfg P G VIDs st i = none ↔ VIDs.length ≤ i := by
  rw [indexStep_eq]
  by_cases hi : i ≥ VIDs.length
  · simp [hi]
  · rw [if_neg hi]
    have hi' : ¬ VIDs.length ≤ i := hi
    simp only [hi', iff_false]
    split
    · rename_i h3
      split
      · simp
      · have hne := CreateTriangle_ne_none L hacc
          (pushInstance L P VIDs st.MeshDescription i) G
          (if cfg.bReverseWinding = true then
            Swap (st.VertexInstancesIDs ++ [st.MeshDescription.VertexInstances.length]) 1 2
          else st.VertexInstancesIDs ++ [st.MeshDescription.VertexInstances.length])
          (by split <;> simp only [Swap_length, h3])
        split
        · rename_i hnone
          exact absurd hnone hne
        · simp
    · simp

theorem indexLoop_none_iff (L : FEngine)
    (hacc : ∀ md g ids, L.TriangleAccepted md g ids = true)
    (cfg : FglTFRuntimeStaticMeshConfig) (P : FglTFRuntimePrimitive) (G : Nat)
    (VIDs : List Nat) :
    ∀ (idx : List Nat) (st : FIndexLoopState),
      indexLoop L cfg P G VIDs idx st = none ↔ ∃ i ∈ idx, VIDs.length ≤ i := by
  intro idx
  induction idx with
  | nil => intro st; simp [indexLoop]
  | cons i rest ih =>
    intro st
    unfold indexLoop
    cases hs : indexStep L cfg P G VIDs st i with
    | none =>
      have := (indexStep_none_iff L hacc cfg P G VIDs st i).mp hs
      simp [this]
    | some s =>
      have hi : ¬ VIDs.length ≤ i := by
        intro hle
        rw [(indexStep_none_iff L hacc cfg P G VIDs st i).mpr hle] at hs
        exact Option.noConfusion hs
      simp [ih s, hi]

theorem primitiveStep_none_iff (L : FEngine)
    (hacc : ∀ md g ids, L.TriangleAccepted md g ids = true)
    (cfg : FglTFRuntimeStaticMeshConfig) (N : Nat) (st : FBuilderState)
    (P : FglTFRuntimePrimitive) :
    primitiveStep L cfg N st P = none ↔ ∃ i ∈ P.Indices, P.Positions.length ≤ i := by
  unfold primitiveStep
  simp only [createVertices_eq, List.nil_append]
  generalize hres : indexLoop L cfg P _ _ P.Indices _ = res
  have hiff : res = none ↔ ∃ i ∈ P.Indices, P.Positions.length ≤ i := by
    rw [← hres, indexLoop_none_iff L hacc, List.length_range']
  clear hres
  cases res with
  | none => simpa using hiff
  | some s => simpa using hiff

theorem primitiveLoop_none_iff (L : FEngine)
    (hacc : ∀ md g ids, L.TriangleAccepted md g ids = true)
    (cfg : FglTFRuntimeStaticMeshConfig) (N : Nat) :
    ∀ (prims : List FglTFRuntimePrimitive) (st : FBuilderState),
      primitiveLoop L cfg N prims st = none ↔
        ∃ P ∈ prims, ∃ i ∈ P.Indices, P.Positions.length ≤ i := by
  intro prims
  induction prims with
  | nil => intro st; simp [primitiveLoop]
  | cons P rest ih =>
    intro st
    unfold primitiveLoop
    cases hs : primitiveStep L cfg N st P with
    | none =>
      have := (primitiveStep_none_iff L hacc cfg N st P).mp hs
      simp [this]
    | some s =>
      have hi : ¬ ∃ i ∈ P.Indices, P.Positions.length ≤ i := by
        intro hle
        rw [(primitiveStep_none_iff L hacc cfg N st P).mpr hle] at hs
        exact Option.noConfusion hs
      simp only [ih s, List.mem_cons, exists_eq_or_imp, hi, false_or]

theorem buildMeshDescription_none_iff (L : FEngine)
    (hacc : ∀ md g ids, L.TriangleAccepted md g ids = true)
    (prims : List FglTFRuntimePrimitive) (cfg : FglTFRuntimeStaticMeshConfig) :
    buildMeshDescription L cfg prims = none ↔
      ∃ P ∈ prims, ∃ i ∈ P.Indices, P.Positions.length ≤ i :=
  primitiveLoop_none_iff L hacc cfg (computeParameters prims).NumUVs prims
    ⟨CreateStaticMeshDescription L, []⟩

theorem LoadStaticMesh_Internal_succeeds (L : FEngine)
    (hacc : ∀ md g ids, L.TriangleAccepted md g ids = true)
    (prims : List FglTFRuntimePrimitive) (cfg : FglTFRuntimeStaticMeshConfig)
    (hidx : ∀ P ∈ prims, ∀ i ∈ P.Indices, i < P.Positions.length) :
    ∃ mesh, LoadStaticMesh_Internal L prims cfg = some mesh := by
  unfold LoadStaticMesh_Internal
  cases hb : buildMeshDescription L cfg prims with
  | none =>
    obtain ⟨P, hP, i, hi, hle⟩ := (buildMeshDescription_none_iff L hacc prims cfg).mp hb
    exact absurd (hidx P hP i hi) (Nat.not_lt.mpr hle)
  | some built => exact ⟨_, rfl⟩

theorem specSections_max_lt (mats : List FStaticMaterial) (b : Nat) (hb : 0 < b) :
    ∀ (groups : List (Nat × List FMeshTriangle)) (start : Nat),
      (∀ v ∈ groupCorners groups, v < b) →
      ∀ s ∈ specSections mats start groups, s.MaxVertexIndex < b := by
  intro groups
  induction groups with
  | nil => intro start _ s hs; simp [specSections] at hs
  | cons p rest ih =>
    intro start hv s hs
    obtain ⟨name, T⟩ := p
    have hcorners : groupCorners ((name, T) :: rest) = T.flatMap corners ++ groupCorners rest := by
      simp [groupCorners]
    rw [hcorners] at hv
    have hrest : ∀ v ∈ groupCorners rest, v < b := fun v h => hv v (List.mem_append_right _ h)
    simp only [specSections] at hs
    split at hs
    · exact ih _ hrest s hs
    · rcases List.mem_cons.mp hs with rfl | hs
      · exact foldl_max_lt _ _ _ hb (fun v h => hv v (List.mem_append_left _ h))
      · exact ih _ hrest s hs

theorem stride_16_of_few_instances {L : FEngine} {prims : List FglTFRuntimePrimitive}
    {cfg : FglTFRuntimeStaticMeshConfig} {mesh : UStaticMesh}
    (h : LoadStaticMesh_Internal L prims cfg = some mesh)
    (hfew : (prims.map (fun P => P.Indices.length)).sum ≤ 65536) :
    mesh.IndexBufferStride = EIndexBufferStride.Force16Bit := by
  obtain ⟨built, _, _, _, _, hStride, _⟩ := LoadStaticMesh_Internal_spec h
  have hmax := specSections_max_lt built.StaticMaterials 65536 (by decide)
    (specGroups cfg.bReverseWinding 0 0 prims) 0
    (fun v hv => by
      have := (specGroups_bounds cfg.bReverseWinding prims 0 0 v hv).2
      omega)
  cases hs : mesh.IndexBufferStride with
  | Force16Bit => rfl
  | Force32Bit =>
    rw [hStride] at hs
    obtain ⟨s, hs1, hs2⟩ := (strideOf_eq_32_iff _).mp hs
    have := hmax s hs1
    omega

theorem strideUpgradePrimitive_in_range :
    ∀ P ∈ [strideUpgradePrimitive], ∀ i ∈ P.Indices, i < P.Positions.length := by
  intro P hP i hi
  simp only [List.mem_singleton] at hP
  subst hP
  simp only [strideUpgradePrimitive, List.mem_cons, List.mem_singleton, List.length_map,
    List.length_range, List.not_mem_nil, or_false] at hi ⊢
  omega

/-! ## Triangles of the index buffer -/

theorem getElem?_flatMap_corners : ∀ (T : List FMeshTriangle) (k : Nat),
    (T.flatMap corners)[3 * k]? = (T[k]?).map (fun t => t.V0) ∧
    (T.flatMap corners)[3 * k + 1]? = (T[k]?).map (fun t => t.V1) ∧
    (T.flatMap corners)[3 * k + 2]? = (T[k]?).map (fun t => t.V2) := by
  intro T
  induction T with
  | nil => intro k; simp
  | cons t T ih =>
    intro k
    cases k with
    | zero => simp [corners]
    | succ k =>
      obtain ⟨h0, h1, h2⟩ := ih k
      have e0 : 3 * (k + 1) = 3 * k + 1 + 1 + 1 := by omega
      have e1 : 3 * (k + 1) + 1 = 3 * k + 1 + 1 + 1 + 1 := by omega
      have e2 : 3 * (k + 1) + 2 = 3 * k + 2 + 1 + 1 + 1 := by omega
      refine ⟨?_, ?_, ?_⟩
      · rw [e0]; simpa [corners] using h0
      · rw [e1]; simpa [corners] using h1
      · rw [e2]; simpa [corners] using h2

theorem getElem?_append_add {α : Type} (pre l : List α) (j : Nat) :
    (pre ++ l)[pre.length + j]? = l[j]? := by
  rw [List.getElem?_append_right (Nat.le_add_right _ _), Nat.add_sub_cancel_left]

theorem specTriangles_distinct (rev : Bool) (G vb : Nat) (f : Nat → FMeshVertexInstance)
    (hf : ∀ i, (f i).VertexID = vb + i) :
    ∀ (idx : List Nat) (pre post : List FMeshVertexInstance),
      ∀ t ∈ specTriangles rev G pre.length idx, DistinctCorners (pre ++ idx.map f ++ post) t := by
  intro idx
  induction idx using list_induction3 with
  | h0 => intro pre post t h; simp [specTriangles] at h
  | h1 a => intro pre post t h; simp [specTriangles] at h
  | h2 a b => intro pre post t h; simp [specTriangles] at h
  | h3 a b c rest ih =>
    intro pre post t h
    simp only [specTriangles, List.mem_append] at h
    have hA : (pre ++ (a :: b :: c :: rest).map f ++ post)[pre.length]? = some (f a) := by
      rw [List.append_assoc]
      exact getElem?_append_add pre _ 0
    have hB : (pre ++ (a :: b :: c :: rest).map f ++ post)[pre.length + 1]? = some (f b) := by
      rw [List.append_assoc, getElem?_append_add]
      simp
    have hC : (pre ++ (a :: b :: c :: rest).map f ++ post)[pre.length + 2]? = some (f c) := by
      rw [List.append_assoc, getElem?_append_add]
      simp
    rcases h with h | h
    · split at h
      · simp at h
      · rename_i hd
        have hab : vb + a ≠ vb + b := by omega
        have hbc : vb + b ≠ vb + c := by omega
        have hac : vb + a ≠ vb + c := by omega
        cases rev
        · simp only [Bool.false_eq_true, if_false, List.mem_singleton] at h
          subst h
          exact ⟨f a, f b, f c, hA, hB, hC, by rw [hf, hf, hf]; exact ⟨hab, hbc, hac⟩⟩
        · simp only [if_true, List.mem_singleton] at h
          subst h
          exact ⟨f a, f c, f b, hA, hC, hB, by
            rw [hf, hf, hf]; exact ⟨hac, fun e => hbc e.symm, hab⟩⟩
    · have := ih (pre ++ [f a, f b, f c]) post t (by simpa using h)
      simpa [List.append_assoc] using this

theorem specGroups_distinct (L : FEngine) (N : Nat) (rev : Bool) :
    ∀ (prims : List FglTFRuntimePrimitive) (pre : List FMeshVertexInstance) (G vb : Nat),
      ∀ t ∈ (specGroups rev G pre.length prims).flatMap Prod.snd,
        DistinctCorners (pre ++ specInstances L N vb prims) t := by
  intro prims
  induction prims with
  | nil => intro pre G vb t h; simp [specGroups] at h
  | cons P rest ih =>
    intro pre G vb t h
    simp only [specGroups, List.flatMap_cons, List.mem_append] at h
    simp only [specInstances, ← List.append_assoc]
    rcases h with h | h
    · exact specTriangles_distinct rev G vb (fun i => specInstance L P N (vb + i) i)
        (fun i => specInstance_VertexID L P N _ i) P.Indices pre _ t h
    · have hlen : (pre ++ P.Indices.map (fun i => specInstance L P N (vb + i) i)).length =
          pre.length + P.Indices.length := by simp
      rw [← hlen] at h
      exact ih _ (G + 1) (vb + P.Positions.length) t h

theorem corners_swapCorners (t : FMeshTriangle) : corners (swapCorners t) = [t.V0, t.V2, t.V1] :=
  rfl

theorem specTriangles_flipped (G : Nat) : ∀ (idx : List Nat) (o : Nat),
    specTriangles true G o idx = (specTriangles false G o idx).map swapCorners := by
  intro idx
  induction idx using list_induction3 with
  | h0 => intro o; rfl
  | h1 a => intro o; rfl
  | h2 a b => intro o; rfl
  | h3 a b c rest ih =>
    intro o
    simp only [specTriangles, ih, List.map_append]
    split <;> simp [swapCorners]

theorem specGroups_flipped : ∀ (prims : List FglTFRuntimePrimitive) (G o : Nat),
    (specGroups true G o prims).flatMap Prod.snd =
      ((specGroups false G o prims).flatMap Prod.snd).map swapCorners := by
  intro prims
  induction prims with
  | nil => intro G o; rfl
  | cons P rest ih =>
    intro G o
    simp only [specGroups, List.flatMap_cons, ih, specTriangles_flipped, List.map_append]

/-! ## Material slots -/

theorem specTriangles_length (rev : Bool) (G : Nat) : ∀ (idx : List Nat) (o : Nat),
    (specTriangles rev G o idx).length = countTriangles idx := by
  intro idx
  induction idx using list_induction3 with
  | h0 => intro o; rfl
  | h1 a => intro o; rfl
  | h2 a b => intro o; rfl
  | h3 a b c rest ih =>
    intro o
    simp only [specTriangles, countTriangles, List.length_append, ih]
    split <;> simp

theorem specSections_materials (mats : List FStaticMaterial) (rev : Bool) :
    ∀ (prims : List FglTFRuntimePrimitive) (start G o : Nat),
      (specSections mats start (specGroups rev G o prims)).map (fun s => s.MaterialIndex) =
        (prims.filter (fun P => decide (countTriangles P.Indices ≠ 0))).map
          (fun P => IndexOfByPredicate
            (fun m : FStaticMaterial => m.MaterialSlotName = P.Material.FName) mats) := by
  intro prims
  induction prims with
  | nil => intro start G o; rfl
  | cons P rest ih =>
    intro start G o
    simp only [specGroups, specSections, specTriangles_length]
    by_cases hc : countTriangles P.Indices = 0
    · simp [hc, ih]
    · simp [hc, ih, specSection]

theorem firstIndexWhere_spec {α : Type} (p : α → Bool) :
    ∀ (l : List α), (∃ m ∈ l, p m = true) →
      ∃ i m, firstIndexWhere p l = some i ∧ l[i]? = some m ∧ p m = true ∧
        ∀ j m', j < i → l[j]? = some m' → p m' = false := by
  intro l
  induction l with
  | nil => intro h; simp at h
  | cons x xs ih =>
    intro h
    by_cases hx : p x = true
    · refine ⟨0, x, by simp [firstIndexWhere, hx], by simp, hx, ?_⟩
      intro j m' hj; omega
    · have hex : ∃ m ∈ xs, p m = true := by
        obtain ⟨m, hm, hpm⟩ := h
        rcases List.mem_cons.mp hm with rfl | hm
        · exact absurd hpm hx
        · exact ⟨m, hm, hpm⟩
      obtain ⟨i, m, h1, h2, h3, h4⟩ := ih hex
      refine ⟨i + 1, m, by simp [firstIndexWhere, hx, h1], by simpa using h2, h3, ?_⟩
      intro j m' hj hm'
      cases j with
      | zero =>
        simp only [List.getElem?_cons_zero, Option.some.injEq] at hm'
        subst hm'
        simpa using hx
      | succ j =>
        simp only [List.getElem?_cons_succ] at hm'
        exact h4 j m' (by omega) hm'

/-! ## Vertex instances by primitive and occurrence -/

theorem specInstances_getElem? (L : FEngine) (N : Nat) :
    ∀ (prims : List FglTFRuntimePrimitive) (vb k : Nat) (P : FglTFRuntimePrimitive) (j i : Nat),
      prims[k]? = some P → P.Indices[j]? = some i →
      (specInstances L N vb prims)[((prims.take k).map (fun Q => Q.Indices.length)).sum + j]? =
        some (specInstance L P N
          (vb + ((prims.take k).map (fun Q => Q.Positions.length)).sum + i) i) := by
  intro prims
  induction prims with
  | nil => intro vb k P j i hP; simp at hP
  | cons Q rest ih =>
    intro vb k P j i hP hj
    cases k with
    | zero =>
      simp only [List.getElem?_cons_zero, Option.some.injEq] at hP
      subst hP
      have hlt : j < Q.Indices.length := by
        by_contra hge
        rw [List.getElem?_eq_none (Nat.le_of_not_lt hge)] at hj
        exact Option.noConfusion hj
      simp only [List.take_zero, List.map_nil, List.sum_nil, Nat.zero_add, Nat.add_zero,
        specInstances]
      rw [List.getElem?_append_left (by simpa using hlt), List.getElem?_map, hj]
      rfl
    | succ k =>
      simp only [List.getElem?_cons_succ] at hP
      have := ih (vb + Q.Positions.length) k P j i hP hj
      simp only [List.take_succ_cons, List.map_cons, List.sum_cons, specInstances]
      have hlen : (Q.Indices.map (fun i => specInstance L Q N (vb + i) i)).length =
          Q.Indices.length := by simp
      rw [Nat.add_assoc, ← hlen, getElem?_append_add, this]
      congr 2
      omega

theorem flatMap_Positions_getElem? :
    ∀ (prims : List FglTFRuntimePrimitive) (k : Nat) (P : FglTFRuntimePrimitive) (i : Nat),
      prims[k]? = some P → i < P.Positions.length →
      (prims.flatMap (fun Q => Q.Positions))[
        ((prims.take k).map (fun Q => Q.Positions.length)).sum + i]? = P.Positions[i]? := by
  intro prims
  induction prims with
  | nil => intro k P i hP; simp at hP
  | cons Q rest ih =>
    intro k P i hP hi
    cases k with
    | zero =>
      simp only [List.getElem?_cons_zero, Option.some.injEq] at hP
      subst hP
      simp only [List.take_zero, List.map_nil, List.sum_nil, Nat.zero_add, List.flatMap_cons]
      rw [List.getElem?_append_left hi]
    | succ k =>
      simp only [List.getElem?_cons_succ] at hP
      have := ih k P i hP hi
      simp only [List.take_succ_cons, List.map_cons, List.sum_cons, List.flatMap_cons]
      rw [Nat.add_assoc, getElem?_append_add, this]

theorem fillUVs_getElem?_lt (i : Nat) : ∀ (Ss : List (List FVector2D)) (k : Nat)
    (uv : List FVector2D) (m : Nat), m < k → (fillUVs i Ss k uv)[m]? = uv[m]? := by
  intro Ss
  induction Ss with
  | nil => intro k uv m _; rfl
  | cons S rest ih =>
    intro k uv m hm
    simp only [fillUVs]
    rw [ih (k + 1) _ m (by omega), List.getElem?_set_ne (by omega)]

theorem fillUVs_getElem? (i : Nat) : ∀ (Ss : List (List FVector2D)) (k : Nat)
    (uv : List FVector2D) (u : Nat) (S : List FVector2D),
    Ss[u]? = some S → k + u < uv.length →
    (fillUVs i Ss k uv)[k + u]? =
      some (if i ≥ S.length then FVector2D.ZeroVector else S.getD i FVector2D.ZeroVector) := by
  intro Ss
  induction Ss with
  | nil => intro k uv u S hS; simp at hS
  | cons S0 rest ih =>
    intro k uv u S hS hlt
    cases u with
    | zero =>
      simp only [List.getElem?_cons_zero, Option.some.injEq] at hS
      subst hS
      simp only [fillUVs, Nat.add_zero] at hlt ⊢
      rw [fillUVs_getElem?_lt i rest (k + 1) _ k (by omega), List.getElem?_set_self hlt]
    | succ u =>
      simp only [List.getElem?_cons_succ] at hS
      simp only [fillUVs]
      have := ih (k + 1) (uv.set k
        (if i ≥ S0.length then FVector2D.ZeroVector else S0.getD i FVector2D.ZeroVector)) u S hS
        (by rw [List.length_set]; omega)
      rw [← this]
      congr 1
      omega

theorem foldl_parametersStep_NumUVs : ∀ (prims : List FglTFRuntimePrimitive)
    (a : FMeshParameters),
    a.NumUVs ≤ (prims.foldl parametersStep a).NumUVs ∧
      ∀ P ∈ prims, P.UVs.length ≤ (prims.foldl parametersStep a).NumUVs := by
  intro prims
  induction prims with
  | nil => intro a; simp
  | cons Q rest ih =>
    intro a
    obtain ⟨h1, h2⟩ := ih (parametersStep a Q)
    have hstep : a.NumUVs ≤ (parametersStep a Q).NumUVs ∧
        Q.UVs.length ≤ (parametersStep a Q).NumUVs := by
      simp only [parametersStep]
      split <;> omega
    simp only [List.foldl_cons, List.mem_cons]
    refine ⟨by omega, ?_⟩
    intro P hP
    rcases hP with rfl | hP
    · omega
    · exact h2 P hP

theorem specInstance_FillRule (L : FEngine) (P : FglTFRuntimePrimitive) (N v i : Nat)
    (hN : P.UVs.length ≤ N) : FillRule L P i (specInstance L P N v i) := by
  refine ⟨?_, ?_, ?_, ?_, ?_, ?_, ?_, ?_, ?_, ?_⟩
  · intro hne hlt
    have hpos : P.Normals.length > 0 := List.length_pos.mpr hne
    rw [specInstance_Normal, if_pos hpos, if_neg (Nat.not_le.mpr hlt),
      List.getD_eq_getElem?_getD, List.getElem?_eq_getElem hlt]
    rfl
  · intro hne hle
    have hpos : P.Normals.length > 0 := List.length_pos.mpr hne
    rw [specInstance_Normal, if_pos hpos, if_pos hle]
  · intro hnil
    rw [specInstance_Normal, hnil]
    rfl
  · intro hne hlt
    have hpos : P.Tangents.length > 0 := List.length_pos.mpr hne
    rw [specInstance_Tangent, if_pos hpos, if_neg (Nat.not_le.mpr hlt),
      List.getD_eq_getElem?_getD, List.getElem?_eq_getElem hlt]
    rfl
  · intro hne hle
    have hpos : P.Tangents.length > 0 := List.length_pos.mpr hne
    rw [specInstance_Tangent, if_pos hpos, if_pos hle]
  · intro hnil
    rw [specInstance_Tangent, hnil]
    rfl
  · intro hne hlt
    have hpos : P.Colors.length > 0 := List.length_pos.mpr hne
    rw [specInstance_Color, if_pos hpos, if_neg (Nat.not_le.mpr hlt),
      List.getD_eq_getElem?_getD, List.getElem?_eq_getElem hlt]
    rfl
  · intro hne hle
    have hpos : P.Colors.length > 0 := List.length_pos.mpr hne
    rw [specInstance_Color, if_pos hpos, if_pos hle]
  · intro hnil
    rw [specInstance_Color, hnil]
    rfl
  · intro u S hS
    have hu : u < P.UVs.length := by
      by_contra hge
      rw [List.getElem?_eq_none (Nat.le_of_not_lt hge)] at hS
      exact Option.noConfusion hS
    have hfill := fillUVs_getElem? i P.UVs 0 (List.replicate N L.DefaultUV) u S hS
      (by rw [List.length_replicate]; omega)
    rw [Nat.zero_add] at hfill
    rw [specInstance_UVs, hfill]
    refine ⟨?_, ?_⟩
    · intro hlt
      refine ⟨S[i], List.getElem?_eq_getElem hlt, ?_⟩
      rw [if_neg (Nat.not_le.mpr hlt), List.getD_eq_getElem?_getD, List.getElem?_eq_getElem hlt]
      rfl
    · intro hle
      rw [if_pos hle]

theorem foldl_parametersStep_eq : ∀ (prims : List FglTFRuntimePrimitive) (a : FMeshParameters),
    (prims.foldl parametersStep a).NumUVs =
        max a.NumUVs ((prims.map (fun P => P.UVs.length)).foldr max 0) ∧
      ((prims.foldl parametersStep a).bCalculateNormals = true ↔
        a.bCalculateNormals = true ∨ ∃ P ∈ prims, P.Normals = []) ∧
      ((prims.foldl parametersStep a).bCalculateTangents = true ↔
        a.bCalculateTangents = true ∨ ∃ P ∈ prims, P.Tangents = []) := by
  intro prims
  induction prims with
  | nil => intro a; simp
  | cons Q rest ih =>
    intro a
    obtain ⟨h1, h2, h3⟩ := ih (parametersStep a Q)
    simp only [List.foldl_cons, List.map_cons, List.foldr_cons, List.mem_cons,
      exists_eq_or_imp]
    refine ⟨?_, ?_, ?_⟩
    · rw [h1]
      simp only [parametersStep]
      split <;> omega
    · rw [h2]
      simp only [parametersStep, List.length_eq_zero]
      by_cases hQ : Q.Normals = [] <;> simp [hQ]
    · rw [h3]
      simp only [parametersStep, List.length_eq_zero]
      by_cases hQ : Q.Tangents = [] <;> simp [hQ]

theorem foldl_canonicalize : ∀ (prims : List FglTFRuntimePrimitive)
    (st : FMeshParameters × List FglTFRuntimePrimitive),
    prims.foldl (fun st P => (parametersStep st.1 P, st.2 ++ [P])) st =
      (prims.foldl parametersStep st.1, st.2 ++ prims) := by
  intro prims
  induction prims with
  | nil => intro st; simp
  | cons Q rest ih => intro st; simp [ih]

/-! ## UV channels -/

theorem fillUVs_getElem?_ge (i : Nat) : ∀ (Ss : List (List FVector2D)) (k : Nat)
    (uv : List FVector2D) (c : Nat), k + Ss.length ≤ c → (fillUVs i Ss k uv)[c]? = uv[c]? := by
  intro Ss
  induction Ss with
  | nil => intro k uv c _; rfl
  | cons S rest ih =>
    intro k uv c hc
    simp only [List.length_cons] at hc
    simp only [fillUVs]
    rw [ih (k + 1) _ c (by omega), List.getElem?_set_ne (by omega)]

theorem specInstance_UVs_default (L : FEngine) (P : FglTFRuntimePrimitive) (N v i c : Nat)
    (h1 : P.UVs.length ≤ c) (h2 : c < N) :
    (specInstance L P N v i).UVs[c]? = some L.DefaultUV := by
  rw [specInstance_UVs, fillUVs_getElem?_ge i P.UVs 0 _ c (by omega)]
  simp [h2]

theorem foldl_specStep_NumUVIndices (L : FEngine) (rev : Bool) (N : Nat) :
    ∀ (prims : List FglTFRuntimePrimitive) (st : FBuilderState),
      (prims.foldl (specStep L rev N) st).MeshDescription.NumUVIndices =
        if prims = [] then st.MeshDescription.NumUVIndices else N := by
  intro prims
  induction prims with
  | nil => intro st; rfl
  | cons P rest ih =>
    intro st
    rw [List.foldl_cons, ih]
    by_cases hr : rest = []
    · simp [hr, specStep]
    · simp [hr]

theorem buildMeshDescription_NumUVIndices {L : FEngine} {cfg : FglTFRuntimeStaticMeshConfig}
    {prims : List FglTFRuntimePrimitive} {built : FBuilderState}
    (h : buildMeshDescription L cfg prims = some built) (hne : prims ≠ []) :
    built.MeshDescription.NumUVIndices = (computeParameters prims).NumUVs := by
  obtain ⟨_, h2⟩ := primitiveLoop_spec h
  rw [h2, foldl_specStep_NumUVIndices, if_neg hne]

theorem finalMeshDescription_instance_UVs (L : FEngine)
    (cfg : FglTFRuntimeStaticMeshConfig) (prims : List FglTFRuntimePrimitive)
    (built : FBuilderState) (j : Nat) :
    ((finalMeshDescription L cfg prims built).VertexInstances[j]?).map (fun vi => vi.UVs) =
      (built.MeshDescription.VertexInstances[j]?).map (fun vi => vi.UVs) := by
  unfold finalMeshDescription applyPivot deriveNormalsAndTangents ComputeTangentsAndNormals
  split <;> split <;> simp [getElem?_mapWithID] <;>
    cases built.MeshDescription.VertexInstances[j]? <;> rfl

theorem specInstances_ne_nil_prims (L : FEngine) (N vb : Nat)
    (prims : List FglTFRuntimePrimitive) (vi : FMeshVertexInstance)
    (h : vi ∈ specInstances L N vb prims) : prims ≠ [] := by
  intro hnil
  subst hnil
  simp [specInstances] at h

/-! ## Bounds and pivot -/

theorem FVector.eq_of_components {a b : FVector} (hx : a.X = b.X) (hy : a.Y = b.Y)
    (hz : a.Z = b.Z) : a = b := by
  cases a; cases b; simp_all

theorem GetBox_GetCenter (b : FBoxSphereBounds) : b.GetBox.GetCenter = b.Origin := by
  apply FVector.eq_of_components <;>
    simp only [FBoxSphereBounds.GetBox, FBox.GetCenter, FVector.add, FVector.sub,
      FVector.scale] <;> ring

theorem GetBox_GetExtent (b : FBoxSphereBounds) : b.GetBox.GetExtent = b.BoxExtent := by
  apply FVector.eq_of_components <;>
    simp only [FBoxSphereBounds.GetBox, FBox.GetExtent, FVector.add, FVector.sub,
      FVector.scale] <;> ring

theorem foldl_box_shift (d : FVector) : ∀ (ps : List FVector) (b : FBox),
    (ps.map (fun p => p.sub d)).foldl FBox.extend ⟨b.Min.sub d, b.Max.sub d⟩ =
      ⟨(ps.foldl FBox.extend b).Min.sub d, (ps.foldl FBox.extend b).Max.sub d⟩ := by
  intro ps
  induction ps with
  | nil => intro b; rfl
  | cons q rest ih =>
    intro b
    have hstep : FBox.extend ⟨b.Min.sub d, b.Max.sub d⟩ (q.sub d) =
        ⟨(FBox.extend b q).Min.sub d, (FBox.extend b q).Max.sub d⟩ := by
      simp only [FBox.extend, FVector.ComponentMin, FVector.ComponentMax, FVector.sub,
        min_sub_sub_right, max_sub_sub_right]
    simp only [List.map_cons, List.foldl_cons, hstep]
    exact ih (FBox.extend b q)

theorem boundingBox_shift (d : FVector) (ps : List FVector) (hne : ps ≠ []) :
    boundingBox (ps.map (fun p => p.sub d)) =
      ⟨(boundingBox ps).Min.sub d, (boundingBox ps).Max.sub d⟩ := by
  cases ps with
  | nil => exact absurd rfl hne
  | cons p rest => exact foldl_box_shift d rest ⟨p, p⟩

theorem foldl_box_min_Z : ∀ (ps : List FVector) (b : FBox),
    (ps.foldl FBox.extend b).Min.Z ≤ b.Min.Z ∧
      (∀ q ∈ ps, (ps.foldl FBox.extend b).Min.Z ≤ q.Z) ∧
      ((ps.foldl FBox.extend b).Min.Z = b.Min.Z ∨
        ∃ q ∈ ps, q.Z = (ps.foldl FBox.extend b).Min.Z) := by
  intro ps
  induction ps with
  | nil => intro b; simp
  | cons q rest ih =>
    intro b
    obtain ⟨h1, h2, h3⟩ := ih (FBox.extend b q)
    have he : (FBox.extend b q).Min.Z = min b.Min.Z q.Z := rfl
    rw [he] at h1 h3
    simp only [List.foldl_cons, List.mem_cons, forall_eq_or_imp, exists_eq_or_imp]
    refine ⟨le_trans h1 (min_le_left _ _), ⟨le_trans h1 (min_le_right _ _), h2⟩, ?_⟩
    rcases h3 with h3 | h3
    · rcases min_choice b.Min.Z q.Z with hm | hm
      · left; rw [h3, hm]
      · right; left; rw [h3, hm]
    · right; right; exact h3

theorem boundingBox_min_Z (ps : List FVector) (hne : ps ≠ []) :
    (∀ q ∈ ps, (boundingBox ps).Min.Z ≤ q.Z) ∧ ∃ q ∈ ps, q.Z = (boundingBox ps).Min.Z := by
  cases ps with
  | nil => exact absurd rfl hne
  | cons p rest =>
    obtain ⟨h1, h2, h3⟩ := foldl_box_min_Z rest ⟨p, p⟩
    simp only [boundingBox, List.mem_cons, forall_eq_or_imp, exists_eq_or_imp]
    refine ⟨⟨h1, h2⟩, ?_⟩
    rcases h3 with h3 | h3
    · left; exact h3.symm
    · right; exact h3

theorem deriveNormalsAndTangents_positions (L : FEngine) (params : FMeshParameters)
    (md : FMeshDescription) :
    (deriveNormalsAndTangents L params md).VertexPositions = md.VertexPositions := by
  unfold deriveNormalsAndTangents ComputeTangentsAndNormals
  split <;> rfl

theorem applyPivot_positions (L : FEngine) (cfg : FglTFRuntimeStaticMeshConfig)
    (md : FMeshDescription) (hne : cfg.PivotPosition ≠ EglTFRuntimePivotPosition.Asset) :
    (applyPivot L cfg md).VertexPositions =
      md.VertexPositions.map (fun p => p.sub (PivotDelta cfg (L.GetBounds md))) := by
  simp [applyPivot, hne]

/-- The bounds of the mesh after the pivot shift, for an engine whose bounds come from the
bounding box: origin moved by the pivot delta, extent kept. -/
theorem bounds_after_pivot (L : FEngine) (hB : BoundsFromPositions L)
    (cfg : FglTFRuntimeStaticMeshConfig) (md : FMeshDescription)
    (hne : md.VertexPositions ≠ [])
    (hcfg : cfg.PivotPosition ≠ EglTFRuntimePivotPosition.Asset) :
    (L.GetBounds (applyPivot L cfg md)).Origin =
        (L.GetBounds md).Origin.sub (PivotDelta cfg (L.GetBounds md)) ∧
      (L.GetBounds (applyPivot L cfg md)).BoxExtent = (L.GetBounds md).BoxExtent := by
  obtain ⟨h1, h2⟩ := hB (applyPivot L cfg md)
  obtain ⟨h3, h4⟩ := hB md
  rw [h1, h2, h3, h4, applyPivot_positions L cfg md hcfg, boundingBox_shift _ _ hne]
  constructor <;> apply FVector.eq_of_components <;>
    simp only [FBox.GetCenter, FBox.GetExtent, FVector.add, FVector.sub, FVector.scale] <;> ring

theorem boundingBox_cube :
    boundingBox cubePositions = ⟨⟨-1/2, -1/2, 9/2⟩, ⟨1/2, 1/2, 11/2⟩⟩ := by
  simp only [boundingBox, cubePositions, List.foldl, FBox.extend, FVector.ComponentMin,
    FVector.ComponentMax]
  norm_num

/-- The cube scenario: vertex positions and bounds of the lowered mesh in mode Bottom. -/
theorem cube_bottom_bounds (L : FEngine) (hB : BoundsFromPositions L)
    (cfg : FglTFRuntimeStaticMeshConfig) (P : FglTFRuntimePrimitive) (built : FBuilderState)
    (hP : P.Positions = cubePositions)
    (hcfg : cfg.PivotPosition = EglTFRuntimePivotPosition.Bottom)
    (hb : buildMeshDescription L cfg [P] = some built) :
    (finalMeshDescription L cfg [P] built).VertexPositions =
        cubePositions.map (fun p => p.sub ⟨0, 0, 9/2⟩) ∧
      (L.GetBounds (finalMeshDescription L cfg [P] built)).Origin = ⟨0, 0, 1/2⟩ ∧
      (L.GetBounds (finalMeshDescription L cfg [P] built)).BoxExtent = ⟨1/2, 1/2, 1/2⟩ := by
  obtain ⟨_, hVP, _, _, _, _⟩ := buildMeshDescription_spec hb
  have hA : cfg.PivotPosition ≠ EglTFRuntimePivotPosition.Asset := by rw [hcfg]; decide
  have hpos : (deriveNormalsAndTangents L (computeParameters [P])
      built.MeshDescription).VertexPositions = cubePositions := by
    rw [deriveNormalsAndTangents_positions, hVP]
    simp [hP]
  obtain ⟨hO, hE⟩ := hB (deriveNormalsAndTangents L (computeParameters [P]) built.MeshDescription)
  rw [hpos, boundingBox_cube] at hO hE
  have hdelta : PivotDelta cfg (L.GetBounds
      (deriveNormalsAndTangents L (computeParameters [P]) built.MeshDescription)) =
        ⟨0, 0, 9/2⟩ := by
    simp only [PivotDelta, hcfg]
    rw [GetBox_GetCenter, GetBox_GetExtent, hO, hE]
    simp only [FBox.GetCenter, FBox.GetExtent, FVector.add, FVector.sub, FVector.scale]
    norm_num
  obtain ⟨h1, h2⟩ := bounds_after_pivot L hB cfg
    (deriveNormalsAndTangents L (computeParameters [P]) built.MeshDescription)
    (by rw [hpos]; simp [cubePositions]) hA
  refine ⟨?_, ?_, ?_⟩
  · unfold finalMeshDescription
    rw [applyPivot_positions L cfg _ hA, hpos, hdelta]
  · unfold finalMeshDescription
    rw [h1, hdelta, hO]
    simp only [FBox.GetCenter, FVector.add, FVector.sub, FVector.scale]
    norm_num
  · unfold finalMeshDescription
    rw [h2, hE]
    simp only [FBox.GetExtent, FVector.add, FVector.sub, FVector.scale]
    norm_num

theorem cubePrimitive_in_range :
    ∀ P ∈ [cubePrimitive], ∀ i ∈ P.Indices, i < P.Positions.length := by
  decide

/-! ## Loading every mesh -/

theorem loadMeshesLoop_true {σ α : Type} (LoadStaticMesh : Nat → σ → Option α × σ) :
    ∀ (n Index : Nat) (s : σ) (out : List α),
      (loadMeshesLoop LoadStaticMesh n Index s out).1 = true →
      ∃ assets, assets.length = n ∧
        LoadsInOrder LoadStaticMesh Index s assets
          (loadMeshesLoop LoadStaticMesh n Index s out).2.2 ∧
        (loadMeshesLoop LoadStaticMesh n Index s out).2.1 = out ++ assets := by
  intro n
  induction n with
  | zero => intro Index s out _; exact ⟨[], rfl, rfl, by simp [loadMeshesLoop]⟩
  | succ n ih =>
    intro Index s out h
    unfold loadMeshesLoop at h ⊢
    cases hl : LoadStaticMesh Index s with
    | mk r s1 =>
      cases r with
      | none => rw [hl] at h; simp at h
      | some m =>
        simp only [hl] at h ⊢
        obtain ⟨assets, h1, h2, h3⟩ := ih (Index + 1) s1 (out ++ [m]) h
        exact ⟨m :: assets, by simp [h1], ⟨s1, hl, h2⟩, by simp [h3]⟩

theorem loadMeshesLoop_false {σ α : Type} (LoadStaticMesh : Nat → σ → Option α × σ) :
    ∀ (n Index : Nat) (s : σ) (out : List α),
      (loadMeshesLoop LoadStaticMesh n Index s out).1 = false →
      ∃ (k : Nat) (assets : List α) (sk : σ), k < n ∧ assets.length = k ∧
        LoadsInOrder LoadStaticMesh Index s assets sk ∧
        (LoadStaticMesh (Index + k) sk).1 = none ∧
        loadMeshesLoop LoadStaticMesh n Index s out =
          (false, out ++ assets, (LoadStaticMesh (Index + k) sk).2) := by
  intro n
  induction n with
  | zero => intro Index s out h; simp [loadMeshesLoop] at h
  | succ n ih =>
    intro Index s out h
    unfold loadMeshesLoop at h ⊢
    cases hl : LoadStaticMesh Index s with
    | mk r s1 =>
      cases r with
      | none =>
        exact ⟨0, [], s, Nat.succ_pos n, rfl, rfl, by simp [hl], by simp [hl]⟩
      | some m =>
        simp only [hl] at h ⊢
        obtain ⟨k, assets, sk, h1, h2, h3, h4, h5⟩ := ih (Index + 1) s1 (out ++ [m]) h
        have hk : Index + 1 + k = Index + (k + 1) := by omega
        rw [hk] at h4 h5
        exact ⟨k + 1, m :: assets, sk, by omega, by simp [h2], ⟨s1, hl, h3⟩, h4, by
          rw [h5]; simp⟩

theorem loadMeshesLoop_of_loads {σ α : Type} (LoadStaticMesh : Nat → σ → Option α × σ) :
    ∀ (assets : List α) (Index : Nat) (s s' : σ) (out : List α),
      LoadsInOrder LoadStaticMesh Index s assets s' →
      loadMeshesLoop LoadStaticMesh assets.length Index s out = (true, out ++ assets, s') := by
  intro assets
  induction assets with
  | nil =>
    intro Index s s' out h
    simp only [LoadsInOrder] at h
    simp [loadMeshesLoop, h]
  | cons m rest ih =>
    intro Index s s' out h
    obtain ⟨s1, h1, h2⟩ := h
    simp only [List.length_cons, loadMeshesLoop, h1]
    rw [ih (Index + 1) s1 s' (out ++ [m]) h2]
    simp

/-! ## Sections and the primitives they come from -/

theorem producers_map_snd : ∀ (prims : List FglTFRuntimePrimitive) (o : Nat),
    (producers o prims).map Prod.snd =
      prims.filter (fun P => decide (countTriangles P.Indices ≠ 0)) := by
  intro prims
  induction prims with
  | nil => intro o; rfl
  | cons P rest ih =>
    intro o
    by_cases hc : countTriangles P.Indices = 0
    · simp [producers, hc, ih]
    · simp [producers, hc, ih]

theorem countTriangles_short (idx : List Nat) (h : idx.length < 3) : countTriangles idx = 0 := by
  match idx, h with
  | [], _ => rfl
  | [_], _ => rfl
  | [_, _], _ => rfl

theorem specSections_producers (mats : List FStaticMaterial) (rev : Bool) :
    ∀ (prims : List FglTFRuntimePrimitive) (G o : Nat) (pre : List Nat),
      (specSections mats pre.length (specGroups rev G o prims)).length =
          (producers o prims).length ∧
      ∀ (i : Nat) (s : FStaticMeshSection) (o' : Nat) (P : FglTFRuntimePrimitive),
        (specSections mats pre.length (specGroups rev G o prims))[i]? = some s →
        (producers o prims)[i]? = some (o', P) →
        s.NumTriangles = countTriangles P.Indices ∧
        o' ≤ s.MaxVertexIndex ∧ s.MaxVertexIndex < o' + P.Indices.length ∧
        ∀ j, s.FirstIndex ≤ j → j < s.FirstIndex + 3 * s.NumTriangles →
          ∃ v, (pre ++ groupCorners (specGroups rev G o prims))[j]? = some v ∧
            o' ≤ v ∧ v < o' + P.Indices.length := by
  intro prims
  induction prims with
  | nil => intro G o pre; simp [specGroups, specSections, producers]
  | cons Q rest ih =>
    intro G o pre
    have hcorners : groupCorners ((Q.Material.FName, specTriangles rev G o Q.Indices) ::
          specGroups rev (G + 1) (o + Q.Indices.length) rest) =
        (specTriangles rev G o Q.Indices).flatMap corners ++
          groupCorners (specGroups rev (G + 1) (o + Q.Indices.length) rest) := by
      simp [groupCorners]
    have hlenT := specTriangles_length rev G Q.Indices o
    by_cases hc : countTriangles Q.Indices = 0
    · have hT0 : (specTriangles rev G o Q.Indices).length = 0 := by rw [hlenT, hc]
      have hnil : specTriangles rev G o Q.Indices = [] := List.length_eq_zero.mp hT0
      obtain ⟨h1, h2⟩ := ih (G + 1) (o + Q.Indices.length) pre
      simp only [specGroups, specSections, if_pos hT0, producers, if_pos hc, List.nil_append]
      refine ⟨h1, ?_⟩
      intro i s o' P hs hP
      have := h2 i s o' P hs hP
      rw [hcorners, hnil]
      simpa using this
    · have hT0 : ¬ (specTriangles rev G o Q.Indices).length = 0 := by rw [hlenT]; exact hc
      have hlen : (pre ++ (specTriangles rev G o Q.Indices).flatMap corners).length =
          pre.length + 3 * (specTriangles rev G o Q.Indices).length := by
        rw [List.length_append, length_flatMap_corners]
      obtain ⟨h1, h2⟩ := ih (G + 1) (o + Q.Indices.length)
        (pre ++ (specTriangles rev G o Q.Indices).flatMap corners)
      rw [hlen] at h1 h2
      simp only [specGroups, specSections, if_neg hT0, producers, if_neg hc,
        List.singleton_append, List.length_cons]
      refine ⟨by rw [h1], ?_⟩
      intro i s o' P hs hP
      cases i with
      | zero =>
        simp only [List.getElem?_cons_zero, Option.some.injEq] at hs hP
        obtain ⟨rfl, rfl⟩ := Prod.mk.inj hP
        subst hs
        have hbound : ∀ v ∈ (specTriangles rev G o Q.Indices).flatMap corners,
            o ≤ v ∧ v < o + Q.Indices.length := by
          intro v hv
          obtain ⟨t, ht, hvt⟩ := List.mem_flatMap.mp hv
          exact specTriangles_bounds rev G _ _ t ht v hvt
        have hne : (specTriangles rev G o Q.Indices).flatMap corners ≠ [] := by
          intro he
          have := congrArg List.length he
          rw [length_flatMap_corners] at this
          simp only [List.length_nil] at this
          omega
        obtain ⟨v0, hv0⟩ := List.exists_mem_of_ne_nil _ hne
        refine ⟨by simp only [specSection]; exact hlenT, ?_, ?_, ?_⟩
        · exact le_trans (hbound v0 hv0).1 ((le_foldl_max _ 0).2 v0 hv0)
        · exact foldl_max_lt _ 0 _ (by have := hbound v0 hv0; omega) (fun v hv => (hbound v hv).2)
        · intro j hj1 hj2
          simp only [specSection] at hj1 hj2
          have hlt : j - pre.length < ((specTriangles rev G o Q.Indices).flatMap corners).length := by
            rw [length_flatMap_corners]; omega
          refine ⟨((specTriangles rev G o Q.Indices).flatMap corners)[j - pre.length], ?_,
            hbound _ (List.getElem_mem _)⟩
          rw [hcorners, List.getElem?_append_right hj1, List.getElem?_append_left hlt,
            List.getElem?_eq_getElem hlt]
      | succ i =>
        simp only [List.getElem?_cons_succ] at hs hP
        have := h2 i s o' P hs hP
        rw [hcorners, ← List.append_assoc]
        exact this

/-! ## Triangles by aligned triples -/

theorem alignedTriples_cons3 (a b c : Nat) (rest : List Nat) :
    alignedTriples (a :: b :: c :: rest) =
      (if a = b ∨ b = c ∨ a = c then [] else [0]) ++
        (alignedTriples rest).map (fun k => k + 1) := by
  have hlen : (a :: b :: c :: rest).length / 3 = rest.length / 3 + 1 := by
    simp only [List.length_cons]
    omega
  have hshift : ∀ k j, (a :: b :: c :: rest).getD (3 * (k + 1) + j) 0 = rest.getD (3 * k + j) 0 := by
    intro k j
    have : 3 * (k + 1) + j = (3 * k + j) + 1 + 1 + 1 := by omega
    rw [this]
    rfl
  unfold alignedTriples
  rw [hlen, List.range_succ_eq_map, List.filter_cons, List.filter_map]
  have hfun : ((fun k => decide (¬ ((a :: b :: c :: rest).getD (3 * k) 0 =
        (a :: b :: c :: rest).getD (3 * k + 1) 0 ∨
      (a :: b :: c :: rest).getD (3 * k + 1) 0 = (a :: b :: c :: rest).getD (3 * k + 2) 0 ∨
      (a :: b :: c :: rest).getD (3 * k) 0 = (a :: b :: c :: rest).getD (3 * k + 2) 0))) ∘
        Nat.succ) =
      (fun k => decide (¬ (rest.getD (3 * k) 0 = rest.getD (3 * k + 1) 0 ∨
        rest.getD (3 * k + 1) 0 = rest.getD (3 * k + 2) 0 ∨
        rest.getD (3 * k) 0 = rest.getD (3 * k + 2) 0))) := by
    funext k
    have h0 := hshift k 0
    have h1 := hshift k 1
    have h2 := hshift k 2
    simp only [Nat.add_zero] at h0
    simp only [Function.comp, Nat.succ_eq_add_one, h0, h1, h2]
  rw [hfun]
  by_cases hd : a = b ∨ b = c ∨ a = c
  · simp [hd]
  · simp [hd]

theorem specTriangles_eq_alignedTriangles (rev : Bool) (G : Nat) :
    ∀ (idx : List Nat) (o : Nat), specTriangles rev G o idx = alignedTriangles rev G o idx := by
  intro idx
  induction idx using list_induction3 with
  | h0 => intro o; simp [specTriangles, alignedTriangles, alignedTriples]
  | h1 a => intro o; simp [specTriangles, alignedTriangles, alignedTriples]
  | h2 a b => intro o; simp [specTriangles, alignedTriangles, alignedTriples]
  | h3 a b c rest ih =>
    intro o
    simp only [specTriangles, ih, alignedTriangles, alignedTriples_cons3, List.map_append,
      List.map_map]
    congr 1
    · by_cases hd : a = b ∨ b = c ∨ a = c
      · simp [hd]
      · simp [hd]
    · apply List.map_congr_left
      intro k _
      have e : o + 3 + 3 * k = o + 3 * (k + 1) := by omega
      simp only [Function.comp, e]

theorem alignedTriples_length (idx : List Nat) :
    (alignedTriples idx).length = countTriangles idx := by
  have := specTriangles_eq_alignedTriangles false 0 idx 0
  have h1 := congrArg List.length this
  rw [specTriangles_length, alignedTriangles, List.length_map] at h1
  exact h1.symm

theorem specGroups_getElem? (rev : Bool) :
    ∀ (prims : List FglTFRuntimePrimitive) (G o g : Nat) (P : FglTFRuntimePrimitive),
      prims[g]? = some P →
      (specGroups rev G o prims)[g]? =
        some (P.Material.FName,
          specTriangles rev (G + g) (o + ((prims.take g).map (fun Q => Q.Indices.length)).sum)
            P.Indices) := by
  intro prims
  induction prims with
  | nil => intro G o g P hP; simp at hP
  | cons Q rest ih =>
    intro G o g P hP
    cases g with
    | zero =>
      simp only [List.getElem?_cons_zero, Option.some.injEq] at hP
      subst hP
      simp [specGroups]
    | succ g =>
      simp only [List.getElem?_cons_succ] at hP
      have := ih (G + 1) (o + Q.Indices.length) g P hP
      simp only [specGroups, List.getElem?_cons_succ, this, List.take_succ_cons, List.map_cons,
        List.sum_cons]
      congr 3 <;> omega

theorem specSections_NumTriangles (mats : List FStaticMaterial) (rev : Bool) :
    ∀ (prims : List FglTFRuntimePrimitive) (start G o : Nat),
      (specSections mats start (specGroups rev G o prims)).map (fun s => s.NumTriangles) =
        (prims.map (fun P => countTriangles P.Indices)).filter (fun n => decide (n ≠ 0)) := by
  intro prims
  induction prims with
  | nil => intro start G o; rfl
  | cons P rest ih =>
    intro start G o
    simp only [specGroups, specSections, specTriangles_length]
    by_cases hc : countTriangles P.Indices = 0
    · simp [hc, ih]
    · simp [hc, ih, specSection, specTriangles_length]

/-! ## Vertex instances are never shared -/

theorem specTriangles_corners_pairwise (R : Nat → Nat → Prop) (hR : ∀ a b, a < b → R a b)
    (rev : Bool) (G : Nat)
    (htri : ∀ n, List.Pairwise R (if rev then [n, n + 2, n + 1] else [n, n + 1, n + 2])) :
    ∀ (idx : List Nat) (o : Nat),
      List.Pairwise R ((specTriangles rev G o idx).flatMap corners) := by
  intro idx
  induction idx using list_induction3 with
  | h0 => intro o; simp [specTriangles]
  | h1 a => intro o; simp [specTriangles]
  | h2 a b => intro o; simp [specTriangles]
  | h3 a b c rest ih =>
    intro o
    simp only [specTriangles, List.flatMap_append]
    rw [List.pairwise_append]
    refine ⟨?_, ih (o + 3), ?_⟩
    · split
      · simp
      · have := htri o
        cases rev <;> simpa [corners] using this
    · intro x hx y hy
      obtain ⟨t, ht, hyt⟩ := List.mem_flatMap.mp hy
      have hyb := (specTriangles_bounds rev G rest (o + 3) t ht y hyt).1
      apply hR
      split at hx
      · simp at hx
      · cases rev <;> simp [corners] at hx <;> omega

theorem groupCorners_pairwise (R : Nat → Nat → Prop) (hR : ∀ a b, a < b → R a b)
    (rev : Bool)
    (htri : ∀ n, List.Pairwise R (if rev then [n, n + 2, n + 1] else [n, n + 1, n + 2])) :
    ∀ (prims : List FglTFRuntimePrimitive) (G o : Nat),
      List.Pairwise R (groupCorners (specGroups rev G o prims)) := by
  intro prims
  induction prims with
  | nil => intro G o; simp [specGroups, groupCorners]
  | cons P rest ih =>
    intro G o
    have hcorners : groupCorners (specGroups rev G o (P :: rest)) =
        (specTriangles rev G o P.Indices).flatMap corners ++
          groupCorners (specGroups rev (G + 1) (o + P.Indices.length) rest) := by
      simp [groupCorners, specGroups]
    rw [hcorners, List.pairwise_append]
    refine ⟨specTriangles_corners_pairwise R hR rev G htri _ _, ih _ _, ?_⟩
    intro x hx y hy
    obtain ⟨t, ht, hxt⟩ := List.mem_flatMap.mp hx
    have hxb := (specTriangles_bounds rev G P.Indices o t ht x hxt).2
    have hyb := (specGroups_bounds rev rest (G + 1) (o + P.Indices.length) y hy).1
    exact hR x y (by omega)

theorem specTriangles_triple (rev : Bool) (G : Nat) :
    ∀ (idx : List Nat) (o : Nat), ∀ t ∈ specTriangles rev G o idx,
      ∃ n, t.V0 = n ∧ t.V1 = (if rev then n + 2 else n + 1) ∧
        t.V2 = (if rev then n + 1 else n + 2) := by
  intro idx
  induction idx using list_induction3 with
  | h0 => intro o t h; simp [specTriangles] at h
  | h1 a => intro o t h; simp [specTriangles] at h
  | h2 a b => intro o t h; simp [specTriangles] at h
  | h3 a b c rest ih =>
    intro o t h
    simp only [specTriangles, List.mem_append] at h
    rcases h with h | h
    · split at h
      · simp at h
      · cases rev <;> simp at h <;> subst h <;> exact ⟨o, by simp⟩
    · exact ih _ t h

theorem specGroups_triple (rev : Bool) :
    ∀ (prims : List FglTFRuntimePrimitive) (G o : Nat),
      ∀ t ∈ (specGroups rev G o prims).flatMap Prod.snd,
        ∃ n, t.V0 = n ∧ t.V1 = (if rev then n + 2 else n + 1) ∧
          t.V2 = (if rev then n + 1 else n + 2) := by
  intro prims
  induction prims with
  | nil => intro G o t h; simp [specGroups] at h
  | cons P rest ih =>
    intro G o t h
    simp only [specGroups, List.flatMap_cons, List.mem_append] at h
    rcases h with h | h
    · exact specTriangles_triple rev G _ _ t h
    · exact ih _ _ t h

theorem foldl_min_increasing : ∀ (l : List Nat) (x m : Nat),
    List.Pairwise (fun a b => a < b) (x :: l) → (x :: l).foldl min m = min m x := by
  intro l
  induction l with
  | nil => intro x m _; rfl
  | cons y l ih =>
    intro x m h
    have hxy : x < y := (List.pairwise_cons.mp h).1 y (by simp)
    have hy : List.Pairwise (fun a b => a < b) (y :: l) := (List.pairwise_cons.mp h).2
    rw [List.foldl_cons, ih y (min m x) hy]
    omega

theorem foldl_max_increasing : ∀ (l : List Nat) (x m : Nat),
    List.Pairwise (fun a b => a < b) (x :: l) →
      (x :: l).foldl max m = max m ((x :: l).getLast (List.cons_ne_nil _ _)) := by
  intro l
  induction l with
  | nil => intro x m _; rfl
  | cons y l ih =>
    intro x m h
    have hy : List.Pairwise (fun a b => a < b) (y :: l) := (List.pairwise_cons.mp h).2
    have hlast : x < (y :: l).getLast (List.cons_ne_nil _ _) :=
      (List.pairwise_cons.mp h).1 _ (List.getLast_mem _)
    rw [List.foldl_cons, ih y (max m x) hy, List.getLast_cons (List.cons_ne_nil _ _)]
    omega

theorem specSections_ends (mats : List FStaticMaterial) :
    ∀ (groups : List (Nat × List FMeshTriangle)) (pre : List Nat),
      (∀ p ∈ groups, List.Pairwise (fun a b => a < b) (p.2.flatMap corners)) →
      (∀ v ∈ groupCorners groups, v ≤ 4294967295) →
      ∀ s ∈ specSections mats pre.length groups,
        (pre ++ groupCorners groups)[s.FirstIndex]? = some s.MinVertexIndex ∧
        (pre ++ groupCorners groups)[s.FirstIndex + 3 * s.NumTriangles - 1]? =
          some s.MaxVertexIndex := by
  intro groups
  induction groups with
  | nil => intro pre _ _ s hs; simp [specSections] at hs
  | cons p rest ih =>
    intro pre hsorted hcap s hs
    obtain ⟨name, T⟩ := p
    have hcorners : groupCorners ((name, T) :: rest) = T.flatMap corners ++ groupCorners rest := by
      simp [groupCorners]
    have hsorted' : ∀ p ∈ rest, List.Pairwise (fun a b => a < b) (p.2.flatMap corners) :=
      fun p hp => hsorted p (List.mem_cons_of_mem _ hp)
    have hcap' : ∀ v ∈ groupCorners rest, v ≤ 4294967295 := by
      intro v hv
      apply hcap
      rw [hcorners]
      exact List.mem_append_right _ hv
    by_cases hT : T.length = 0
    · have hnil : T = [] := List.length_eq_zero.mp hT
      simp only [specSections, if_pos hT] at hs
      rw [hcorners, hnil]
      simpa using ih pre hsorted' hcap' s hs
    · simp only [specSections, if_neg hT, List.mem_cons] at hs
      rcases hs with rfl | hs
      · have hlen := length_flatMap_corners T
        have hTs := hsorted (name, T) (by simp)
        simp only at hTs
        cases hC : T.flatMap corners with
        | nil => rw [hC] at hlen; simp only [List.length_nil] at hlen; omega
        | cons x l =>
          rw [hC] at hTs hlen
          have hx : x ≤ 4294967295 := by
            apply hcap
            rw [hcorners, hC]
            simp
          simp only [specSection, hC]
          rw [foldl_min_increasing l x _ hTs, foldl_max_increasing l x _ hTs, hcorners, hC]
          refine ⟨?_, ?_⟩
          · rw [List.getElem?_append_right (Nat.le_refl _)]
            simp only [Nat.sub_self, List.append_eq, List.getElem?_cons_zero,
              List.cons_append]
            congr 1
            omega
          · have hidx : pre.length + 3 * T.length - 1 = pre.length + ((x :: l).length - 1) := by
              rw [hlen]; omega
            rw [hidx, getElem?_append_add,
              List.getElem?_append_left (by simp), ← List.getLast?_eq_getElem?,
              List.getLast?_eq_getLast _ (List.cons_ne_nil _ _)]
            congr 1
            omega
      · have hlen : (pre ++ T.flatMap corners).length = pre.length + 3 * T.length := by
          rw [List.length_append, length_flatMap_corners]
        rw [← hlen] at hs
        have := ih (pre ++ T.flatMap corners) hsorted' hcap' s hs
        rw [hcorners, ← List.append_assoc]
        exact this

theorem specGroups_sorted : ∀ (prims : List FglTFRuntimePrimitive) (G o : Nat),
    ∀ p ∈ specGroups false G o prims, List.Pairwise (fun a b => a < b) (p.2.flatMap corners) := by
  intro prims
  induction prims with
  | nil => intro G o p hp; simp [specGroups] at hp
  | cons P rest ih =>
    intro G o p hp
    simp only [specGroups, List.mem_cons] at hp
    rcases hp with rfl | hp
    · exact specTriangles_corners_pairwise _ (fun _ _ h => h) false G (fun n => by simp) _ _
    · exact ih _ _ p hp

/-! ## Binormal sign and tangent basis -/

theorem specInstances_BinormalSign (L : FEngine) (N : Nat) :
    ∀ (prims : List FglTFRuntimePrimitive) (vb : Nat),
      ∀ vi ∈ specInstances L N vb prims, vi.BinormalSign = L.DefaultBinormalSign := by
  intro prims
  induction prims with
  | nil => intro vb vi h; simp [specInstances] at h
  | cons P rest ih =>
    intro vb vi h
    simp only [specInstances, List.mem_append, List.mem_map] at h
    rcases h with ⟨i, _, rfl⟩ | h
    · exact specInstance_BinormalSign L P N _ i
    · exact ih _ vi h

theorem computeParameters_no_derivation (prims : List FglTFRuntimePrimitive)
    (hN : ∀ P ∈ prims, P.Normals ≠ []) (hT : ∀ P ∈ prims, P.Tangents ≠ []) :
    (computeParameters prims).bCalculateNormals = false ∧
      (computeParameters prims).bCalculateTangents = false := by
  have hstep : ∀ (l : List FglTFRuntimePrimitive) (a : FMeshParameters),
      (∀ P ∈ l, P.Normals ≠ []) → (∀ P ∈ l, P.Tangents ≠ []) →
      (l.foldl parametersStep a).bCalculateNormals = a.bCalculateNormals ∧
        (l.foldl parametersStep a).bCalculateTangents = a.bCalculateTangents := by
    intro l
    induction l with
    | nil => intro a _ _; exact ⟨rfl, rfl⟩
    | cons Q rest ih =>
      intro a h1 h2
      obtain ⟨e1, e2⟩ := ih (parametersStep a Q) (fun P hP => h1 P (List.mem_cons_of_mem _ hP))
        (fun P hP => h2 P (List.mem_cons_of_mem _ hP))
      have hQN : ¬ Q.Normals.length = 0 := fun e => h1 Q (by simp) (List.length_eq_zero.mp e)
      have hQT : ¬ Q.Tangents.length = 0 := fun e => h2 Q (by simp) (List.length_eq_zero.mp e)
      rw [List.foldl_cons, e1, e2]
      simp [parametersStep, hQN, hQT]
  exact hstep prims ⟨1, false, false⟩ hN hT

theorem finalMeshDescription_instances_of_no_derivation (L : FEngine)
    (cfg : FglTFRuntimeStaticMeshConfig) (prims : List FglTFRuntimePrimitive)
    (built : FBuilderState)
    (hN : (computeParameters prims).bCalculateNormals = false)
    (hT : (computeParameters prims).bCalculateTangents = false) :
    (finalMeshDescription L cfg prims built).VertexInstances =
      built.MeshDescription.VertexInstances := by
  unfold finalMeshDescription applyPivot deriveNormalsAndTangents
  simp only [hN, hT, Bool.or_self, Bool.false_eq_true, if_false]
  split <;> rfl

/-! ## Claims -/

/-- C1. On every successful build the sections tile the index buffer: the first section starts
at index 0, each next section starts where the previous one ends
(`FirstIndex + 3 * NumTriangles`), the section sizes `3 * NumTriangles` add up to the length
of the index buffer, and that length is 3 times the number of triangles of the editable
mesh. -/
theorem sections_tile_index_buffer (L : FEngine) (prims : List FglTFRuntimePrimitive)
    (cfg : FglTFRuntimeStaticMeshConfig) (mesh : UStaticMesh)
    (h : LoadStaticMesh_Internal L prims cfg = some mesh) :
    (∀ s, mesh.Sections.head? = some s → s.FirstIndex = 0) ∧
    (∀ i s t, mesh.Sections[i]? = some s → mesh.Sections[i + 1]? = some t →
      t.FirstIndex = s.FirstIndex + 3 * s.NumTriangles) ∧
    (mesh.Sections.map (fun s => 3 * s.NumTriangles)).sum = mesh.IndexBuffer.length ∧
    ∃ built, buildMeshDescription L cfg prims = some built ∧
      mesh.IndexBuffer.length = 3 * built.MeshDescription.Triangles.length := by
  obtain ⟨built, hb, _, hS, hI, _, _⟩ := LoadStaticMesh_Internal_spec h
  obtain ⟨_, _, _, hT, _, _⟩ := buildMeshDescription_spec hb
  obtain ⟨h1, h2, h3⟩ :=
    specSections_tile built.StaticMaterials (specGroups cfg.bReverseWinding 0 0 prims) 0
  rw [← hS] at h1 h2 h3
  refine ⟨h1, h2, ?_, built, hb, ?_⟩
  · rw [h3, hI, length_groupCorners, length_flatMap_snd]
    omega
  · rw [hI, length_groupCorners, hT]
    omega

/-- Witness for C1: three primitives, the middle one with only a degenerate triple. -/
theorem sections_tile_index_buffer_witness :
    ∃ mesh, LoadStaticMesh_Internal sampleEngine
        [samplePrimitive [0, 1, 2] 1, samplePrimitive [0, 1, 1] 2,
          samplePrimitive [2, 1, 0, 0, 2, 1] 3] ⟨false, EglTFRuntimePivotPosition.Asset⟩ =
          some mesh ∧
      mesh.Sections.map (fun s => (s.FirstIndex, s.NumTriangles)) = [(0, 1), (3, 2)] ∧
      (mesh.Sections.map (fun s => 3 * s.NumTriangles)).sum = mesh.IndexBuffer.length :=
  ⟨_, rfl, by decide,
    (sections_tile_index_buffer sampleEngine
      [samplePrimitive [0, 1, 2] 1, samplePrimitive [0, 1, 1] 2,
        samplePrimitive [2, 1, 0, 0, 2, 1] 3] ⟨false, EglTFRuntimePivotPosition.Asset⟩ _
      rfl).2.2.1⟩

/-- C2. On every successful build every entry of the index buffer is smaller than the number
of build vertices, and every position of a section's slice
`[FirstIndex, FirstIndex + 3 * NumTriangles)` holds an index between the section's
`MinVertexIndex` and `MaxVertexIndex`. -/
theorem index_buffer_entries_valid (L : FEngine) (prims : List FglTFRuntimePrimitive)
    (cfg : FglTFRuntimeStaticMeshConfig) (mesh : UStaticMesh)
    (h : LoadStaticMesh_Internal L prims cfg = some mesh) :
    (∀ v ∈ mesh.IndexBuffer, v < mesh.BuildVertices.length) ∧
    (∀ s ∈ mesh.Sections, ∀ j, s.FirstIndex ≤ j → j < s.FirstIndex + 3 * s.NumTriangles →
      ∃ v, mesh.IndexBuffer[j]? = some v ∧ s.MinVertexIndex ≤ v ∧ v ≤ s.MaxVertexIndex) := by
  obtain ⟨built, hb, _, hS, hI, _, _⟩ := LoadStaticMesh_Internal_spec h
  refine ⟨?_, ?_⟩
  · intro v hv
    rw [buildVertices_length h]
    rw [hI] at hv
    have := (specGroups_bounds cfg.bReverseWinding prims 0 0 v hv).2
    omega
  · intro s hs j hj1 hj2
    rw [hS] at hs
    have := specSections_slices built.StaticMaterials
      (specGroups cfg.bReverseWinding 0 0 prims) [] s hs j hj1 hj2
    simpa [hI] using this

/-- Witness for C2: two primitives with reversed winding. -/
theorem index_buffer_entries_valid_witness :
    ∃ mesh, LoadStaticMesh_Internal sampleEngine
        [samplePrimitive [0, 1, 2, 2, 1, 0] 1, samplePrimitive [1, 1, 1, 0, 2, 1] 2]
        ⟨true, EglTFRuntimePivotPosition.Asset⟩ = some mesh ∧
      mesh.IndexBuffer = [0, 2, 1, 3, 5, 4, 9, 11, 10] ∧ mesh.BuildVertices.length = 12 ∧
      ∀ v ∈ mesh.IndexBuffer, v < mesh.BuildVertices.length :=
  ⟨_, rfl, by decide, by decide,
    (index_buffer_entries_valid sampleEngine
      [samplePrimitive [0, 1, 2, 2, 1, 0] 1, samplePrimitive [1, 1, 1, 0, 2, 1] 2]
      ⟨true, EglTFRuntimePivotPosition.Asset⟩ _ rfl).1⟩

/-- C3. On every successful build the index stride is 32-bit exactly when some emitted section
has `MaxVertexIndex > 65535`, and 16-bit otherwise; a build without sections is 16-bit. -/
theorem stride_32_iff_section_max (L : FEngine) (prims : List FglTFRuntimePrimitive)
    (cfg : FglTFRuntimeStaticMeshConfig) (mesh : UStaticMesh)
    (h : LoadStaticMesh_Internal L prims cfg = some mesh) :
    (mesh.IndexBufferStride = EIndexBufferStride.Force32Bit ↔
      ∃ s ∈ mesh.Sections, s.MaxVertexIndex > 65535) ∧
    (mesh.IndexBufferStride = EIndexBufferStride.Force16Bit ↔
      ¬ ∃ s ∈ mesh.Sections, s.MaxVertexIndex > 65535) ∧
    (mesh.Sections = [] → mesh.IndexBufferStride = EIndexBufferStride.Force16Bit) := by
  obtain ⟨built, _, _, hS, _, hStride, _⟩ := LoadStaticMesh_Internal_spec h
  have h32 : mesh.IndexBufferStride = EIndexBufferStride.Force32Bit ↔
      ∃ s ∈ mesh.Sections, s.MaxVertexIndex > 65535 := by
    rw [hStride, hS]
    exact strideOf_eq_32_iff _
  have h16 : mesh.IndexBufferStride = EIndexBufferStride.Force16Bit ↔
      ¬ ∃ s ∈ mesh.Sections, s.MaxVertexIndex > 65535 := by
    rw [← h32]
    cases mesh.IndexBufferStride <;> simp
  refine ⟨h32, h16, ?_⟩
  intro hnil
  rw [h16, hnil]
  simp

/-- Witness for C3: one triangle, whose section has maximum index 2. -/
theorem stride_32_iff_section_max_witness :
    ∃ mesh, LoadStaticMesh_Internal sampleEngine [samplePrimitive [0, 1, 2] 1]
        ⟨false, EglTFRuntimePivotPosition.Asset⟩ = some mesh ∧
      mesh.Sections.map (fun s => s.MaxVertexIndex) = [2] ∧
      (mesh.IndexBufferStride = EIndexBufferStride.Force16Bit ↔
        ¬ ∃ s ∈ mesh.Sections, s.MaxVertexIndex > 65535) :=
  ⟨_, rfl, by decide,
    (stride_32_iff_section_max sampleEngine [samplePrimitive [0, 1, 2] 1]
      ⟨false, EglTFRuntimePivotPosition.Asset⟩ _ rfl).2.1⟩

/-- C4, as stated, fails: the stride upgrade scenario (70000 positions, the one triangle
`[0, 1, 69999]`) builds, and the stride is 16-bit, because the index buffer holds the vertex
instance IDs 0, 1, 2 and not the position indices. -/
theorem stride_upgrade_scenario_is_16bit :
    ∃ mesh, LoadStaticMesh_Internal sampleEngine [strideUpgradePrimitive]
        ⟨false, EglTFRuntimePivotPosition.Asset⟩ = some mesh ∧
      mesh.IndexBufferStride = EIndexBufferStride.Force16Bit ∧
      mesh.IndexBufferStride ≠ EIndexBufferStride.Force32Bit := by
  obtain ⟨mesh, h⟩ := LoadStaticMesh_Internal_succeeds sampleEngine (fun _ _ _ => rfl)
    [strideUpgradePrimitive] ⟨false, EglTFRuntimePivotPosition.Asset⟩
    strideUpgradePrimitive_in_range
  have h16 := stride_16_of_few_instances h (by decide)
  exact ⟨mesh, h, h16, by rw [h16]; exact fun hne => EIndexBufferStride.noConfusion hne⟩

/-- C4, amended. For a single primitive with 70000 positions whose index stream is one triangle
referencing position index 69999, a successful build selects the 16-bit stride: every entry
of the index buffer is a vertex instance ID below 3. -/
theorem stride_upgrade_scenario (L : FEngine) (cfg : FglTFRuntimeStaticMeshConfig)
    (P : FglTFRuntimePrimitive) (a b : Nat) (mesh : UStaticMesh)
    (hpos : P.Positions.length = 70000) (hidx : P.Indices = [a, b, 69999])
    (h : LoadStaticMesh_Internal L [P] cfg = some mesh) :
    mesh.IndexBufferStride = EIndexBufferStride.Force16Bit ∧
      (∀ v ∈ mesh.IndexBuffer, v < 3) ∧ a < 70000 ∧ b < 70000 := by
  obtain ⟨built, hb, _, _, hI, _, _⟩ := LoadStaticMesh_Internal_spec h
  obtain ⟨hr, _⟩ := buildMeshDescription_spec hb
  have ha := hr P (by simp) a (by simp [hidx])
  have hb' := hr P (by simp) b (by simp [hidx])
  rw [hpos] at ha hb'
  refine ⟨stride_16_of_few_instances h (by simp [hidx]), ?_, ha, hb'⟩
  intro v hv
  rw [hI] at hv
  have := (specGroups_bounds cfg.bReverseWinding [P] 0 0 v hv).2
  simpa [hidx] using this

/-- Witness for the amended C4, with reversed winding. -/
theorem stride_upgrade_scenario_witness :
    ∃ mesh, LoadStaticMesh_Internal sampleEngine [strideUpgradePrimitive]
        ⟨true, EglTFRuntimePivotPosition.Asset⟩ = some mesh ∧
      strideUpgradePrimitive.Positions.length = 70000 ∧
      mesh.IndexBufferStride = EIndexBufferStride.Force16Bit := by
  obtain ⟨mesh, h⟩ := LoadStaticMesh_Internal_succeeds sampleEngine (fun _ _ _ => rfl)
    [strideUpgradePrimitive] ⟨true, EglTFRuntimePivotPosition.Asset⟩
    strideUpgradePrimitive_in_range
  have hlen : strideUpgradePrimitive.Positions.length = 70000 := by
    simp [strideUpgradePrimitive]
  exact ⟨mesh, h, hlen,
    (stride_upgrade_scenario sampleEngine ⟨true, EglTFRuntimePivotPosition.Asset⟩
      strideUpgradePrimitive 0 1 mesh hlen rfl h).1⟩

/-- C5. On every successful build every index triple `3k, 3k+1, 3k+2` of the index buffer
names three vertex instances of the editable mesh that refer to three pairwise distinct
vertices. For the index stream `[0, 1, 1, 0, 1, 2]` a single triangle is emitted, made of the
vertex instances 3, 4, 5 of the second triple. -/
theorem degenerate_triangles_filtered (L : FEngine) (prims : List FglTFRuntimePrimitive)
    (cfg : FglTFRuntimeStaticMeshConfig) (built : FBuilderState) (mesh : UStaticMesh)
    (hb : buildMeshDescription L cfg prims = some built)
    (h : LoadStaticMesh_Internal L prims cfg = some mesh) :
    (∀ k, 3 * k + 2 < mesh.IndexBuffer.length →
      ∃ v0 v1 v2 x y z, mesh.IndexBuffer[3 * k]? = some v0 ∧
        mesh.IndexBuffer[3 * k + 1]? = some v1 ∧ mesh.IndexBuffer[3 * k + 2]? = some v2 ∧
        built.MeshDescription.VertexInstances[v0]? = some x ∧
        built.MeshDescription.VertexInstances[v1]? = some y ∧
        built.MeshDescription.VertexInstances[v2]? = some z ∧
        x.VertexID ≠ y.VertexID ∧ y.VertexID ≠ z.VertexID ∧ x.VertexID ≠ z.VertexID) ∧
    (∀ P, prims = [P] → P.Indices = [0, 1, 1, 0, 1, 2] →
      mesh.Sections.map (fun s => s.NumTriangles) = [1] ∧
      mesh.IndexBuffer = if cfg.bReverseWinding then [3, 5, 4] else [3, 4, 5]) := by
  obtain ⟨built', hb', _, hS, hI, _, _⟩ := LoadStaticMesh_Internal_spec h
  rw [hb] at hb'
  cases Option.some.inj hb'
  obtain ⟨_, _, hVI, hT, _, _⟩ := buildMeshDescription_spec hb
  refine ⟨?_, ?_⟩
  · intro k hk
    rw [hI, groupCorners_eq, ← hT] at hk ⊢
    have hlen : k < built.MeshDescription.Triangles.length := by
      rw [length_flatMap_corners] at hk; omega
    obtain ⟨e0, e1, e2⟩ := getElem?_flatMap_corners built.MeshDescription.Triangles k
    rw [List.getElem?_eq_getElem hlen] at e0 e1 e2
    have hmem : built.MeshDescription.Triangles[k] ∈
        (specGroups cfg.bReverseWinding 0 ([] : List FMeshVertexInstance).length prims).flatMap
          Prod.snd := by
      rw [List.length_nil, ← hT]
      exact List.getElem_mem _
    obtain ⟨x, y, z, hx, hy, hz, hd⟩ :=
      specGroups_distinct L (computeParameters prims).NumUVs cfg.bReverseWinding prims [] 0 0 _
        hmem
    rw [List.nil_append, ← hVI] at hx hy hz
    exact ⟨_, _, _, x, y, z, e0, e1, e2, hx, hy, hz, hd⟩
  · intro P hP hidx
    subst hP
    rw [hS, hI]
    cases hrev : cfg.bReverseWinding <;>
      simp [specGroups, specTriangles, hidx, specSections, specSection, groupCorners, corners]

/-- Witness for C5: the index stream `[0, 1, 1, 0, 1, 2]`. -/
theorem degenerate_triangles_filtered_witness :
    ∃ built mesh,
      buildMeshDescription sampleEngine ⟨false, EglTFRuntimePivotPosition.Asset⟩
        [samplePrimitive [0, 1, 1, 0, 1, 2] 1] = some built ∧
      LoadStaticMesh_Internal sampleEngine [samplePrimitive [0, 1, 1, 0, 1, 2] 1]
        ⟨false, EglTFRuntimePivotPosition.Asset⟩ = some mesh ∧
      mesh.Sections.map (fun s => s.NumTriangles) = [1] ∧ mesh.IndexBuffer = [3, 4, 5] :=
  ⟨_, _, rfl, rfl,
    (degenerate_triangles_filtered sampleEngine [samplePrimitive [0, 1, 1, 0, 1, 2] 1]
      ⟨false, EglTFRuntimePivotPosition.Asset⟩ _ _ rfl rfl).2 _ rfl rfl⟩

/-- C6. When a primitive list builds both with and without `bReverseWinding` (all else equal),
the two index buffers have the same length and, for every triangle `k`, the flipped buffer
holds the plain entries `3k`, `3k+2`, `3k+1` at `3k`, `3k+1`, `3k+2`. The indices `[0, 1, 2]`
give the flipped index buffer `[0, 2, 1]`. -/
theorem winding_flip_swaps_corners (L : FEngine) (prims : List FglTFRuntimePrimitive)
    (cfg : FglTFRuntimeStaticMeshConfig) (plain flipped : UStaticMesh)
    (hp : LoadStaticMesh_Internal L prims { cfg with bReverseWinding := false } = some plain)
    (hf : LoadStaticMesh_Internal L prims { cfg with bReverseWinding := true } = some flipped) :
    flipped.IndexBuffer.length = plain.IndexBuffer.length ∧
    (∀ k, 3 * k + 2 < plain.IndexBuffer.length →
      ∃ a b c, plain.IndexBuffer[3 * k]? = some a ∧ plain.IndexBuffer[3 * k + 1]? = some b ∧
        plain.IndexBuffer[3 * k + 2]? = some c ∧ flipped.IndexBuffer[3 * k]? = some a ∧
        flipped.IndexBuffer[3 * k + 1]? = some c ∧ flipped.IndexBuffer[3 * k + 2]? = some b) ∧
    (∀ P, prims = [P] → P.Indices = [0, 1, 2] → flipped.IndexBuffer = [0, 2, 1]) := by
  obtain ⟨_, _, _, _, hIp, _, _⟩ := LoadStaticMesh_Internal_spec hp
  obtain ⟨_, _, _, _, hIf, _, _⟩ := LoadStaticMesh_Internal_spec hf
  simp only at hIp hIf
  rw [groupCorners_eq] at hIp
  rw [groupCorners_eq, specGroups_flipped] at hIf
  refine ⟨?_, ?_, ?_⟩
  · rw [hIp, hIf, length_flatMap_corners, length_flatMap_corners, List.length_map]
  · intro k hk
    rw [hIp, length_flatMap_corners] at hk
    have hlen : k < ((specGroups false 0 0 prims).flatMap Prod.snd).length := by omega
    obtain ⟨p0, p1, p2⟩ := getElem?_flatMap_corners ((specGroups false 0 0 prims).flatMap Prod.snd) k
    obtain ⟨f0, f1, f2⟩ := getElem?_flatMap_corners
      (((specGroups false 0 0 prims).flatMap Prod.snd).map swapCorners) k
    rw [List.getElem?_eq_getElem hlen] at p0 p1 p2
    rw [List.getElem?_map, List.getElem?_eq_getElem hlen] at f0 f1 f2
    rw [hIp, hIf]
    exact ⟨_, _, _, p0, p1, p2, f0, f1, f2⟩
  · intro P hP hidx
    subst hP
    rw [hIf]
    simp [specGroups, specTriangles, hidx, corners, swapCorners]

/-- Witness for C6: the indices `[0, 1, 2]`, built plain and flipped. -/
theorem winding_flip_swaps_corners_witness :
    ∃ plain flipped,
      LoadStaticMesh_Internal sampleEngine [samplePrimitive [0, 1, 2] 1]
        ⟨false, EglTFRuntimePivotPosition.Asset⟩ = some plain ∧
      LoadStaticMesh_Internal sampleEngine [samplePrimitive [0, 1, 2] 1]
        ⟨true, EglTFRuntimePivotPosition.Asset⟩ = some flipped ∧
      plain.IndexBuffer = [0, 1, 2] ∧ flipped.IndexBuffer = [0, 2, 1] :=
  ⟨_, _, rfl, rfl, by decide,
    (winding_flip_swaps_corners sampleEngine [samplePrimitive [0, 1, 2] 1]
      ⟨false, EglTFRuntimePivotPosition.Asset⟩ _ _ rfl rfl).2.2 _ rfl rfl⟩

/-- C7. When the editable-mesh layer refuses no triangle, the build returns null exactly when
some primitive holds an index that is not below the number of positions of that primitive,
wherever in the index stream the index sits. -/
theorem null_iff_index_out_of_range (L : FEngine)
    (hacc : ∀ md g ids, L.TriangleAccepted md g ids = true)
    (prims : List FglTFRuntimePrimitive) (cfg : FglTFRuntimeStaticMeshConfig) :
    LoadStaticMesh_Internal L prims cfg = none ↔
      ∃ P ∈ prims, ∃ i ∈ P.Indices, P.Positions.length ≤ i := by
  rw [← buildMeshDescription_none_iff L hacc prims cfg]
  unfold LoadStaticMesh_Internal
  cases buildMeshDescription L cfg prims <;> simp

/-- Witness for C7: the offending index 3 sits in a trailing incomplete triple (first build)
and in a degenerate triple (second build); both builds return null. -/
theorem null_iff_index_out_of_range_witness :
    (∀ md g ids, sampleEngine.TriangleAccepted md g ids = true) ∧
    LoadStaticMesh_Internal sampleEngine [samplePrimitive [0, 1, 2, 3] 1]
      ⟨false, EglTFRuntimePivotPosition.Asset⟩ = none ∧
    LoadStaticMesh_Internal sampleEngine [samplePrimitive [0, 1, 2] 1, samplePrimitive [3, 3, 0] 1]
      ⟨false, EglTFRuntimePivotPosition.Asset⟩ = none ∧
    (LoadStaticMesh_Internal sampleEngine [samplePrimitive [0, 1, 2, 3] 1]
        ⟨false, EglTFRuntimePivotPosition.Asset⟩ = none ↔
      ∃ P ∈ [samplePrimitive [0, 1, 2, 3] 1], ∃ i ∈ P.Indices, P.Positions.length ≤ i) :=
  ⟨fun _ _ _ => rfl, by decide, by decide,
    null_iff_index_out_of_range sampleEngine (fun _ _ _ => rfl)
      [samplePrimitive [0, 1, 2, 3] 1] ⟨false, EglTFRuntimePivotPosition.Asset⟩⟩

/-- C8. On every successful build there is one material slot per primitive, in primitive order,
and the `k`-th section, which comes from the `k`-th primitive with at least one triangle, has
a `MaterialIndex` that is a valid slot index (not `INDEX_NONE`): the smallest index of a slot
named like the material of that primitive. -/
theorem sections_bind_first_matching_slot (L : FEngine) (prims : List FglTFRuntimePrimitive)
    (cfg : FglTFRuntimeStaticMeshConfig) (mesh : UStaticMesh)
    (h : LoadStaticMesh_Internal L prims cfg = some mesh) :
    mesh.StaticMaterials =
      prims.map (fun P => (⟨P.Material, P.Material.FName, true⟩ : FStaticMaterial)) ∧
    mesh.Sections.length =
      (prims.filter (fun P => decide (countTriangles P.Indices ≠ 0))).length ∧
    ∀ (k : Nat) (s : FStaticMeshSection) (P : FglTFRuntimePrimitive),
      mesh.Sections[k]? = some s →
      (prims.filter (fun P => decide (countTriangles P.Indices ≠ 0)))[k]? = some P →
      ∃ (i : Nat) (m : FStaticMaterial), s.MaterialIndex = (i : Int) ∧
        mesh.StaticMaterials[i]? = some m ∧ m.MaterialSlotName = P.Material.FName ∧
        ∀ j m', j < i → mesh.StaticMaterials[j]? = some m' →
          m'.MaterialSlotName ≠ P.Material.FName := by
  obtain ⟨built, hb, hM, hS, _, _, _⟩ := LoadStaticMesh_Internal_spec h
  obtain ⟨_, _, _, _, _, hmats⟩ := buildMeshDescription_spec hb
  have hidx := specSections_materials built.StaticMaterials cfg.bReverseWinding prims 0 0 0
  rw [← hS] at hidx
  refine ⟨by rw [hM, hmats], ?_, ?_⟩
  · have := congrArg List.length hidx
    simpa using this
  · intro k s P hs hP
    have hk := congrArg (fun l => l[k]?) hidx
    simp only [List.getElem?_map, hs, hP, Option.map_some', Option.some.injEq] at hk
    have hPmem : P ∈ prims := (List.mem_filter.mp (List.getElem?_mem hP)).1
    have hex : ∃ m ∈ built.StaticMaterials,
        (fun m : FStaticMaterial => decide (m.MaterialSlotName = P.Material.FName)) m = true := by
      refine ⟨⟨P.Material, P.Material.FName, true⟩, ?_, by simp⟩
      rw [hmats]
      exact List.mem_map.mpr ⟨P, hPmem, rfl⟩
    obtain ⟨i, m, h1, h2, h3, h4⟩ := firstIndexWhere_spec _ _ hex
    refine ⟨i, m, ?_, by rw [hM]; exact h2, by simpa using h3, ?_⟩
    · rw [hk]
      simp only [IndexOfByPredicate, h1]
    · intro j m' hj hm'
      rw [hM] at hm'
      simpa using h4 j m' hj hm'

/-- Witness for C8: materials 7, 9, 7; the second primitive has no triangle, the third shares
the slot name of the first and is bound to slot 0. -/
theorem sections_bind_first_matching_slot_witness :
    ∃ mesh, LoadStaticMesh_Internal sampleEngine
        [samplePrimitive [0, 1, 2] 7, samplePrimitive [0, 0, 1] 9, samplePrimitive [2, 1, 0] 7]
        ⟨false, EglTFRuntimePivotPosition.Asset⟩ = some mesh ∧
      mesh.Sections.map (fun s => s.MaterialIndex) = [0, 0] ∧
      mesh.StaticMaterials =
        [samplePrimitive [0, 1, 2] 7, samplePrimitive [0, 0, 1] 9, samplePrimitive [2, 1, 0] 7].map
          (fun P => (⟨P.Material, P.Material.FName, true⟩ : FStaticMaterial)) :=
  ⟨_, rfl, by decide,
    (sections_bind_first_matching_slot sampleEngine
      [samplePrimitive [0, 1, 2] 7, samplePrimitive [0, 0, 1] 9, samplePrimitive [2, 1, 0] 7]
      ⟨false, EglTFRuntimePivotPosition.Asset⟩ _ rfl).1⟩

/-- C9. On every successful build the number of build vertices is the total number of index
occurrences of all primitives, and the build vertex of occurrence `j` (holding index `i`) of
the `k`-th primitive `P` sits at the sum of the index counts of the primitives before `P`
plus `j` and has position `P.Positions[i]`, minus the pivot delta unless the pivot mode is
`Asset`. -/
theorem build_vertex_per_index_occurrence (L : FEngine) (prims : List FglTFRuntimePrimitive)
    (cfg : FglTFRuntimeStaticMeshConfig) (built : FBuilderState) (mesh : UStaticMesh)
    (hb : buildMeshDescription L cfg prims = some built)
    (h : LoadStaticMesh_Internal L prims cfg = some mesh) :
    mesh.BuildVertices.length = (prims.map (fun P => P.Indices.length)).sum ∧
    ∀ (k : Nat) (P : FglTFRuntimePrimitive) (j i : Nat),
      prims[k]? = some P → P.Indices[j]? = some i →
      ∃ bv pos,
        mesh.BuildVertices[((prims.take k).map (fun Q => Q.Indices.length)).sum + j]? = some bv ∧
        P.Positions[i]? = some pos ∧
        bv.Position =
          if cfg.PivotPosition = EglTFRuntimePivotPosition.Asset then pos
          else pos.sub (PivotDelta cfg (L.GetBounds
            (deriveNormalsAndTangents L (computeParameters prims) built.MeshDescription))) := by
  refine ⟨buildVertices_length h, ?_⟩
  intro k P j i hP hj
  obtain ⟨built', hb', _, _, _, _, hV⟩ := LoadStaticMesh_Internal_spec h
  rw [hb] at hb'
  cases Option.some.inj hb'
  obtain ⟨hr, hVP, hVI, _, _, _⟩ := buildMeshDescription_spec hb
  have hi : i < P.Positions.length := hr P (List.getElem?_mem hP) i (List.getElem?_mem hj)
  have hinst := specInstances_getElem? L (computeParameters prims).NumUVs prims 0 k P j i hP hj
  rw [← hVI] at hinst
  have hvert := finalMeshDescription_instance_vertex L cfg prims built
    (((prims.take k).map (fun Q => Q.Indices.length)).sum + j)
  rw [hinst] at hvert
  cases hw : (finalMeshDescription L cfg prims built).VertexInstances[
      ((prims.take k).map (fun Q => Q.Indices.length)).sum + j]? with
  | none => rw [hw] at hvert; exact Option.noConfusion hvert
  | some w =>
    rw [hw] at hvert
    simp only [Option.map_some', Option.some.injEq, specInstance_VertexID, Nat.zero_add] at hvert
    have hpos := flatMap_Positions_getElem? prims k P i hP hi
    rw [← hVP, List.getElem?_eq_getElem hi] at hpos
    refine ⟨buildVertex L (finalMeshDescription L cfg prims built) w, P.Positions[i], ?_,
      List.getElem?_eq_getElem hi, ?_⟩
    · rw [hV, buildVertices, List.getElem?_map, hw]
      rfl
    · simp only [buildVertex, hvert, finalMeshDescription_positions]
      by_cases hA : cfg.PivotPosition = EglTFRuntimePivotPosition.Asset
      · simp only [hA, ne_eq, not_true_eq_false, if_false, if_true,
          List.getD_eq_getElem?_getD, hpos, Option.getD_some]
      · simp only [hA, ne_eq, not_false_eq_true, if_false, if_true,
          List.getD_eq_getElem?_getD, List.getElem?_map, hpos, Option.map_some',
          Option.getD_some]

/-- Witness for C9: two one-triangle primitives give 6 build vertices. -/
theorem build_vertex_per_index_occurrence_witness :
    ∃ built mesh,
      buildMeshDescription sampleEngine ⟨false, EglTFRuntimePivotPosition.Asset⟩
        [samplePrimitive [0, 1, 2] 1, samplePrimitive [2, 1, 0] 2] = some built ∧
      LoadStaticMesh_Internal sampleEngine
        [samplePrimitive [0, 1, 2] 1, samplePrimitive [2, 1, 0] 2]
        ⟨false, EglTFRuntimePivotPosition.Asset⟩ = some mesh ∧
      mesh.BuildVertices.length = 6 :=
  ⟨_, _, rfl, rfl,
    (build_vertex_per_index_occurrence sampleEngine
      [samplePrimitive [0, 1, 2] 1, samplePrimitive [2, 1, 0] 2]
      ⟨false, EglTFRuntimePivotPosition.Asset⟩ _ _ rfl rfl).1⟩

/-- C10. The vertex instance that lines 85-138 create for index `i` of primitive `P` (in a
mesh with at least as many UV channels as `P` has UV sets) refers to the vertex of `i` and
follows the attribute fill rule `FillRule`; and after a successful builder pass the vertex
instance of occurrence `j` (holding index `i`, which is below the number of positions) of the
`k`-th primitive `P` still follows it. -/
theorem attribute_fill_rule (L : FEngine) (P : FglTFRuntimePrimitive) (i : Nat) :
    (∀ (VerticesIDs : List Nat) (md : FMeshDescription), P.UVs.length ≤ md.NumUVIndices →
      ∃ vi, (createFilledInstance L P VerticesIDs md i).2.VertexInstances[
          (createFilledInstance L P VerticesIDs md i).1]? = some vi ∧
        vi.VertexID = VerticesIDs.getD i 0 ∧ FillRule L P i vi) ∧
    (∀ (prims : List FglTFRuntimePrimitive) (cfg : FglTFRuntimeStaticMeshConfig)
        (built : FBuilderState) (k j : Nat),
      buildMeshDescription L cfg prims = some built →
      prims[k]? = some P → P.Indices[j]? = some i →
      i < P.Positions.length ∧
      ∃ vi, built.MeshDescription.VertexInstances[
          ((prims.take k).map (fun Q => Q.Indices.length)).sum + j]? = some vi ∧
        FillRule L P i vi) := by
  refine ⟨?_, ?_⟩
  · intro VerticesIDs md hUV
    refine ⟨specInstance L P md.NumUVIndices (VerticesIDs.getD i 0) i, ?_,
      specInstance_VertexID L P _ _ i, specInstance_FillRule L P _ _ i hUV⟩
    rw [createFilledInstance_eq]
    simp only [pushInstance]
    exact getElem?_append_add md.VertexInstances _ 0
  · intro prims cfg built k j hb hP hj
    obtain ⟨hr, _, hVI, _, _, _⟩ := buildMeshDescription_spec hb
    have hPmem : P ∈ prims := List.getElem?_mem hP
    have hinst := specInstances_getElem? L (computeParameters prims).NumUVs prims 0 k P j i hP hj
    rw [← hVI] at hinst
    exact ⟨hr P hPmem i (List.getElem?_mem hj), _, hinst,
      specInstance_FillRule L P _ _ i
        ((foldl_parametersStep_NumUVs prims ⟨1, false, false⟩).2 P hPmem)⟩

/-- Witness for C10: occurrence 2 of `fillRulePrimitive` (index 2) is past the end of the
normals and of the second UV set, and the tangents are empty. -/
theorem attribute_fill_rule_witness :
    ∃ built,
      buildMeshDescription sampleEngine ⟨false, EglTFRuntimePivotPosition.Asset⟩
        [fillRulePrimitive] = some built ∧
      ∃ vi, built.MeshDescription.VertexInstances[2]? = some vi ∧
        vi.Normal = FVector.ZeroVector ∧ vi.Tangent = sampleEngine.DefaultTangent ∧
        vi.UVs[1]? = some FVector2D.ZeroVector :=
  ⟨_, rfl,
    let ⟨_, vi, hvi, hrule⟩ := (attribute_fill_rule sampleEngine fillRulePrimitive 2).2
      [fillRulePrimitive] ⟨false, EglTFRuntimePivotPosition.Asset⟩ _ 0 2 rfl rfl rfl
    ⟨vi, hvi, hrule.2.1 (by decide) (by decide), hrule.2.2.2.2.2.1 rfl,
      (hrule.2.2.2.2.2.2.2.2.2 1 [⟨7, 8⟩] rfl).2 (by decide)⟩⟩

/-- C11. The canonicalizer computes `NumUVs = max 1 (largest UV-set count)`, asks for normals
exactly when some primitive has no normals and for tangents exactly when some primitive has
no tangents, and gives `(1, false, false)` on the empty list; the primitive array after the
loop is the array before it, and a second run gives the same result. -/
theorem canonicalizer_globals (prims : List FglTFRuntimePrimitive) :
    (computeParameters prims).NumUVs =
        max 1 ((prims.map (fun P => P.UVs.length)).foldr max 0) ∧
      ((computeParameters prims).bCalculateNormals = true ↔ ∃ P ∈ prims, P.Normals = []) ∧
      ((computeParameters prims).bCalculateTangents = true ↔ ∃ P ∈ prims, P.Tangents = []) ∧
      computeParameters [] = ⟨1, false, false⟩ ∧
      (canonicalize prims).1 = computeParameters prims ∧
      (canonicalize prims).2 = prims ∧
      canonicalize (canonicalize prims).2 = canonicalize prims := by
  obtain ⟨h1, h2, h3⟩ := foldl_parametersStep_eq prims ⟨1, false, false⟩
  have hc : canonicalize prims = (computeParameters prims, prims) := by
    simp [canonicalize, computeParameters, foldl_canonicalize]
  refine ⟨h1, by simpa using h2, by simpa using h3, rfl, by rw [hc], by rw [hc], ?_⟩
  rw [hc]
  exact hc

/-- C12. On every successful build, with `NumUVs` the canonicalizer's value, every vertex
instance of the built and of the lowered editable mesh and every build vertex carries exactly
`NumUVs` UV channels; and, the engine's UV default being `vec2(0)`, every channel `c` with
`P.UVs.length ≤ c < NumUVs` of the vertex instance and of the build vertex of an index
occurrence of primitive `P` holds `vec2(0)`. -/
theorem uv_width (L : FEngine) (prims : List FglTFRuntimePrimitive)
    (cfg : FglTFRuntimeStaticMeshConfig) (built : FBuilderState) (mesh : UStaticMesh)
    (hdef : L.DefaultUV = FVector2D.ZeroVector)
    (hb : buildMeshDescription L cfg prims = some built)
    (h : LoadStaticMesh_Internal L prims cfg = some mesh) :
    (∀ vi ∈ built.MeshDescription.VertexInstances,
      vi.UVs.length = (computeParameters prims).NumUVs) ∧
    (∀ vi ∈ (finalMeshDescription L cfg prims built).VertexInstances,
      vi.UVs.length = (computeParameters prims).NumUVs) ∧
    (∀ bv ∈ mesh.BuildVertices, bv.UVs.length = (computeParameters prims).NumUVs) ∧
    ∀ (k : Nat) (P : FglTFRuntimePrimitive) (j i c : Nat),
      prims[k]? = some P → P.Indices[j]? = some i →
      P.UVs.length ≤ c → c < (computeParameters prims).NumUVs →
      ∃ vi bv,
        built.MeshDescription.VertexInstances[
          ((prims.take k).map (fun Q => Q.Indices.length)).sum + j]? = some vi ∧
        vi.UVs[c]? = some FVector2D.ZeroVector ∧
        mesh.BuildVertices[((prims.take k).map (fun Q => Q.Indices.length)).sum + j]? = some bv ∧
        bv.UVs[c]? = some FVector2D.ZeroVector := by
  obtain ⟨built', hb', _, _, _, _, hV⟩ := LoadStaticMesh_Internal_spec h
  rw [hb] at hb'
  cases Option.some.inj hb'
  obtain ⟨_, _, hVI, _, _, _⟩ := buildMeshDescription_spec hb
  have hbuilt : ∀ vi ∈ built.MeshDescription.VertexInstances,
      vi.UVs.length = (computeParameters prims).NumUVs := by
    intro vi hvi
    rw [hVI] at hvi
    exact specInstances_UVs_length L _ prims 0 vi hvi
  have hfinal : ∀ vi ∈ (finalMeshDescription L cfg prims built).VertexInstances,
      vi.UVs.length = (computeParameters prims).NumUVs := by
    intro vi hvi
    obtain ⟨n, hn⟩ := List.mem_iff_getElem?.mp hvi
    have hUV := finalMeshDescription_instance_UVs L cfg prims built n
    rw [hn] at hUV
    cases hw : built.MeshDescription.VertexInstances[n]? with
    | none => rw [hw] at hUV; exact Option.noConfusion hUV
    | some w =>
      rw [hw] at hUV
      simp only [Option.map_some', Option.some.injEq] at hUV
      rw [hUV]
      exact hbuilt w (List.getElem?_mem hw)
  have hN : ∀ vi ∈ (finalMeshDescription L cfg prims built).VertexInstances,
      (finalMeshDescription L cfg prims built).NumUVIndices =
        (computeParameters prims).NumUVs := by
    intro vi hvi
    obtain ⟨n, hn⟩ := List.mem_iff_getElem?.mp hvi
    have hlt : n < built.MeshDescription.VertexInstances.length := by
      rw [← finalMeshDescription_instances_length L cfg prims built]
      by_contra hge
      rw [List.getElem?_eq_none (Nat.le_of_not_lt hge)] at hn
      exact Option.noConfusion hn
    have hmem : built.MeshDescription.VertexInstances[n] ∈
        specInstances L (computeParameters prims).NumUVs 0 prims := by
      rw [← hVI]; exact List.getElem_mem _
    rw [finalMeshDescription_NumUVIndices,
      buildMeshDescription_NumUVIndices hb (specInstances_ne_nil_prims L _ 0 prims _ hmem)]
  refine ⟨hbuilt, hfinal, ?_, ?_⟩
  · intro bv hbv
    rw [hV, buildVertices, List.mem_map] at hbv
    obtain ⟨vi, hvi, rfl⟩ := hbv
    simp [buildVertex, hN vi hvi]
  · intro k P j i c hP hj hc1 hc2
    have hinst := specInstances_getElem? L (computeParameters prims).NumUVs prims 0 k P j i hP hj
    rw [← hVI] at hinst
    have hUV := finalMeshDescription_instance_UVs L cfg prims built
      (((prims.take k).map (fun Q => Q.Indices.length)).sum + j)
    rw [hinst] at hUV
    cases hw : (finalMeshDescription L cfg prims built).VertexInstances[
        ((prims.take k).map (fun Q => Q.Indices.length)).sum + j]? with
    | none => rw [hw] at hUV; exact Option.noConfusion hUV
    | some w =>
      rw [hw] at hUV
      simp only [Option.map_some', Option.some.injEq] at hUV
      have hch := specInstance_UVs_default L P (computeParameters prims).NumUVs
        (0 + ((prims.take k).map (fun Q => Q.Positions.length)).sum + i) i c hc1 hc2
      rw [hdef] at hch
      refine ⟨_, buildVertex L (finalMeshDescription L cfg prims built) w, hinst, hch, ?_, ?_⟩
      · rw [hV, buildVertices, List.getElem?_map, hw]
        rfl
      · simp only [buildVertex, hN w (List.getElem?_mem hw), hUV, List.getElem?_map,
          List.getElem?_range hc2, Option.map_some', List.getD_eq_getElem?_getD, hch,
          Option.getD_some]

/-- Witness for C12: a primitive with two UV sets followed by one with none; the vertex
instances of the second carry two zero channels. -/
theorem uv_width_witness :
    ∃ built mesh,
      buildMeshDescription sampleEngine ⟨false, EglTFRuntimePivotPosition.Asset⟩
        [fillRulePrimitive, samplePrimitive [0, 1, 2] 2] = some built ∧
      LoadStaticMesh_Internal sampleEngine [fillRulePrimitive, samplePrimitive [0, 1, 2] 2]
        ⟨false, EglTFRuntimePivotPosition.Asset⟩ = some mesh ∧
      mesh.BuildVertices.map (fun bv => bv.UVs.length) = [2, 2, 2, 2, 2, 2] ∧
      ∀ bv ∈ mesh.BuildVertices, bv.UVs.length =
        (computeParameters [fillRulePrimitive, samplePrimitive [0, 1, 2] 2]).NumUVs :=
  ⟨_, _, rfl, rfl, by decide,
    (uv_width sampleEngine [fillRulePrimitive, samplePrimitive [0, 1, 2] 2]
      ⟨false, EglTFRuntimePivotPosition.Asset⟩ _ _ rfl rfl rfl).2.2.1⟩

/-- C13. Exact arithmetic, bounds taken from the bounding box of the vertex positions. For a
mesh with at least one vertex, after the pivot shift the recomputed bounds have the origin
(sphere centre) at zero in mode Center, box centre + (0, 0, extent.z) at zero in mode Top, and
box centre - (0, 0, extent.z) at zero in mode Bottom, where moreover every position has
Z ≥ 0 and some position has Z = 0; in mode Asset the mesh is unchanged. -/
theorem pivot_recentres_bounds (L : FEngine) (hB : BoundsFromPositions L)
    (cfg : FglTFRuntimeStaticMeshConfig) (md : FMeshDescription)
    (hne : md.VertexPositions ≠ []) :
    (cfg.PivotPosition = EglTFRuntimePivotPosition.Center →
      (L.GetBounds (applyPivot L cfg md)).Origin = FVector.ZeroVector) ∧
    (cfg.PivotPosition = EglTFRuntimePivotPosition.Top →
      (L.GetBounds (applyPivot L cfg md)).GetBox.GetCenter.add
        ⟨0, 0, (L.GetBounds (applyPivot L cfg md)).GetBox.GetExtent.Z⟩ = FVector.ZeroVector) ∧
    (cfg.PivotPosition = EglTFRuntimePivotPosition.Bottom →
      (L.GetBounds (applyPivot L cfg md)).GetBox.GetCenter.sub
          ⟨0, 0, (L.GetBounds (applyPivot L cfg md)).GetBox.GetExtent.Z⟩ = FVector.ZeroVector ∧
        (∀ p ∈ (applyPivot L cfg md).VertexPositions, 0 ≤ p.Z) ∧
        ∃ p ∈ (applyPivot L cfg md).VertexPositions, p.Z = 0) ∧
    (cfg.PivotPosition = EglTFRuntimePivotPosition.Asset → applyPivot L cfg md = md) := by
  refine ⟨?_, ?_, ?_, ?_⟩
  · intro hc
    obtain ⟨h1, _⟩ := bounds_after_pivot L hB cfg md hne (by rw [hc]; decide)
    rw [h1]
    apply FVector.eq_of_components <;>
      simp only [PivotDelta, hc, FVector.sub, FVector.ZeroVector] <;> ring
  · intro hc
    obtain ⟨h1, h2⟩ := bounds_after_pivot L hB cfg md hne (by rw [hc]; decide)
    rw [GetBox_GetCenter, GetBox_GetExtent, h1, h2]
    apply FVector.eq_of_components <;>
      simp only [PivotDelta, hc, GetBox_GetCenter, GetBox_GetExtent, FVector.sub, FVector.add,
        FVector.ZeroVector] <;> ring
  · intro hc
    have hA : cfg.PivotPosition ≠ EglTFRuntimePivotPosition.Asset := by rw [hc]; decide
    obtain ⟨h1, h2⟩ := bounds_after_pivot L hB cfg md hne hA
    obtain ⟨h3, h4⟩ := hB md
    have hdZ : (PivotDelta cfg (L.GetBounds md)).Z = (boundingBox md.VertexPositions).Min.Z := by
      simp only [PivotDelta, hc]
      rw [GetBox_GetCenter, GetBox_GetExtent, h3, h4]
      simp only [FVector.sub, FBox.GetCenter, FBox.GetExtent, FVector.add, FVector.scale]
      ring
    obtain ⟨hmin, q, hq, hqZ⟩ := boundingBox_min_Z md.VertexPositions hne
    refine ⟨?_, ?_, ?_⟩
    · rw [GetBox_GetCenter, GetBox_GetExtent, h1, h2]
      apply FVector.eq_of_components <;>
        simp only [PivotDelta, hc, GetBox_GetCenter, GetBox_GetExtent, FVector.sub, FVector.add,
          FVector.ZeroVector] <;> ring
    · intro p hp
      rw [applyPivot_positions L cfg md hA, List.mem_map] at hp
      obtain ⟨p0, hp0, rfl⟩ := hp
      have := hmin p0 hp0
      simp only [FVector.sub, hdZ]
      linarith
    · refine ⟨q.sub (PivotDelta cfg (L.GetBounds md)), ?_, ?_⟩
      · rw [applyPivot_positions L cfg md hA]
        exact List.mem_map.mpr ⟨q, hq, rfl⟩
      · simp only [FVector.sub, hdZ, hqZ]
        ring
  · intro hc
    simp [applyPivot, hc]

/-- Witness for C13: two vertices, mode Bottom. -/
theorem pivot_recentres_bounds_witness :
    BoundsFromPositions boxEngine ∧
    ∃ p ∈ (applyPivot boxEngine ⟨false, EglTFRuntimePivotPosition.Bottom⟩
        ⟨[⟨0, 0, 3⟩, ⟨1, 2, 7⟩], [], [], [], 1⟩).VertexPositions, p.Z = 0 :=
  ⟨fun _ => ⟨rfl, rfl⟩,
    ((pivot_recentres_bounds boxEngine (fun _ => ⟨rfl, rfl⟩)
      ⟨false, EglTFRuntimePivotPosition.Bottom⟩ ⟨[⟨0, 0, 3⟩, ⟨1, 2, 7⟩], [], [], [], 1⟩
      (List.cons_ne_nil _ _)).2.2.1 rfl).2.2⟩

/-- C14, as stated, fails: the unit cube centred at (0, 0, 5) builds in mode Bottom, and the
published bounds, recomputed after the pivot shift, have their origin at Z = 1/2, not 5. -/
theorem cube_bottom_origin_is_half :
    ∃ mesh, LoadStaticMesh_Internal boxEngine [cubePrimitive]
        ⟨false, EglTFRuntimePivotPosition.Bottom⟩ = some mesh ∧
      mesh.Bounds.Origin.Z = 1 / 2 ∧ mesh.Bounds.Origin.Z ≠ 5 := by
  obtain ⟨mesh, h⟩ := LoadStaticMesh_Internal_succeeds boxEngine (fun _ _ _ => rfl)
    [cubePrimitive] ⟨false, EglTFRuntimePivotPosition.Bottom⟩ cubePrimitive_in_range
  have h' := h
  unfold LoadStaticMesh_Internal at h'
  cases hb : buildMeshDescription boxEngine ⟨false, EglTFRuntimePivotPosition.Bottom⟩
      [cubePrimitive] with
  | none => rw [hb] at h'; exact Option.noConfusion h'
  | some built =>
    rw [hb] at h'
    simp only [Option.some.injEq] at h'
    obtain ⟨_, hO, _⟩ := cube_bottom_bounds boxEngine (fun _ => ⟨rfl, rfl⟩)
      ⟨false, EglTFRuntimePivotPosition.Bottom⟩ cubePrimitive built rfl rfl hb
    have hZ : mesh.Bounds.Origin.Z = 1 / 2 := by
      rw [← h']
      simp only [lowerMesh, hO]
    exact ⟨mesh, h, hZ, by rw [hZ]; norm_num⟩

/-- C14, amended. For a unit cube centred at (0, 0, 5) built in mode Bottom, with bounds taken
from the bounding box of the vertex positions, the positions are the cube's moved down by
9/2, so their minimum Z is 0, and the published bounds have origin (0, 0, 1/2) and extent
(1/2, 1/2, 1/2). -/
theorem cube_bottom_scenario (L : FEngine) (hB : BoundsFromPositions L)
    (cfg : FglTFRuntimeStaticMeshConfig) (P : FglTFRuntimePrimitive) (built : FBuilderState)
    (mesh : UStaticMesh) (hP : P.Positions = cubePositions)
    (hcfg : cfg.PivotPosition = EglTFRuntimePivotPosition.Bottom)
    (hb : buildMeshDescription L cfg [P] = some built)
    (h : LoadStaticMesh_Internal L [P] cfg = some mesh) :
    (finalMeshDescription L cfg [P] built).VertexPositions =
        cubePositions.map (fun p => p.sub ⟨0, 0, 9/2⟩) ∧
      (∀ p ∈ (finalMeshDescription L cfg [P] built).VertexPositions, 0 ≤ p.Z) ∧
      (∃ p ∈ (finalMeshDescription L cfg [P] built).VertexPositions, p.Z = 0) ∧
      mesh.Bounds.Origin = ⟨0, 0, 1/2⟩ ∧ mesh.Bounds.BoxExtent = ⟨1/2, 1/2, 1/2⟩ ∧
      mesh.ExtendedBounds = mesh.Bounds := by
  obtain ⟨hVP, hO, hE⟩ := cube_bottom_bounds L hB cfg P built hP hcfg hb
  have hmesh : mesh = lowerMesh L (finalMeshDescription L cfg [P] built)
      built.StaticMaterials := by
    unfold LoadStaticMesh_Internal at h
    rw [hb] at h
    exact (Option.some.inj h).symm
  refine ⟨hVP, ?_, ?_, ?_, ?_, ?_⟩
  · intro p hp
    rw [hVP] at hp
    simp only [cubePositions, List.map_cons, List.map_nil, List.mem_cons, List.mem_singleton,
      List.not_mem_nil, or_false] at hp
    rcases hp with rfl | rfl | rfl | rfl | rfl | rfl | rfl | rfl <;>
      simp only [FVector.sub] <;> norm_num
  · refine ⟨(⟨-1/2, -1/2, 9/2⟩ : FVector).sub ⟨0, 0, 9/2⟩, ?_, ?_⟩
    · rw [hVP]
      simp [cubePositions]
    · simp only [FVector.sub]
      norm_num
  · rw [hmesh]; exact hO
  · rw [hmesh]; exact hE
  · rw [hmesh]; rfl

/-- Witness for the amended C14: the cube primitive on the bounding-box engine. -/
theorem cube_bottom_scenario_witness :
    BoundsFromPositions boxEngine ∧
    ∃ built mesh,
      buildMeshDescription boxEngine ⟨true, EglTFRuntimePivotPosition.Bottom⟩ [cubePrimitive] =
        some built ∧
      LoadStaticMesh_Internal boxEngine [cubePrimitive]
        ⟨true, EglTFRuntimePivotPosition.Bottom⟩ = some mesh ∧
      mesh.Bounds.Origin = ⟨0, 0, 1/2⟩ := by
  obtain ⟨mesh, h⟩ := LoadStaticMesh_Internal_succeeds boxEngine (fun _ _ _ => rfl)
    [cubePrimitive] ⟨true, EglTFRuntimePivotPosition.Bottom⟩ cubePrimitive_in_range
  obtain ⟨built, hb, _⟩ := LoadStaticMesh_Internal_spec h
  exact ⟨fun _ => ⟨rfl, rfl⟩, built, mesh, hb, h,
    (cube_bottom_scenario boxEngine (fun _ => ⟨rfl, rfl⟩)
      ⟨true, EglTFRuntimePivotPosition.Bottom⟩ cubePrimitive built mesh rfl rfl hb
      h).2.2.2.1⟩

/-- C15. For a document with a `meshes` array of length `n`, `LoadStaticMeshes` returns true
exactly when the loader, run on the indices `0, 1, ...` in order, gives `n` non-null assets,
and then the output list is extended by exactly these assets in that order; when it returns
false, some index `k < n` is the first to load null, the output list is extended by exactly
the `k` assets loaded before it, and the parser state is the one right after the load of
index `k`, so no later index is loaded. Without a `meshes` array it returns false and leaves
list and state alone. -/
theorem load_static_meshes_fails_fast {σ α : Type} (LoadStaticMesh : Nat → σ → Option α × σ)
    (n : Nat) (s : σ) (out : List α) :
    ((LoadStaticMeshes (some n) LoadStaticMesh s out).1 = true ↔
      ∃ assets s', assets.length = n ∧ LoadsInOrder LoadStaticMesh 0 s assets s') ∧
    ((LoadStaticMeshes (some n) LoadStaticMesh s out).1 = true →
      ∃ assets, assets.length = n ∧
        LoadsInOrder LoadStaticMesh 0 s assets
          (LoadStaticMeshes (some n) LoadStaticMesh s out).2.2 ∧
        (LoadStaticMeshes (some n) LoadStaticMesh s out).2.1 = out ++ assets) ∧
    ((LoadStaticMeshes (some n) LoadStaticMesh s out).1 = false →
      ∃ (k : Nat) (assets : List α) (sk : σ), k < n ∧ assets.length = k ∧
        LoadsInOrder LoadStaticMesh 0 s assets sk ∧ (LoadStaticMesh k sk).1 = none ∧
        LoadStaticMeshes (some n) LoadStaticMesh s out =
          (false, out ++ assets, (LoadStaticMesh k sk).2)) ∧
    LoadStaticMeshes none LoadStaticMesh s out = (false, out, s) := by
  refine ⟨⟨?_, ?_⟩, ?_, ?_, rfl⟩
  · intro h
    obtain ⟨assets, h1, h2, _⟩ := loadMeshesLoop_true LoadStaticMesh n 0 s out h
    exact ⟨assets, _, h1, h2⟩
  · rintro ⟨assets, s', h1, h2⟩
    subst h1
    simp only [LoadStaticMeshes]
    rw [loadMeshesLoop_of_loads LoadStaticMesh assets 0 s s' out h2]
  · exact loadMeshesLoop_true LoadStaticMesh n 0 s out
  · intro h
    obtain ⟨k, assets, sk, h1, h2, h3, h4, h5⟩ := loadMeshesLoop_false LoadStaticMesh n 0 s out h
    rw [Nat.zero_add] at h4 h5
    exact ⟨k, assets, sk, h1, h2, h3, h4, h5⟩

/-- Witness for C15: five meshes, index 2 loads null; the two assets before it are appended
and the indices 3 and 4 are never asked for. -/
theorem load_static_meshes_fails_fast_witness :
    LoadStaticMeshes (some 5) loggingLoader [] [7] = (false, [7, 0, 10], [0, 1, 2]) ∧
    LoadStaticMeshes (some 2) loggingLoader [] [7] = (true, [7, 0, 10], [0, 1]) ∧
    ((LoadStaticMeshes (some 5) loggingLoader [] [7]).1 = true ↔
      ∃ assets s', assets.length = 5 ∧ LoadsInOrder loggingLoader 0 [] assets s') :=
  ⟨by decide, by decide, (load_static_meshes_fails_fast loggingLoader 5 [] [7]).1⟩

/-- C16. On every successful build there are as many sections as primitives with at least one
triangle (aligned index triple with pairwise distinct indices), and the `i`-th section comes
from the `i`-th such primitive `P`, in primitive order: its triangle count is that of `P`,
and its maximum index and every entry of its slice of the index buffer are IDs of vertex
instances created for `P`. Every primitive gets a material slot, also one that contributes no
triangle, as does every primitive with fewer than 3 indices. -/
theorem sections_from_nonempty_groups (L : FEngine) (prims : List FglTFRuntimePrimitive)
    (cfg : FglTFRuntimeStaticMeshConfig) (mesh : UStaticMesh)
    (h : LoadStaticMesh_Internal L prims cfg = some mesh) :
    mesh.Sections.length =
      (prims.filter (fun P => decide (countTriangles P.Indices ≠ 0))).length ∧
    (producers 0 prims).map Prod.snd =
      prims.filter (fun P => decide (countTriangles P.Indices ≠ 0)) ∧
    (∀ (i : Nat) (s : FStaticMeshSection) (o : Nat) (P : FglTFRuntimePrimitive),
      mesh.Sections[i]? = some s → (producers 0 prims)[i]? = some (o, P) →
      s.NumTriangles = countTriangles P.Indices ∧
      o ≤ s.MaxVertexIndex ∧ s.MaxVertexIndex < o + P.Indices.length ∧
      ∀ j, s.FirstIndex ≤ j → j < s.FirstIndex + 3 * s.NumTriangles →
        ∃ v, mesh.IndexBuffer[j]? = some v ∧ o ≤ v ∧ v < o + P.Indices.length) ∧
    mesh.StaticMaterials.length = prims.length ∧
    (∀ P ∈ prims, P.Indices.length < 3 → countTriangles P.Indices = 0) := by
  obtain ⟨built, hb, hM, hS, hI, _, _⟩ := LoadStaticMesh_Internal_spec h
  obtain ⟨_, _, _, _, _, hmats⟩ := buildMeshDescription_spec hb
  obtain ⟨h1, h2⟩ := specSections_producers built.StaticMaterials cfg.bReverseWinding prims 0 0 []
  simp only [List.length_nil, List.nil_append] at h1 h2
  rw [← hS] at h1 h2
  rw [← hI] at h2
  refine ⟨?_, producers_map_snd prims 0, h2, ?_, fun P _ hlt => countTriangles_short _ hlt⟩
  · rw [h1, ← producers_map_snd prims 0, List.length_map]
  · rw [hM, hmats, List.length_map]

/-- Witness for C16: the second primitive has only a degenerate triple and the third fewer
than three indices; the two sections come from the first and the fourth primitive. -/
theorem sections_from_nonempty_groups_witness :
    ∃ mesh, LoadStaticMesh_Internal sampleEngine
        [samplePrimitive [0, 1, 2] 1, samplePrimitive [0, 0, 1] 2, samplePrimitive [1, 2] 3,
          samplePrimitive [2, 1, 0] 4] ⟨false, EglTFRuntimePivotPosition.Asset⟩ = some mesh ∧
      mesh.Sections.map (fun s => (s.FirstIndex, s.MinVertexIndex, s.MaxVertexIndex)) =
        [(0, 0, 2), (3, 8, 10)] ∧
      mesh.StaticMaterials.length = 4 ∧
      mesh.Sections.length =
        ([samplePrimitive [0, 1, 2] 1, samplePrimitive [0, 0, 1] 2, samplePrimitive [1, 2] 3,
          samplePrimitive [2, 1, 0] 4].filter
            (fun P => decide (countTriangles P.Indices ≠ 0))).length :=
  ⟨_, rfl, by decide, by decide,
    (sections_from_nonempty_groups sampleEngine
      [samplePrimitive [0, 1, 2] 1, samplePrimitive [0, 0, 1] 2, samplePrimitive [1, 2] 3,
        samplePrimitive [2, 1, 0] 4] ⟨false, EglTFRuntimePivotPosition.Asset⟩ _ rfl).1⟩

/-- C17. On every successful build the index stream of every primitive is in range and the
polygons of its group are exactly, in order, the triangles of its aligned triples
`k < n / 3` with pairwise distinct indices, over the vertex instances of the triple counted
from the first instance of the primitive: a discarded triple shifts nothing, trailing indices
give nothing, and nothing carries over from the primitive before. The sections' triangle
counts are the non-zero counts of such triples. -/
theorem triangles_by_aligned_triples (L : FEngine) (prims : List FglTFRuntimePrimitive)
    (cfg : FglTFRuntimeStaticMeshConfig) (built : FBuilderState) (mesh : UStaticMesh)
    (hb : buildMeshDescription L cfg prims = some built)
    (h : LoadStaticMesh_Internal L prims cfg = some mesh) :
    (∀ (g : Nat) (P : FglTFRuntimePrimitive), prims[g]? = some P →
      (∀ i ∈ P.Indices, i < P.Positions.length) ∧
      GetPolygonGroupPolygons built.MeshDescription g =
        alignedTriangles cfg.bReverseWinding g
          ((prims.take g).map (fun Q => Q.Indices.length)).sum P.Indices) ∧
    mesh.Sections.map (fun s => s.NumTriangles) =
      (prims.map (fun P => (alignedTriples P.Indices).length)).filter
        (fun n => decide (n ≠ 0)) := by
  obtain ⟨built', hb', _, hS, _, _, _⟩ := LoadStaticMesh_Internal_spec h
  rw [hb] at hb'
  cases Option.some.inj hb'
  obtain ⟨hr, _, _, hT, _, _⟩ := buildMeshDescription_spec hb
  refine ⟨?_, ?_⟩
  · intro g P hP
    refine ⟨hr P (List.getElem?_mem hP), ?_⟩
    have hfilter := filter_tagged_groups (specGroups cfg.bReverseWinding 0 0 prims) 0
      (fun k p hk t ht => specGroups_tagged cfg.bReverseWinding prims 0 0 k p hk t ht) g
    have hg := specGroups_getElem? cfg.bReverseWinding prims 0 0 g P hP
    simp only [Nat.zero_add] at hg
    unfold GetPolygonGroupPolygons
    rw [hT, hfilter]
    simp only [Nat.not_lt_zero, if_false, Nat.sub_zero, List.getD_eq_getElem?_getD,
      List.getElem?_map, hg, Option.map_some', Option.getD_some]
    exact specTriangles_eq_alignedTriangles _ _ _ _
  · rw [hS, specSections_NumTriangles]
    congr 1
    apply List.map_congr_left
    intro P _
    exact (alignedTriples_length P.Indices).symm

/-- Witness for C17: a degenerate first triple, a trailing index, and a next primitive that
starts a fresh triple. -/
theorem triangles_by_aligned_triples_witness :
    ∃ built mesh,
      buildMeshDescription sampleEngine ⟨false, EglTFRuntimePivotPosition.Asset⟩
        [samplePrimitive [0, 0, 1, 0, 1, 2, 1] 1, samplePrimitive [2, 1, 0] 2] = some built ∧
      LoadStaticMesh_Internal sampleEngine
        [samplePrimitive [0, 0, 1, 0, 1, 2, 1] 1, samplePrimitive [2, 1, 0] 2]
        ⟨false, EglTFRuntimePivotPosition.Asset⟩ = some mesh ∧
      mesh.IndexBuffer = [3, 4, 5, 7, 8, 9] ∧
      mesh.Sections.map (fun s => s.NumTriangles) =
        ([samplePrimitive [0, 0, 1, 0, 1, 2, 1] 1, samplePrimitive [2, 1, 0] 2].map
          (fun P => (alignedTriples P.Indices).length)).filter (fun n => decide (n ≠ 0)) :=
  ⟨_, _, rfl, rfl, by decide,
    (triangles_by_aligned_triples sampleEngine
      [samplePrimitive [0, 0, 1, 0, 1, 2, 1] 1, samplePrimitive [2, 1, 0] 2]
      ⟨false, EglTFRuntimePivotPosition.Asset⟩ _ _ rfl rfl).2⟩

/-- C18. A new vertex instance gets as ID the number of instances created before it, so on
every successful build the instance of occurrence `j` of the `k`-th primitive sits at the
number of index occurrences before it and refers to the vertex of its index; every index
triple of the index buffer is `n, n+1, n+2` (`n, n+2, n+1` under reverse winding); no value
occurs twice in the index buffer; and without reverse winding the index buffer is strictly
increasing and, the IDs fitting `uint32`, each section's `MinVertexIndex` is the first and its
`MaxVertexIndex` the last entry of its slice. -/
theorem vertex_instances_never_shared (L : FEngine) (prims : List FglTFRuntimePrimitive)
    (cfg : FglTFRuntimeStaticMeshConfig) (built : FBuilderState) (mesh : UStaticMesh)
    (hb : buildMeshDescription L cfg prims = some built)
    (h : LoadStaticMesh_Internal L prims cfg = some mesh) :
    (∀ (P : FglTFRuntimePrimitive) (VerticesIDs : List Nat) (md : FMeshDescription) (i : Nat),
      (createFilledInstance L P VerticesIDs md i).1 = md.VertexInstances.length ∧
      (createFilledInstance L P VerticesIDs md i).2.VertexInstances.length =
        md.VertexInstances.length + 1) ∧
    built.MeshDescription.VertexInstances.length =
      (prims.map (fun P => P.Indices.length)).sum ∧
    (∀ (k : Nat) (P : FglTFRuntimePrimitive) (j i : Nat),
      prims[k]? = some P → P.Indices[j]? = some i →
      ∃ vi, built.MeshDescription.VertexInstances[
          ((prims.take k).map (fun Q => Q.Indices.length)).sum + j]? = some vi ∧
        vi.VertexID = ((prims.take k).map (fun Q => Q.Positions.length)).sum + i) ∧
    (∀ k, 3 * k + 2 < mesh.IndexBuffer.length →
      ∃ n, mesh.IndexBuffer[3 * k]? = some n ∧
        mesh.IndexBuffer[3 * k + 1]? = some (if cfg.bReverseWinding then n + 2 else n + 1) ∧
        mesh.IndexBuffer[3 * k + 2]? = some (if cfg.bReverseWinding then n + 1 else n + 2)) ∧
    mesh.IndexBuffer.Nodup ∧
    (cfg.bReverseWinding = false →
      List.Pairwise (fun a b => a < b) mesh.IndexBuffer ∧
      ((prims.map (fun P => P.Indices.length)).sum ≤ 4294967296 →
        ∀ s ∈ mesh.Sections,
          mesh.IndexBuffer[s.FirstIndex]? = some s.MinVertexIndex ∧
          mesh.IndexBuffer[s.FirstIndex + 3 * s.NumTriangles - 1]? =
            some s.MaxVertexIndex)) := by
  obtain ⟨built', hb', _, hS, hI, _, _⟩ := LoadStaticMesh_Internal_spec h
  rw [hb] at hb'
  cases Option.some.inj hb'
  obtain ⟨_, _, hVI, hT, _, _⟩ := buildMeshDescription_spec hb
  refine ⟨?_, ?_, ?_, ?_, ?_, ?_⟩
  · intro P VerticesIDs md i
    rw [createFilledInstance_eq]
    simp [pushInstance]
  · rw [hVI, specInstances_length]
  · intro k P j i hP hj
    have hinst := specInstances_getElem? L (computeParameters prims).NumUVs prims 0 k P j i hP hj
    rw [← hVI] at hinst
    exact ⟨_, hinst, by rw [specInstance_VertexID, Nat.zero_add]⟩
  · intro k hk
    rw [hI, groupCorners_eq] at hk ⊢
    have hlen : k < ((specGroups cfg.bReverseWinding 0 0 prims).flatMap Prod.snd).length := by
      rw [length_flatMap_corners] at hk; omega
    obtain ⟨e0, e1, e2⟩ := getElem?_flatMap_corners
      ((specGroups cfg.bReverseWinding 0 0 prims).flatMap Prod.snd) k
    rw [List.getElem?_eq_getElem hlen] at e0 e1 e2
    obtain ⟨n, h0, h1, h2⟩ := specGroups_triple cfg.bReverseWinding prims 0 0 _
      (List.getElem_mem hlen)
    refine ⟨n, ?_, ?_, ?_⟩
    · rw [e0, Option.map_some', h0]
    · rw [e1, Option.map_some', h1]
    · rw [e2, Option.map_some', h2]
  · rw [hI]
    exact groupCorners_pairwise _ (fun a b hab => Nat.ne_of_lt hab) cfg.bReverseWinding
      (fun n => by cases cfg.bReverseWinding <;> simp) prims 0 0
  · intro hrev
    rw [hrev] at hS hI
    refine ⟨?_, ?_⟩
    · rw [hI]
      exact groupCorners_pairwise _ (fun _ _ hab => hab) false (fun n => by simp) prims 0 0
    · intro hcap s hs
      rw [hS] at hs
      have := specSections_ends built.StaticMaterials (specGroups false 0 0 prims) []
        (specGroups_sorted prims 0 0)
        (fun v hv => by
          have := (specGroups_bounds false prims 0 0 v hv).2
          omega) s hs
      simpa [hI] using this

/-- Witness for C18: two primitives, the first with a degenerate triple. -/
theorem vertex_instances_never_shared_witness :
    ∃ built mesh,
      buildMeshDescription sampleEngine ⟨false, EglTFRuntimePivotPosition.Asset⟩
        [samplePrimitive [1, 1, 0, 0, 1, 2] 1, samplePrimitive [2, 1, 0] 2] = some built ∧
      LoadStaticMesh_Internal sampleEngine
        [samplePrimitive [1, 1, 0, 0, 1, 2] 1, samplePrimitive [2, 1, 0] 2]
        ⟨false, EglTFRuntimePivotPosition.Asset⟩ = some mesh ∧
      mesh.IndexBuffer = [3, 4, 5, 6, 7, 8] ∧
      mesh.Sections.map (fun s => (s.MinVertexIndex, s.MaxVertexIndex)) = [(3, 5), (6, 8)] ∧
      mesh.IndexBuffer.Nodup :=
  ⟨_, _, rfl, rfl, by decide, by decide,
    (vertex_instances_never_shared sampleEngine
      [samplePrimitive [1, 1, 0, 0, 1, 2] 1, samplePrimitive [2, 1, 0] 2]
      ⟨false, EglTFRuntimePivotPosition.Asset⟩ _ _ rfl rfl).2.2.2.2.1⟩

/-- C19. The vertex instance that lines 85-138 create has the engine's default binormal sign
whatever the tangents of the primitive are, and so has every vertex instance after a
successful builder pass. When moreover every primitive supplies normals and tangents, no
per-instance derivation runs and the build vertex of every index occurrence has
`TangentX` = the instance's tangent (the vec3 part of the authored one when the index is
inside the stream), `TangentZ` = its normal, and
`TangentY = GetSafeNormal(cross(normal, tangent)) * default sign`. -/
theorem binormal_sign_never_written (L : FEngine) (prims : List FglTFRuntimePrimitive)
    (cfg : FglTFRuntimeStaticMeshConfig) (built : FBuilderState) (mesh : UStaticMesh)
    (hb : buildMeshDescription L cfg prims = some built)
    (h : LoadStaticMesh_Internal L prims cfg = some mesh) :
    (∀ (P : FglTFRuntimePrimitive) (VerticesIDs : List Nat) (md : FMeshDescription) (i : Nat),
      ∃ vi, (createFilledInstance L P VerticesIDs md i).2.VertexInstances[
          (createFilledInstance L P VerticesIDs md i).1]? = some vi ∧
        vi.BinormalSign = L.DefaultBinormalSign) ∧
    (∀ vi ∈ built.MeshDescription.VertexInstances, vi.BinormalSign = L.DefaultBinormalSign) ∧
    ((∀ P ∈ prims, P.Normals ≠ []) → (∀ P ∈ prims, P.Tangents ≠ []) →
      ∀ (k : Nat) (P : FglTFRuntimePrimitive) (j i : Nat),
        prims[k]? = some P → P.Indices[j]? = some i →
        ∃ vi bv,
          built.MeshDescription.VertexInstances[
            ((prims.take k).map (fun Q => Q.Indices.length)).sum + j]? = some vi ∧
          mesh.BuildVertices[((prims.take k).map (fun Q => Q.Indices.length)).sum + j]? =
            some bv ∧
          bv.TangentX = vi.Tangent ∧ bv.TangentZ = vi.Normal ∧
          bv.TangentY =
            (L.GetSafeNormal (FVector.CrossProduct vi.Normal vi.Tangent)).scale
              L.DefaultBinormalSign ∧
          (i < P.Tangents.length →
            (P.Tangents[i]?).map FVector4.toFVector = some bv.TangentX) ∧
          (i < P.Normals.length → P.Normals[i]? = some bv.TangentZ)) := by
  obtain ⟨built', hb', _, _, _, _, hV⟩ := LoadStaticMesh_Internal_spec h
  rw [hb] at hb'
  cases Option.some.inj hb'
  obtain ⟨_, _, hVI, _, _, _⟩ := buildMeshDescription_spec hb
  refine ⟨?_, ?_, ?_⟩
  · intro P VerticesIDs md i
    refine ⟨specInstance L P md.NumUVIndices (VerticesIDs.getD i 0) i, ?_,
      specInstance_BinormalSign L P _ _ i⟩
    rw [createFilledInstance_eq]
    simp only [pushInstance]
    exact getElem?_append_add md.VertexInstances _ 0
  · intro vi hvi
    rw [hVI] at hvi
    exact specInstances_BinormalSign L _ prims 0 vi hvi
  · intro hN hT k P j i hP hj
    obtain ⟨e1, e2⟩ := computeParameters_no_derivation prims hN hT
    have hfinal := finalMeshDescription_instances_of_no_derivation L cfg prims built e1 e2
    have hPmem : P ∈ prims := List.getElem?_mem hP
    have hinst := specInstances_getElem? L (computeParameters prims).NumUVs prims 0 k P j i hP hj
    rw [← hVI] at hinst
    have hrule := specInstance_FillRule L P (computeParameters prims).NumUVs
      (0 + ((prims.take k).map (fun Q => Q.Positions.length)).sum + i) i
      ((foldl_parametersStep_NumUVs prims ⟨1, false, false⟩).2 P hPmem)
    refine ⟨specInstance L P (computeParameters prims).NumUVs
        (0 + ((prims.take k).map (fun Q => Q.Positions.length)).sum + i) i,
      buildVertex L (finalMeshDescription L cfg prims built)
        (specInstance L P (computeParameters prims).NumUVs
          (0 + ((prims.take k).map (fun Q => Q.Positions.length)).sum + i) i),
      hinst, ?_, rfl, rfl, ?_, ?_, ?_⟩
    · rw [hV, buildVertices, List.getElem?_map, hfinal, hinst]
      rfl
    · simp only [buildVertex, specInstance_BinormalSign]
    · intro hlt
      exact hrule.2.2.2.1 (hT P hPmem) hlt
    · intro hlt
      exact hrule.1 (hN P hPmem) hlt

/-- Witness for C19: `authoredPrimitive`; the W = -1 of its tangents leaves no trace. -/
theorem binormal_sign_never_written_witness :
    ∃ built mesh,
      buildMeshDescription sampleEngine ⟨false, EglTFRuntimePivotPosition.Asset⟩
        [authoredPrimitive] = some built ∧
      LoadStaticMesh_Internal sampleEngine [authoredPrimitive]
        ⟨false, EglTFRuntimePivotPosition.Asset⟩ = some mesh ∧
      mesh.BuildVertices.map (fun bv => bv.TangentX) = [⟨1, 0, 0⟩, ⟨1, 0, 0⟩, ⟨1, 0, 0⟩] ∧
      ∀ vi ∈ built.MeshDescription.VertexInstances,
        vi.BinormalSign = sampleEngine.DefaultBinormalSign :=
  ⟨_, _, rfl, rfl, by decide,
    (binormal_sign_never_written sampleEngine [authoredPrimitive]
      ⟨false, EglTFRuntimePivotPosition.Asset⟩ _ _ rfl rfl).2.1⟩

end glTFRuntime
